import Mathlib

/-!
# libzerocash: the pour transaction

A shallow embedding of `libzerocash/PourTransaction.cpp` (`PourTransaction::init` and
`PourTransaction::verify`) together with the helpers and external collaborators
these two functions call, followed by theorems about them.

Conventions of the embedding:

* `std::vector<unsigned char>` and `std::string` are `List Byte`, `std::vector<bool>` is
  `List Bool`, `uint64_t` and `size_t` are `Nat`;
* the hash primitives, the proving system, the proof stream operators and the ECIES
  encryption, whose code is not among the sources, are the fields of `Externals`;
* a C++ exception or a failed `assert` is the result `none`; the list-taking constructor,
  whose only size tests are `assert`s, takes the build flag `NDEBUG` as an argument;
* integer arguments (`uint16_t`, `uint64_t`, `size_t`) are natural numbers, meant within the
  range of their type.
-/

namespace Libzerocash

/-! ## Protocol constants -/

/-- An unsigned char. -/
abbrev Byte := Fin 256

/-- Modelled from the spec: constant `a_sk_size` of `Zerocash.h` (not in the sources), section 6. -/
def a_sk_size : Nat := 32

/-- Modelled from the spec: constant `a_pk_size` of `Zerocash.h` (not in the sources), section 6. -/
def a_pk_size : Nat := 32

/-- Modelled from the spec: constant `rho_size` of `Zerocash.h` (not in the sources), section 6. -/
def rho_size : Nat := 32

/-- Modelled from the spec: constant `zc_r_size` of `Zerocash.h` (not in the sources), section 6. -/
def zc_r_size : Nat := 48

/-- Modelled from the spec: constant `v_size` of `Zerocash.h` (not in the sources), section 6. -/
def v_size : Nat := 8

/-- Modelled from the spec: constant `sn_size` of `Zerocash.h` (not in the sources), section 6. -/
def sn_size : Nat := 32

/-- Modelled from the spec: constant `cm_size` of `Zerocash.h` (not in the sources), section 6. -/
def cm_size : Nat := 32

/-- Modelled from the spec: constant `h_size` of `Zerocash.h` (not in the sources), section 6. -/
def h_size : Nat := 32

/-- Modelled from the spec: constant `root_size` of `Zerocash.h` (not in the sources), section 6. -/
def root_size : Nat := 32

/-- Modelled from the spec: constant `sig_pk_size` of `Zerocash.h` (not in the sources), section 6. -/
def sig_pk_size : Nat := 32

/-! ## Bit and byte helpers (`utils/util.cpp`) -/

/-- Modelled from the spec: the bits of one byte, most significant bit first (section 4.1,
"MSB-first per byte"); the per-byte step of `convertBytesToVector` in `utils/util.cpp`. -/
def byteToBits (c : Byte) : List Bool :=
  (List.range 8).map fun j => decide (c.val / 2 ^ (7 - j) % 2 = 1)

/-- Modelled from the spec: `convertBytesVectorToVector` of `utils/util.cpp` (not in the
sources): the byte-vector to bit-vector conversion of section 4.1, MSB first per byte. The
result has eight bits per input byte. -/
def convertBytesVectorToVector : List Byte → List Bool
  | [] => []
  | c :: cs => byteToBits c ++ convertBytesVectorToVector cs

/-- Modelled from the spec: `convertBytesToVector(bytes, v)` of `utils/util.cpp` (not in the
sources) on a raw buffer: it fills the bit vector `v`, whose size the caller fixed, from the
first `v.size() / 8` bytes of the buffer. -/
def convertBytesToVector (bytes : List Byte) (v : List Bool) : List Bool :=
  convertBytesVectorToVector (bytes.take (v.length / 8))

/-- The unsigned number written by a bit vector, most significant bit first. -/
def bitsToNat (bits : List Bool) : Nat :=
  bits.foldl (fun acc b => 2 * acc + b.toNat) 0

/-- Modelled from the spec: the byte packed from eight bits, most significant bit first; the
per-byte step of `convertVectorToBytes` in `utils/util.cpp`. -/
def bitsToByte (bits : List Bool) : Byte :=
  ⟨bitsToNat bits % 256, Nat.mod_lt _ (by decide)⟩

/-- Modelled from the spec: `convertVectorToBytesVector` of `utils/util.cpp` (not in the
sources): the bit-vector to byte-vector conversion of section 4.1. Every complete group of
eight bits gives one byte; a trailing incomplete group gives none. -/
def convertVectorToBytesVector : List Bool → List Byte
  | b0 :: b1 :: b2 :: b3 :: b4 :: b5 :: b6 :: b7 :: rest =>
      bitsToByte [b0, b1, b2, b3, b4, b5, b6, b7] :: convertVectorToBytesVector rest
  | _ => []

/-- Modelled from the spec: `convertIntToBytesVector(val_int, bytes)` of `utils/util.cpp` (not
in the sources): the big-endian bytes of an integer at the width `size` of the vector the
caller passes (section 4.1). -/
def convertIntToBytesVector (val_int : Nat) (size : Nat) : List Byte :=
  (List.range size).map fun k =>
    ⟨val_int / 2 ^ (8 * (size - 1 - k)) % 256, Nat.mod_lt _ (by decide)⟩

/-- Modelled from the spec: `convertBytesVectorToInt` of `utils/util.cpp` (not in the sources):
the unsigned 64-bit integer written big-endian by a byte vector (section 4.1). -/
def convertBytesVectorToInt (bytes : List Byte) : Nat :=
  bytes.foldl (fun acc b => 256 * acc + b.val) 0 % 2 ^ 64

/-- Modelled from the spec: `concatenateVectors(A, B, result)` of `utils/util.cpp` (not in the
sources), called with an empty `result`: vector concatenation (section 4.1). -/
def concatenateVectors (A B : List Bool) : List Bool :=
  A ++ B

/-- Modelled from the spec: `convertBytesVectorToBytes(v, bytes)` of `utils/util.cpp` (not in
the sources), read back through the `size` bytes the caller then hashes: the bytes of `v` that
fit the buffer. For a vector of exactly `size` bytes this is the vector itself; for a shorter
one the source hashes indeterminate bytes after the copied ones, for a longer one it writes
past the buffer, and the value given here is a convention. -/
def convertBytesVectorToBytes (v : List Byte) (size : Nat) : List Byte :=
  v.take size

/-- The effect of `std::copy(src.begin(), src.end(), dst.begin())` on `dst`: the leading
elements of `dst` are overwritten by `src` (which must not be longer than `dst`). -/
def stdCopy {α : Type} (src dst : List α) : List α :=
  src ++ dst.drop src.length

/-- The effect of `v.erase(v.end() - n, v.end())`: the last `n` elements are removed. -/
def eraseEnd {α : Type} (n : Nat) (v : List α) : List α :=
  v.take (v.length - n)

/-- The effect of `v.insert(v.begin(), b)`: `b` becomes the first element. -/
def insertBegin {α : Type} (b : α) (v : List α) : List α :=
  b :: v

/-! ## Data model -/

/-- Modelled from the spec: class `CoinCommitment` (`CoinCommitment.h`, not in the sources),
read through `getCommitmentValue()`. -/
structure CoinCommitment where
  commitmentValue : List Byte
deriving DecidableEq

/-- Modelled from the spec: class `PublicAddress` (`Address.h`, not in the sources), read
through `getPublicAddressSecret()` and `getEncryptionPublicKey()` (section 3). -/
structure PublicAddress where
  addr_pk : List Byte
  encryptionPublicKey : List Byte
deriving DecidableEq

/-- Modelled from the spec: class `Address` (`Address.h`, not in the sources), read through
`getAddressSecret()` and `getPublicAddress()` (section 3). -/
structure Address where
  addr_pk : PublicAddress
  addr_sk : List Byte
  encryptionSecretKey : List Byte
deriving DecidableEq

/-- Modelled from the spec: class `Coin` (`Coin.h`, not in the sources): recipient address,
commitment, `rho`, `r` and the value in network byte order (section 3). -/
structure Coin where
  addr_pk : PublicAddress
  cm : CoinCommitment
  rho : List Byte
  r : List Byte
  coinValue : List Byte
deriving DecidableEq

/-- Modelled from the spec: `Coin::getValue()` (`Coin.cpp`, not in the sources): the value as an
unsigned 64-bit integer. -/
def Coin.getValue (c : Coin) : Nat :=
  convertBytesVectorToInt c.coinValue

/-- A Merkle authentication path: one hash per level. -/
abbrev merkle_authentication_path := List (List Bool)

/-- The members of class `PourTransaction` (`PourTransaction.h`, private section; the two
public values carry the names `PourTransaction.cpp` uses for them). -/
structure PourTransaction where
  publicInValue : List Byte
  publicOutValue : List Byte
  serialNumber_1 : List Byte
  serialNumber_2 : List Byte
  cm_1 : CoinCommitment
  cm_2 : CoinCommitment
  MAC_1 : List Byte
  MAC_2 : List Byte
  ciphertext_1 : List Byte
  ciphertext_2 : List Byte
  zkSNARK : List Byte
  version : Nat
deriving DecidableEq

/-! ## External collaborators -/

/-- The arguments of `zerocash_pour_ppzksnark_prover` after the proving key, in the order of
the call in `init` (lines 274-288); a braced pair of the source is a pair here. -/
structure ProverArgs where
  paths : merkle_authentication_path × merkle_authentication_path
  idxs : Nat × Nat
  root_bv : List Bool
  addr_pk_new_bv : List Bool × List Bool
  addr_sk_old_bv : List Bool × List Bool
  rand_new_bv : List Bool × List Bool
  rand_old_bv : List Bool × List Bool
  nonce_new_bv : List Bool × List Bool
  nonce_old_bv : List Bool × List Bool
  val_new_bv : List Bool × List Bool
  val_in_pub_bv : List Bool
  val_out_pub_bv : List Bool
  val_old_bv : List Bool × List Bool
  h_S_bv : List Bool
deriving DecidableEq

/-- The functions `init` and `verify` call whose code is not among the sources: `hashVector`
(the compression `CRH`, filling the 256-bit vector the caller allocated), OpenSSL's SHA-256
(filling an `h_size`-byte buffer), the prover and the verifier of the proving system, the stream
operators of the proof type, and ECIES encryption.

* `zerocash_pour_ppzksnark_prover` may throw, which is `none`;
* `readProof blob` is `ss >> proof_SNARK` on a default-constructed proof: the proof object the
  extraction leaves, and whether the stream is still good afterwards;
* `eciesEncrypt prng key plaintext` loads the public key and encrypts under it, drawing from
  the random pool; it returns the ciphertext and the pool afterwards, or `none` when it
  throws. -/
structure Externals where
  hashVector : List Bool → List Bool
  hashVector_size : ∀ input, (hashVector input).length = 256
  SHA256 : List Byte → List Byte
  SHA256_size : ∀ data, (SHA256 data).length = h_size
  ProvingKey : Type
  VerificationKey : Type
  Proof : Type
  Rng : Type
  zerocash_pour_ppzksnark_prover : ProvingKey → ProverArgs → Option Proof
  zerocash_pour_ppzksnark_verifier : VerificationKey → List Bool → List Bool × List Bool →
    List Bool × List Bool → List Bool → List Bool → List Bool → List Bool × List Bool →
    Proof → Bool
  writeProof : Proof → List Byte
  readProof : List Byte → Proof × Bool
  eciesEncrypt : Rng → List Byte → List Byte → Option (List Byte × Rng)

/-- Modelled from the spec: class `ZerocashParams` (`ZerocashParams.h`, not in the sources),
read through `getTreeDepth()`, `getProvingKey()` and `getVerificationKey()`. -/
structure ZerocashParams (E : Externals) where
  treeDepth : Nat
  provingKey : E.ProvingKey
  verificationKey : E.VerificationKey

/-! ## `PourTransaction::init` -/

namespace PourTransaction

/-- The vector `nonce_old_1` (lines 209-214), and `nonce_old_2` (lines 223-228), of `init`: a
vector of `rho_size * 8` bits receives a copy of `nonce_old_j_bv`, its last two bits are erased,
and `1` and then `0` are inserted at its front. -/
def nonce_old (nonce_old_bv : List Bool) : List Bool :=
  let copied := stdCopy nonce_old_bv (List.replicate (rho_size * 8) false)
  let erased := eraseEnd 2 copied
  insertBegin false (insertBegin true erased)

/-- The vector `sn_internal_1` (line 217), and `sn_internal_2` (line 231), of `init`. -/
def sn_internal (addr_sk_old_bv nonce_old_bv : List Bool) : List Bool :=
  concatenateVectors addr_sk_old_bv (nonce_old nonce_old_bv)

/-- The vector `sn_old_1_bv` (lines 218-219), and `sn_old_2_bv` (lines 232-233), of `init`. -/
def sn_old_bv (E : Externals) (addr_sk_old_bv nonce_old_bv : List Bool) : List Bool :=
  E.hashVector (sn_internal addr_sk_old_bv nonce_old_bv)

/-- The buffer `h_S_bytes` of `init` (lines 237-243) and of `verify` (lines 400-406): SHA-256
of the `h_size` bytes copied from `pubkeyHash`. -/
def h_S_bytes (E : Externals) (pubkeyHash : List Byte) : List Byte :=
  E.SHA256 (convertBytesVectorToBytes pubkeyHash h_size)

/-- The vector `h_S_bv` of `init` (lines 245-246) and of `verify` (lines 414-415). -/
def h_S_bv (E : Externals) (pubkeyHash : List Byte) : List Bool :=
  convertBytesToVector (h_S_bytes E pubkeyHash) (List.replicate (h_size * 8) false)

/-- The vector `h_S_internal1` of `init` right after line 250, which line 251 copies into
`h_S_internal2`: the bits of `h_S_bytes` with the last three erased. -/
def h_S_erased (E : Externals) (pubkeyHash : List Byte) : List Bool :=
  eraseEnd 3 (convertBytesToVector (h_S_bytes E pubkeyHash) (List.replicate (h_size * 8) false))

/-- The vector `h_S_internal1` of `init` after lines 253-255: `0`, `0` and `1` are inserted at
the front, in this order. -/
def h_S_internal1 (E : Externals) (pubkeyHash : List Byte) : List Bool :=
  insertBegin true (insertBegin false (insertBegin false (h_S_erased E pubkeyHash)))

/-- The vector `h_S_internal2` of `init` after lines 257-259: `1`, `0` and `1` are inserted at
the front, in this order. -/
def h_S_internal2 (E : Externals) (pubkeyHash : List Byte) : List Bool :=
  insertBegin true (insertBegin false (insertBegin true (h_S_erased E pubkeyHash)))

/-- The vector `MAC_1_internal` of `init` (line 262). -/
def MAC_1_internal (E : Externals) (addr_sk_old_1_bv : List Bool) (pubkeyHash : List Byte) :
    List Bool :=
  concatenateVectors addr_sk_old_1_bv (h_S_internal1 E pubkeyHash)

/-- The vector `MAC_2_internal` of `init` (line 268). -/
def MAC_2_internal (E : Externals) (addr_sk_old_2_bv : List Bool) (pubkeyHash : List Byte) :
    List Bool :=
  concatenateVectors addr_sk_old_2_bv (h_S_internal2 E pubkeyHash)

/-- The vector `MAC_1_bv` of `init` (lines 263-264). -/
def MAC_1_bv (E : Externals) (addr_sk_old_1_bv : List Bool) (pubkeyHash : List Byte) :
    List Bool :=
  E.hashVector (MAC_1_internal E addr_sk_old_1_bv pubkeyHash)

/-- The vector `MAC_2_bv` of `init` (lines 269-270). -/
def MAC_2_bv (E : Externals) (addr_sk_old_2_bv : List Bool) (pubkeyHash : List Byte) :
    List Bool :=
  E.hashVector (MAC_2_internal E addr_sk_old_2_bv pubkeyHash)

/-- The vectors `val_old_1_bv`, `val_old_2_bv`, `val_new_1_bv` and `val_new_2_bv` of `init`
(lines 190-204): the coin's value as `v_size` big-endian bytes, then as bits. -/
def val_bv (c : Coin) : List Bool :=
  convertBytesVectorToVector (convertIntToBytesVector c.getValue v_size)

/-- The vector `ciphertext_1_internals` (lines 325-328), and `ciphertext_2_internals`
(lines 343-346), of `init`. -/
def ciphertext_internals (c_new : Coin) : List Byte :=
  c_new.coinValue ++ c_new.r ++ c_new.rho

/-- The arguments `init` passes to the prover (lines 274-288). -/
def proverArgs (E : Externals) (rt : List Byte) (c_1_old c_2_old : Coin)
    (addr_1_old addr_2_old : Address) (patMerkleIdx_1 patMerkleIdx_2 : Nat)
    (patMAC_1 patMAC_2 : merkle_authentication_path) (addr_1_new addr_2_new : PublicAddress)
    (v_pub_in v_pub_out : Nat) (pubkeyHash : List Byte) (c_1_new c_2_new : Coin) :
    ProverArgs :=
  { paths := (patMAC_1, patMAC_2)
    idxs := (patMerkleIdx_1, patMerkleIdx_2)
    root_bv := convertBytesVectorToVector rt
    addr_pk_new_bv := (convertBytesVectorToVector addr_1_new.addr_pk,
      convertBytesVectorToVector addr_2_new.addr_pk)
    addr_sk_old_bv := (convertBytesVectorToVector addr_1_old.addr_sk,
      convertBytesVectorToVector addr_2_old.addr_sk)
    rand_new_bv := (convertBytesVectorToVector c_1_new.r, convertBytesVectorToVector c_2_new.r)
    rand_old_bv := (convertBytesVectorToVector c_1_old.r, convertBytesVectorToVector c_2_old.r)
    nonce_new_bv := (convertBytesVectorToVector c_1_new.rho,
      convertBytesVectorToVector c_2_new.rho)
    nonce_old_bv := (convertBytesVectorToVector c_1_old.rho,
      convertBytesVectorToVector c_2_old.rho)
    val_new_bv := (val_bv c_1_new, val_bv c_2_new)
    val_in_pub_bv := convertBytesVectorToVector (convertIntToBytesVector v_pub_in v_size)
    val_out_pub_bv := convertBytesVectorToVector (convertIntToBytesVector v_pub_out v_size)
    val_old_bv := (val_bv c_1_old, val_bv c_2_old)
    h_S_bv := h_S_bv E pubkeyHash }

/-- The member `zkSNARK` as `init` sets it (lines 273-295): for a version above zero the proof
the prover returns, written to a string; otherwise 1235 times the character `A`. -/
def init_zkSNARK (E : Externals) (version_num : Nat) (params : ZerocashParams E)
    (args : ProverArgs) : Option (List Byte) :=
  if version_num > 0 then
    (E.zerocash_pour_ppzksnark_prover params.provingKey args).map E.writeProof
  else
    some (List.replicate 1235 65)

/-- One of the two encryptions of `init` (lines 321-337 and 339-355): the plaintext is
assembled, its size is asserted, and its first `v_size + zc_r_size + rho_size` bytes are
encrypted under the recipient's encryption public key with the random pool `prng_1`. -/
def init_encrypt (E : Externals) (prng_1 : E.Rng) (addr_new : PublicAddress) (c_new : Coin) :
    Option (List Byte × E.Rng) :=
  let internals := ciphertext_internals c_new
  if internals.length = v_size + zc_r_size + rho_size then
    E.eciesEncrypt prng_1 addr_new.encryptionPublicKey
      (internals.take (v_size + zc_r_size + rho_size))
  else
    none

/-- The function `PourTransaction::init` (lines 118-356), run on an object whose byte-vector members have the
sizes both non-default constructors give them (`v_size`, `sn_size`, `h_size`; lines 56 and 112).
The result is the object afterwards, or `none` when the prover or the encryption throws or an
assertion fails; a constructor that calls `init` then yields no object, while the members
assigned before the throw (lines 137-271) stay assigned in an object `init` was called on
directly. The random pool `prng_1` is an explicit argument; `prng_2` is never used. -/
def init (E : Externals) (version_num : Nat) (params : ZerocashParams E) (rt : List Byte)
    (c_1_old c_2_old : Coin) (addr_1_old addr_2_old : Address)
    (patMerkleIdx_1 patMerkleIdx_2 : Nat) (patMAC_1 patMAC_2 : merkle_authentication_path)
    (addr_1_new addr_2_new : PublicAddress) (v_pub_in v_pub_out : Nat)
    (pubkeyHash : List Byte) (c_1_new c_2_new : Coin) (prng_1 : E.Rng) :
    Option PourTransaction :=
  let addr_sk_old_1_bv := convertBytesVectorToVector addr_1_old.addr_sk
  let addr_sk_old_2_bv := convertBytesVectorToVector addr_2_old.addr_sk
  let nonce_old_1_bv := convertBytesVectorToVector c_1_old.rho
  let nonce_old_2_bv := convertBytesVectorToVector c_2_old.rho
  let args := proverArgs E rt c_1_old c_2_old addr_1_old addr_2_old patMerkleIdx_1
    patMerkleIdx_2 patMAC_1 patMAC_2 addr_1_new addr_2_new v_pub_in v_pub_out pubkeyHash
    c_1_new c_2_new
  match init_zkSNARK E version_num params args with
  | none => none
  | some zkSNARK =>
    match init_encrypt E prng_1 addr_1_new c_1_new with
    | none => none
    | some (C_1_string, prng_1) =>
      match init_encrypt E prng_1 addr_2_new c_2_new with
      | none => none
      | some (C_2_string, _) =>
        some
          { version := version_num
            publicInValue := convertIntToBytesVector v_pub_in v_size
            publicOutValue := convertIntToBytesVector v_pub_out v_size
            cm_1 := c_1_new.cm
            cm_2 := c_2_new.cm
            serialNumber_1 :=
              convertVectorToBytesVector (sn_old_bv E addr_sk_old_1_bv nonce_old_1_bv)
            serialNumber_2 :=
              convertVectorToBytesVector (sn_old_bv E addr_sk_old_2_bv nonce_old_2_bv)
            MAC_1 := convertVectorToBytesVector (MAC_1_bv E addr_sk_old_1_bv pubkeyHash)
            MAC_2 := convertVectorToBytesVector (MAC_2_bv E addr_sk_old_2_bv pubkeyHash)
            zkSNARK := zkSNARK
            ciphertext_1 := C_1_string
            ciphertext_2 := C_2_string }

/-! ## `PourTransaction::verify` -/

/-- The function `PourTransaction::verify` (lines 358-428). The vector `h_S_internal` of lines 408-412 is
computed by the source and never read, so it is left out. -/
def verify (E : Externals) (this : PourTransaction) (params : ZerocashParams E)
    (pubkeyHash : List Byte) (merkleRoot : List Byte) : Bool :=
  if this.version = 0 then true
  else
    let proof_SNARK := (E.readProof this.zkSNARK).1
    if merkleRoot.length ≠ root_size then false
    else if pubkeyHash.length ≠ h_size then false
    else if this.serialNumber_1.length ≠ sn_size then false
    else if this.serialNumber_2.length ≠ sn_size then false
    else if this.publicInValue.length ≠ v_size then false
    else if this.publicOutValue.length ≠ v_size then false
    else if this.MAC_1.length ≠ h_size then false
    else if this.MAC_2.length ≠ h_size then false
    else
      let root_bv := convertBytesVectorToVector merkleRoot
      let sn_old_1_bv := convertBytesVectorToVector this.serialNumber_1
      let sn_old_2_bv := convertBytesVectorToVector this.serialNumber_2
      let cm_new_1_bv := convertBytesVectorToVector this.cm_1.commitmentValue
      let cm_new_2_bv := convertBytesVectorToVector this.cm_2.commitmentValue
      let val_in_pub_bv := convertBytesVectorToVector this.publicInValue
      let val_out_pub_bv := convertBytesVectorToVector this.publicOutValue
      let MAC_1_bv := convertBytesVectorToVector this.MAC_1
      let MAC_2_bv := convertBytesVectorToVector this.MAC_2
      let h_S_bv := h_S_bv E pubkeyHash
      E.zerocash_pour_ppzksnark_verifier params.verificationKey root_bv
        (sn_old_1_bv, sn_old_2_bv) (cm_new_1_bv, cm_new_2_bv) val_in_pub_bv val_out_pub_bv
        h_S_bv (MAC_1_bv, MAC_2_bv) proof_SNARK

end PourTransaction

/-! ## A reference instance of the external collaborators -/

/-- Value conservation on the prover's arguments, over the natural numbers (no wrap-around):
`v_old_1 + v_old_2 + v_pub_in = v_new_1 + v_new_2 + v_pub_out`, each value read from its
big-endian bit vector. -/
def valuesBalance (args : ProverArgs) : Prop :=
  bitsToNat args.val_old_bv.1 + bitsToNat args.val_old_bv.2 + bitsToNat args.val_in_pub_bv =
    bitsToNat args.val_new_bv.1 + bitsToNat args.val_new_bv.2 + bitsToNat args.val_out_pub_bv

instance (args : ProverArgs) : Decidable (valuesBalance args) := by
  unfold valuesBalance
  infer_instance

/-- A small executable instance of `Externals`, used to run `init` and `verify` on concrete
inputs. `hashVector` returns the second 256-bit block of its input and `SHA256` the first
`h_size` bytes (both zero-padded); a proof is one boolean, written as one byte; the prover
throws on arguments whose values do not balance and otherwise returns the proof `true`; the
verifier accepts exactly the proof `true`; a blob that is not the single byte 0 or 1 fails to
parse and leaves the proof `false`; encryption is the identity. -/
def referenceExternals : Externals where
  hashVector := fun input => (input.drop 256 ++ List.replicate 256 false).take 256
  hashVector_size := by
    intro input
    rw [List.length_take, List.length_append, List.length_replicate]
    omega
  SHA256 := fun data => (data ++ List.replicate h_size 0).take h_size
  SHA256_size := by
    intro data
    rw [List.length_take, List.length_append, List.length_replicate]
    omega
  ProvingKey := Unit
  VerificationKey := Unit
  Proof := Bool
  Rng := Unit
  zerocash_pour_ppzksnark_prover := fun _ args => if valuesBalance args then some true else none
  zerocash_pour_ppzksnark_verifier := fun _ _ _ _ _ _ _ _ proof => proof
  writeProof := fun proof => [if proof then 1 else 0]
  readProof := fun blob =>
    match blob with
    | [b] => if b = 1 then (true, true) else if b = 0 then (false, true) else (false, false)
    | _ => (false, false)
  eciesEncrypt := fun prng _ plaintext => some (plaintext, prng)

/-- Parameters for `referenceExternals` with tree depth 4. -/
def referenceParams : ZerocashParams referenceExternals :=
  { treeDepth := 4, provingKey := (), verificationKey := () }

/-- A public address whose two parts are the byte `b` repeated. -/
def samplePublicAddress (b : Byte) : PublicAddress :=
  { addr_pk := List.replicate a_pk_size b, encryptionPublicKey := List.replicate 4 b }

/-- An address with secret `a_sk_size` times the byte `b`. -/
def sampleAddress (b : Byte) : Address :=
  { addr_pk := samplePublicAddress b
    addr_sk := List.replicate a_sk_size b
    encryptionSecretKey := List.replicate 4 b }

/-- A coin of value `v` paid to `samplePublicAddress b`, with `rho`, `r` and the commitment
filled with the byte `b`. -/
def sampleCoin (b : Byte) (v : Nat) : Coin :=
  { addr_pk := samplePublicAddress b
    cm := { commitmentValue := List.replicate cm_size b }
    rho := List.replicate rho_size b
    r := List.replicate zc_r_size b
    coinValue := convertIntToBytesVector v v_size }

/-- The public key hash of the tests: `sig_pk_size` times the character `a`. -/
def samplePubkeyHash : List Byte :=
  List.replicate sig_pk_size 97

/-- An authentication path for a tree of depth 4: four all-zero hashes. -/
def samplePath : merkle_authentication_path :=
  List.replicate 4 (List.replicate 256 false)

/-- A pour under `referenceExternals`: old coins of values `v_old_1` and `v_old_2` at indices 1
and 3, new coins of values `v_new_1` and `v_new_2`, anchor `rt`. -/
def samplePour (version_num : Nat) (rt : List Byte) (v_old_1 v_old_2 v_new_1 v_new_2 : Nat)
    (v_pub_in v_pub_out : Nat) : Option PourTransaction :=
  PourTransaction.init referenceExternals version_num referenceParams rt
    (sampleCoin 1 v_old_1) (sampleCoin 2 v_old_2) (sampleAddress 1) (sampleAddress 2) 1 3
    samplePath samplePath
    (samplePublicAddress 3) (samplePublicAddress 4) v_pub_in v_pub_out samplePubkeyHash
    (sampleCoin 3 v_new_1) (sampleCoin 4 v_new_2) ()

/-- An anchor root: `root_size` times the byte `b`. -/
def sampleRoot (b : Byte) : List Byte :=
  List.replicate root_size b

/-- A version 0 transaction as a default-constructed object would hold it after only its
version and proof members were set: the placeholder proof and empty byte vectors. -/
def placeholderTx : PourTransaction :=
  { publicInValue := []
    publicOutValue := []
    serialNumber_1 := []
    serialNumber_2 := []
    cm_1 := { commitmentValue := [] }
    cm_2 := { commitmentValue := [] }
    MAC_1 := []
    MAC_2 := []
    ciphertext_1 := []
    ciphertext_2 := []
    zkSNARK := List.replicate 1235 65
    version := 0 }

/-- The pour of the tests (`PourTxTest`): coins of value 1 and 3 poured into 2 and 2 with no
public value, version 1, built under `referenceExternals`. -/
def balancedTx : PourTransaction :=
  (samplePour 1 (sampleRoot 7) 1 3 2 2 0 0).getD placeholderTx

/-! ## Accessors of the public values -/

namespace PourTransaction

/-- The accessor `PourTransaction::getPublicValueIn` (lines 460-462). -/
def getPublicValueIn (this : PourTransaction) : Nat :=
  convertBytesVectorToInt this.publicInValue

/-- The accessor `PourTransaction::getPublicValueOut` (lines 464-466). -/
def getPublicValueOut (this : PourTransaction) : Nat :=
  convertBytesVectorToInt this.publicOutValue

end PourTransaction

/-- A version 1 pour under `referenceExternals` with public values near the top of the 64-bit
range: `1 + 3 + (2^64 - 2) = 2 + 1 + (2^64 - 1)`. -/
def largeValueTx : PourTransaction :=
  (samplePour 1 (sampleRoot 7) 1 3 2 1 (2 ^ 64 - 2) (2 ^ 64 - 1)).getD placeholderTx

/-! ## Addresses and coins -/

/-- Modelled from the spec: the length `truncated_len` of section 4.3, which the spec names
without giving its value. Sections 3 and 4.4 hash the whole 256-bit `k`, which is this value. -/
def truncated_len : Nat := 256

/-- Modelled from the spec: step 2 of section 4.3 (`Coin.cpp`, not in the sources):
`outer_input = inner_bits[0..truncated_len] || zero_padding || v_bits`, the padding filling the
input up to 512 bits. The same layout serves the mint verification of section 4.4. -/
def outer_input (inner v_bits : List Bool) : List Bool :=
  let head := inner.take truncated_len
  head ++ List.replicate (512 - head.length - v_bits.length) false ++ v_bits

/-- Modelled from the spec: the address derivation of section 4.3 (`Address.cpp`, not in the
sources): `a_pk = CRH(a_sk_bits[0..254] || "00" || 254 zeros)`. -/
def derive_a_pk (E : Externals) (a_sk : List Byte) : List Byte :=
  convertVectorToBytesVector (E.hashVector
    ((convertBytesVectorToVector a_sk).take 254 ++ [false, false] ++ List.replicate 254 false))

/-- Modelled from the spec: `Address::Address()` (`Address.cpp`, not in the sources), section 4.2.
The address secret and the ECIES key pair it draws are arguments. -/
def Address.new (E : Externals) (a_sk encryptionPublicKey encryptionSecretKey : List Byte) :
    Address :=
  { addr_pk := { addr_pk := derive_a_pk E a_sk, encryptionPublicKey := encryptionPublicKey }
    addr_sk := a_sk
    encryptionSecretKey := encryptionSecretKey }

/-- Modelled from the spec: the inner commitment `k = CRH(a_pk_bits || rho_bits)` of sections 3
and 4.3 (`Coin.cpp`, not in the sources). -/
def Coin.inner_commitment (E : Externals) (addr : PublicAddress) (rho : List Byte) : List Bool :=
  E.hashVector (convertBytesVectorToVector addr.addr_pk ++ convertBytesVectorToVector rho)

/-- Modelled from the spec: `Coin::Coin(addr, value)` (`Coin.cpp`, not in the sources),
section 4.3: the value is kept as `v_size` big-endian bytes and the commitment is
`cm = CRH(outer_input)`. The `rho` and `r` it draws are arguments. -/
def Coin.new (E : Externals) (addr : PublicAddress) (value : Nat) (rho r : List Byte) : Coin :=
  let coinValue := convertIntToBytesVector value v_size
  { addr_pk := addr
    cm := { commitmentValue := convertVectorToBytesVector (E.hashVector
      (outer_input (Coin.inner_commitment E addr rho) (convertBytesVectorToVector coinValue))) }
    rho := rho
    r := r
    coinValue := coinValue }

/-! ## Pour inputs and outputs -/

/-- Modelled from the spec: class `PourInput` (`PourInput.h`, not in the sources), read by the
list-taking constructor through `old_coin`, `old_address`, `merkle_index` and `path`. -/
structure PourInput where
  old_coin : Coin
  old_address : Address
  merkle_index : Nat
  path : merkle_authentication_path
deriving DecidableEq

/-- Modelled from the spec: class `PourOutput` (`PourOutput.h`, not in the sources), read by the
list-taking constructor through `new_coin` and `to_address`. -/
structure PourOutput where
  new_coin : Coin
  to_address : PublicAddress
deriving DecidableEq

/-- What the construction of a dummy draws or chooses: the address secret, the ECIES key pair,
`rho` and `r` of the coin and, for an input, the index and authentication path it carries
(on which the spec is silent). -/
structure DummySeed where
  a_sk : List Byte
  encryptionPublicKey : List Byte
  encryptionSecretKey : List Byte
  rho : List Byte
  r : List Byte
  merkle_index : Nat
  path : merkle_authentication_path
deriving DecidableEq

/-- Modelled from the spec: the dummy constructor `PourInput(tree_depth)` (`PourInput.cpp`, not
in the sources), section 4.6.1: a coin of value zero paid to a freshly generated address, which
is the input's address. -/
def PourInput.dummy (E : Externals) (_tree_depth : Nat) (seed : DummySeed) : PourInput :=
  let old_address := Address.new E seed.a_sk seed.encryptionPublicKey seed.encryptionSecretKey
  { old_coin := Coin.new E old_address.addr_pk 0 seed.rho seed.r
    old_address := old_address
    merkle_index := seed.merkle_index
    path := seed.path }

/-- Modelled from the spec: `PourOutput(val)` (`PourOutput.cpp`, not in the sources), as the tests
use it: a coin of value `val` paid to a freshly generated address. -/
def PourOutput.ofValue (E : Externals) (val : Nat) (seed : DummySeed) : PourOutput :=
  let to_address :=
    (Address.new E seed.a_sk seed.encryptionPublicKey seed.encryptionSecretKey).addr_pk
  { new_coin := Coin.new E to_address val seed.rho seed.r
    to_address := to_address }

/-- Modelled from the spec: the dummy output the list-taking constructor pushes with
`PourOutput()` (line 68, "a dummy output of value 0"; `PourOutput.cpp` is not in the sources),
section 4.6.1: a coin of value zero paid to a freshly generated address. -/
def PourOutput.dummy (E : Externals) (seed : DummySeed) : PourOutput :=
  PourOutput.ofValue E 0 seed

/-! ## The list-taking constructor -/

/-- How the list-taking constructor can end without a transaction. The first three are failed
`assert`s: the process aborts, no exception is thrown and no error value is returned. They
occur only in a build with assertions compiled in. -/
inductive ConstructionError
  /-- The assertion `inputs.size() <= 2` failed (line 58) and the process aborted. -/
  | tooManyInputs
  /-- The assertion `outputs.size() <= 2` failed (line 59) and the process aborted. -/
  | tooManyOutputs
  /-- The assertion `inputs.size() == 2` or `outputs.size() == 2` failed (lines 71-72) and the
  process aborted. -/
  | notTwo
  /-- The call of `init` threw or one of its assertions failed. -/
  | initFailed
deriving DecidableEq

namespace PourTransaction

/-- The loops of lines 61-64 and 66-69: `while (xs.size() < 2) xs.push_back(dummy)`, run for at
most `fuel` rounds; `dummy k` is the dummy the `k`-th round constructs. -/
def pushDummies {α : Type} (dummy : Nat → α) : Nat → Nat → List α → List α
  | 0, _, xs => xs
  | fuel + 1, k, xs =>
    if xs.length < 2 then pushDummies dummy fuel (k + 1) (xs ++ [dummy k]) else xs

/-- The constructor `PourTransaction(params, pubkeyHash, rt, inputs, outputs, vpub_in,
vpub_out)` (lines 48-92). Its only tests of the list sizes are the four `assert`s of lines
58-59 and 71-72, which exist in a build without the macro `NDEBUG` and are compiled out with
it: `NDEBUG` says which build runs. Without `NDEBUG` a failed assertion aborts the process;
with it the constructor goes on to the loops, which leave a list of two or more elements as it
is, and calls `init` on the elements 0 and 1 of each list. The dummies that
`PourInput(params.getTreeDepth())` and `PourOutput()` would construct, one after the other, are
the arguments `dummy_input` and `dummy_output`. Two rounds are enough for each loop, after
which both lists hold at least two elements, so the last case is never reached. -/
def ofLists (E : Externals) (NDEBUG : Bool) (params : ZerocashParams E)
    (pubkeyHash : List Byte) (rt : List Byte) (inputs : List PourInput)
    (outputs : List PourOutput) (vpub_in vpub_out : Nat) (dummy_input : Nat → PourInput)
    (dummy_output : Nat → PourOutput) (prng_1 : E.Rng) :
    Except ConstructionError PourTransaction :=
  if NDEBUG = false ∧ ¬ inputs.length ≤ 2 then Except.error ConstructionError.tooManyInputs
  else if NDEBUG = false ∧ ¬ outputs.length ≤ 2 then
    Except.error ConstructionError.tooManyOutputs
  else
    let inputs := pushDummies dummy_input 2 0 inputs
    let outputs := pushDummies dummy_output 2 0 outputs
    if NDEBUG = false ∧ ¬ (inputs.length = 2 ∧ outputs.length = 2) then
      Except.error ConstructionError.notTwo
    else
      match inputs, outputs with
      | input0 :: input1 :: _, output0 :: output1 :: _ =>
        match init E 1 params rt input0.old_coin input1.old_coin input0.old_address
            input1.old_address input0.merkle_index input1.merkle_index input0.path input1.path
            output0.to_address output1.to_address vpub_in vpub_out pubkeyHash output0.new_coin
            output1.new_coin prng_1 with
        | some tx => Except.ok tx
        | none => Except.error ConstructionError.initFailed
      | _, _ => Except.error ConstructionError.notTwo

/-- The constructor `PourTransaction(version_num, params, rt, c_1_old, ...)` (lines 94-116): it
sizes the byte vectors and calls `init`. -/
def ofCoins (E : Externals) (version_num : Nat) (params : ZerocashParams E) (rt : List Byte)
    (c_1_old c_2_old : Coin) (addr_1_old addr_2_old : Address)
    (patMerkleIdx_1 patMerkleIdx_2 : Nat) (patMAC_1 patMAC_2 : merkle_authentication_path)
    (addr_1_new addr_2_new : PublicAddress) (v_pub_in v_pub_out : Nat)
    (pubkeyHash : List Byte) (c_1_new c_2_new : Coin) (prng_1 : E.Rng) :
    Option PourTransaction :=
  init E version_num params rt c_1_old c_2_old addr_1_old addr_2_old patMerkleIdx_1
    patMerkleIdx_2 patMAC_1 patMAC_2 addr_1_new addr_2_new v_pub_in v_pub_out pubkeyHash
    c_1_new c_2_new prng_1

end PourTransaction

/-- The random material of the `k`-th dummy of the examples: everything filled with the byte
`100 + k`. -/
def sampleSeed (k : Nat) : DummySeed :=
  { a_sk := List.replicate a_sk_size (Fin.ofNat (100 + k))
    encryptionPublicKey := List.replicate 4 (Fin.ofNat (100 + k))
    encryptionSecretKey := List.replicate 4 (Fin.ofNat (100 + k))
    rho := List.replicate rho_size (Fin.ofNat (100 + k))
    r := List.replicate zc_r_size (Fin.ofNat (100 + k))
    merkle_index := 0
    path := samplePath }

/-- A real input of the examples: a coin of value `v` held by `sampleAddress b` at index `i`. -/
def sampleInput (b : Byte) (v i : Nat) : PourInput :=
  { old_coin := sampleCoin b v, old_address := sampleAddress b, merkle_index := i
    path := samplePath }

/-- A real output of the examples: a coin of value `v` paid to `samplePublicAddress b`. -/
def sampleOutput (b : Byte) (v : Nat) : PourOutput :=
  { new_coin := sampleCoin b v, to_address := samplePublicAddress b }

/-- The pour `test_pour(p, 0, 0, {1}, {1})` of the tests under `referenceExternals`: one real
input and one real output of value 1, the dummies drawn from `sampleSeed`. -/
def paddedPour : Except ConstructionError PourTransaction :=
  PourTransaction.ofLists referenceExternals false referenceParams samplePubkeyHash
    (sampleRoot 7) [sampleInput 1 1 0] [sampleOutput 3 1] 0 0
    (fun k => PourInput.dummy referenceExternals referenceParams.treeDepth (sampleSeed k))
    (fun k => PourOutput.dummy referenceExternals (sampleSeed (2 + k))) ()

/-- The transaction `paddedPour` returns. -/
def paddedTx : PourTransaction :=
  paddedPour.toOption.getD placeholderTx

/-! ## Serialized form of a pour transaction (section 6) -/

/-- Modelled from the spec: the length prefix of the "length-prefixed" fields of section 6,
whose encoding the spec does not give: `encode` writes a length and `decode` reads one off the
front of a buffer, returning it with the remaining bytes. -/
structure LengthPrefix where
  encode : Nat → List Byte
  decode : List Byte → Option (Nat × List Byte)

/-- A length prefix is lawful when a length of the `size_t` range, written in front of any
bytes, is read back with those bytes left over. -/
def LengthPrefix.Lawful (L : LengthPrefix) : Prop :=
  ∀ (n : Nat) (rest : List Byte), n < 2 ^ 64 → L.decode (L.encode n ++ rest) = some (n, rest)

/-- Reads a field of fixed width off the front of a buffer; `none` when the buffer is too
short (truncation). -/
def readBytes (n : Nat) (bytes : List Byte) : Option (List Byte × List Byte) :=
  if n ≤ bytes.length then some (bytes.take n, bytes.drop n) else none

/-- Reads fields of the given fixed widths, one after the other, off the front of a buffer. -/
def readFields : List Nat → List Byte → Option (List (List Byte) × List Byte)
  | [], bytes => some ([], bytes)
  | n :: widths, bytes =>
    match readBytes n bytes with
    | none => none
    | some (field, rest) =>
      match readFields widths rest with
      | none => none
      | some (fields, rest) => some (field :: fields, rest)

/-- Reads a length-prefixed field off the front of a buffer. -/
def readPrefixed (L : LengthPrefix) (bytes : List Byte) : Option (List Byte × List Byte) :=
  (L.decode bytes).bind fun p => readBytes p.1 p.2

/-- Writes a length-prefixed field. -/
def writePrefixed (L : LengthPrefix) (field : List Byte) : List Byte :=
  L.encode field.length ++ field

namespace PourTransaction

/-- Modelled from the spec: the serialized form of a pour transaction (the serialization code is
not in the sources), section 6: in order `version` (2 bytes, big-endian), `rt`, `sn_1`, `sn_2`,
`cm_1`, `cm_2`, `v_pub_in`, `v_pub_out`, `mac_1`, `mac_2`, and length-prefixed `ct_1`, `ct_2`
and proof. The class has no member for the anchor root, which is an argument here. -/
def serialize (L : LengthPrefix) (rt : List Byte) (tx : PourTransaction) : List Byte :=
  convertIntToBytesVector tx.version 2 ++ rt ++ tx.serialNumber_1 ++ tx.serialNumber_2 ++
    tx.cm_1.commitmentValue ++ tx.cm_2.commitmentValue ++ tx.publicInValue ++
    tx.publicOutValue ++ tx.MAC_1 ++ tx.MAC_2 ++ writePrefixed L tx.ciphertext_1 ++
    writePrefixed L tx.ciphertext_2 ++ writePrefixed L tx.zkSNARK

/-- Modelled from the spec: reading a pour transaction back from its serialized form (the
deserialization code is not in the sources), section 6, with the fixed widths of that section.
The result is the anchor root and the transaction; `none` on a truncated buffer and on
trailing bytes (section 7). -/
def deserialize (L : LengthPrefix) (bytes : List Byte) : Option (List Byte × PourTransaction) :=
  match readFields [2, root_size, sn_size, sn_size, cm_size, cm_size, v_size, v_size, h_size,
      h_size] bytes with
  | some ([version, rt, sn_1, sn_2, cm_1, cm_2, v_pub_in, v_pub_out, mac_1, mac_2], rest) =>
    match readPrefixed L rest with
    | some (ct_1, rest) =>
      match readPrefixed L rest with
      | some (ct_2, rest) =>
        match readPrefixed L rest with
        | some (proof, []) =>
          some (rt,
            { version := convertBytesVectorToInt version
              publicInValue := v_pub_in
              publicOutValue := v_pub_out
              serialNumber_1 := sn_1
              serialNumber_2 := sn_2
              cm_1 := { commitmentValue := cm_1 }
              cm_2 := { commitmentValue := cm_2 }
              MAC_1 := mac_1
              MAC_2 := mac_2
              ciphertext_1 := ct_1
              ciphertext_2 := ct_2
              zkSNARK := proof })
        | _ => none
      | none => none
    | none => none
  | _ => none

end PourTransaction

/-- A length prefix for the examples: the length as eight big-endian bytes. -/
def referenceLengthPrefix : LengthPrefix :=
  { encode := fun n => convertIntToBytesVector n 8
    decode := fun bytes =>
      (readBytes 8 bytes).bind fun p => some (convertBytesVectorToInt p.1, p.2) }

/-! ## Incremental Merkle tree (section 4.5) -/

/-- The all-zero hash: 256 zero bits (`zeros` in the tests). -/
def zeroHash : List Bool :=
  List.replicate 256 false

/-- Modelled from the spec: `hashVectors(left, right, output)` of `utils/util.cpp` (not in the
sources), as the tests call it: `CRH(left_bits || right_bits)` (section 4.5). -/
def hashVectors (E : Externals) (left right : List Bool) : List Bool :=
  E.hashVector (concatenateVectors left right)

/-- Modelled from the spec: the hash of an interior node (`IncrementalMerkleTree.cpp`, not in
the sources), `CRH(left_bits || right_bits)` (section 4.5). One case does not come from the spec
but from the tests in the sources: a node over two all-zero children is all-zero. These tests
expect the root over two zero leaves to be all-zero (`testRootOfTreeOfZerosIsZero`) and the
witness entries over empty subtrees, at every height, to be all-zero (`MerkleTreeSimpleTest`). -/
def nodeHash (E : Externals) (left right : List Bool) : List Bool :=
  if left = zeroHash ∧ right = zeroHash then zeroHash else hashVectors E left right

/-- Modelled from the spec: a node of the tree (`IncrementalMerkleTree.cpp`, not in the
sources), section 4.5: a subtree without any inserted leaf, an inserted leaf, a full subtree
whose interior `prune` discarded and of which only the hash is kept, or an interior node with
its two children. -/
inductive IncrementalMerkleNode
  | empty : IncrementalMerkleNode
  | leaf (value : List Bool) : IncrementalMerkleNode
  | pruned (value : List Bool) : IncrementalMerkleNode
  | node (left right : IncrementalMerkleNode) : IncrementalMerkleNode
deriving DecidableEq

namespace IncrementalMerkleNode

/-- Modelled from the spec: the hash of a subtree, unfilled leaves counting as all-zero bits
(section 4.5, `getRootValue`). -/
def getValue (E : Externals) : IncrementalMerkleNode → List Bool
  | empty => zeroHash
  | leaf value => value
  | pruned value => value
  | node left right => nodeHash E (getValue E left) (getValue E right)

/-- Whether every leaf slot of the subtree is taken. -/
def isFull : IncrementalMerkleNode → Bool
  | empty => false
  | leaf _ => true
  | pruned _ => true
  | node left right => isFull left && isFull right

/-- Modelled from the spec: insertion below a node of the given height (section 4.5,
`insertElement`): the leaf goes to the next free slot, the leftmost one; the result is the new
subtree and the path to the slot, one bit per level from this node down (`false` is left), or
`none` when the subtree is full. -/
def insertElement : Nat → IncrementalMerkleNode → List Bool →
    Option (IncrementalMerkleNode × List Bool)
  | 0, empty, value => some (leaf value, [])
  | 0, _, _ => none
  | height + 1, empty, value =>
    match insertElement height empty value with
    | some (left, path) => some (node left empty, false :: path)
    | none => none
  | height + 1, node left right, value =>
    match insertElement height left value with
    | some (left, path) => some (node left right, false :: path)
    | none =>
      match insertElement height right value with
      | some (right, path) => some (node left right, true :: path)
      | none => none
  | _ + 1, _, _ => none

/-- Modelled from the spec: `prune` below a node (section 4.5): every full subtree is replaced
by its hash; what lies on the way to the next free slot is kept. -/
def prune (E : Externals) : IncrementalMerkleNode → IncrementalMerkleNode
  | empty => empty
  | leaf value => pruned value
  | pruned value => pruned value
  | node left right =>
    if isFull (node left right) then pruned (getValue E (node left right))
    else node (prune E left) (prune E right)

/-- Modelled from the spec: the witness of the leaf at position `index` below a node of the
given height (section 4.5, `getWitness`): the hashes of the siblings along the path, the one
nearest to this node first, as the tests in the sources expect (`MerkleTreeSimpleTest`: the last
entry is the sibling leaf). It fails when the leaf was never inserted or was pruned away. -/
def getWitness (E : Externals) : Nat → IncrementalMerkleNode → Nat → Option (List (List Bool))
  | 0, leaf _, _ => some []
  | 0, _, _ => none
  | height + 1, node left right, index =>
    if index < 2 ^ height then
      match getWitness E height left index with
      | some witness => some (getValue E right :: witness)
      | none => none
    else
      match getWitness E height right (index - 2 ^ height) with
      | some witness => some (getValue E left :: witness)
      | none => none
  | _ + 1, _, _ => none

end IncrementalMerkleNode

/-- Modelled from the spec: class `IncrementalMerkleTree` (`IncrementalMerkleTree.h`, not in the
sources), section 3: a fixed depth and the nodes below the root. -/
structure IncrementalMerkleTree where
  treeHeight : Nat
  root : IncrementalMerkleNode
deriving DecidableEq

namespace IncrementalMerkleTree

/-- Modelled from the spec: `IncrementalMerkleTree(depth)`: the empty tree of the given depth. -/
def new (depth : Nat) : IncrementalMerkleTree :=
  { treeHeight := depth, root := IncrementalMerkleNode.empty }

/-- Modelled from the spec: `insertElement(leaf) -> index_bits` (section 4.5): appends a leaf at
the next free slot and returns the insertion path, `treeHeight` bits from the root side. It
fails when the tree is full, and on a tree of depth 0. -/
def insertElement (this : IncrementalMerkleTree) (value : List Bool) :
    Option (IncrementalMerkleTree × List Bool) :=
  if this.treeHeight = 0 then none
  else
    match this.root.insertElement this.treeHeight value with
    | some (root, index) => some ({ this with root := root }, index)
    | none => none

/-- Inserts the leaves one after the other; `none` as soon as one insertion fails. -/
def insertAll (this : IncrementalMerkleTree) : List (List Bool) → Option IncrementalMerkleTree
  | [] => some this
  | value :: values =>
    match this.insertElement value with
    | some (tree, _) => insertAll tree values
    | none => none

/-- Modelled from the spec: `insertVector(leaves)` (section 4.5): inserts all leaves; on overflow
it returns false and the tree is left as it was. The result is the flag and the tree
afterwards. -/
def insertVector (this : IncrementalMerkleTree) (values : List (List Bool)) :
    Bool × IncrementalMerkleTree :=
  match this.insertAll values with
  | some tree => (true, tree)
  | none => (false, this)

/-- Modelled from the spec: `getRootValue()` (section 4.5). -/
def getRootValue (E : Externals) (this : IncrementalMerkleTree) : List Bool :=
  this.root.getValue E

/-- Modelled from the spec: `prune()` (section 4.5). -/
def prune (E : Externals) (this : IncrementalMerkleTree) : IncrementalMerkleTree :=
  { this with root := this.root.prune E }

/-- Modelled from the spec: `getWitness(index)` (section 4.5), the index given as a number. -/
def getWitness (E : Externals) (this : IncrementalMerkleTree) (index : Nat) :
    Option (List (List Bool)) :=
  if index < 2 ^ this.treeHeight then this.root.getWitness E this.treeHeight index else none

end IncrementalMerkleTree

/-- The Merkle root of section 3 over a list of leaves at the given height, unfilled leaves
counting as all-zero: the reference against which the tree is compared. Only the first
`2 ^ height` leaves of the list matter. -/
def merkleRoot (E : Externals) : Nat → List (List Bool) → List Bool
  | 0, leaves => leaves.headD zeroHash
  | height + 1, leaves =>
    nodeHash E (merkleRoot E height (leaves.take (2 ^ height)))
      (merkleRoot E height (leaves.drop (2 ^ height)))

/-- The root a witness leads to: the leaf is folded with the entries of the witness from the
last one to the first, the sibling going to the right when the current bit of the index is 0
and to the left when it is 1, the bits taken from the least significant upward. -/
def foldWitness (E : Externals) (leafValue : List Bool) (index : Nat)
    (witness : List (List Bool)) : List Bool :=
  (witness.reverse.foldl
    (fun (state : List Bool × Nat) (sibling : List Bool) =>
      (if state.2 % 2 = 0 then nodeHash E state.1 sibling else nodeHash E sibling state.1,
        state.2 / 2))
    (leafValue, index)).1

/-- The position, among the leaves, of the first leaf of the sibling subtree of height `height`
on the path of the leaf at `index`. -/
def siblingStart (index height : Nat) : Nat :=
  if index / 2 ^ height % 2 = 0 then (index / 2 ^ height + 1) * 2 ^ height
  else (index / 2 ^ height - 1) * 2 ^ height

/-- A second instance of `Externals` for the Merkle tree examples: as `referenceExternals`, but
`hashVector` mixes both halves of its input and marks its output: the first bit is 1 and bit
`k` is bit `k - 1` of the left half xor bit `k` of the right half. -/
def mixingExternals : Externals :=
  { referenceExternals with
    hashVector := fun input =>
      (true :: List.zipWith xor (input ++ List.replicate 512 false)
        ((input ++ List.replicate 512 false).drop 257)).take 256
    hashVector_size := by
      intro input
      rw [List.length_take, List.length_cons, List.length_zipWith, List.length_drop,
        List.length_append, List.length_replicate]
      omega }

/-- The `k`-th leaf of the examples: the bits of 32 bytes `k + 1`. -/
def sampleLeaf (k : Nat) : List Bool :=
  convertBytesVectorToVector (List.replicate cm_size (Fin.ofNat (k + 1)))

/-- The tree of the given depth after the insertion of leaves `0` to `n - 1` of the examples. -/
def sampleTree (depth n : Nat) : IncrementalMerkleTree :=
  ((IncrementalMerkleTree.new depth).insertVector ((List.range n).map sampleLeaf)).2


/-! ## The tree as a list of leaves -/

namespace IncrementalMerkleNode

/-- The invariant that ties a subtree of the given height to the leaves inserted below it, in
order: the slots are taken from the left, an inserted leaf holds its value, and a pruned
subtree is full and holds the Merkle root of its leaves. -/
def Represents (E : Externals) : Nat → IncrementalMerkleNode → List (List Bool) → Prop
  | _, empty, leaves => leaves = []
  | 0, leaf value, leaves => leaves = [value]
  | _ + 1, leaf _, _ => False
  | height, pruned value, leaves =>
    leaves.length = 2 ^ height ∧ value = merkleRoot E height leaves
  | 0, node _ _, _ => False
  | height + 1, node left right, leaves =>
    Represents E height left (leaves.take (2 ^ height)) ∧
      Represents E height right (leaves.drop (2 ^ height))

/-- Whether no part of the subtree was pruned away. -/
def noPruned : IncrementalMerkleNode → Bool
  | empty => true
  | leaf _ => true
  | pruned _ => false
  | node left right => noPruned left && noPruned right

end IncrementalMerkleNode

/-- The tree holds exactly the given leaves, in the order of their insertion. -/
def IncrementalMerkleTree.Holds (E : Externals) (this : IncrementalMerkleTree)
    (leaves : List (List Bool)) : Prop :=
  this.root.Represents E this.treeHeight leaves

/-- The witness of section 4.5 computed from the list of leaves: for each level from the root
side down, the Merkle root of the sibling subtree. -/
def witnessOfLeaves (E : Externals) : Nat → List (List Bool) → Nat → List (List Bool)
  | 0, _, _ => []
  | height + 1, leaves, index =>
    if index < 2 ^ height then
      merkleRoot E height (leaves.drop (2 ^ height)) ::
        witnessOfLeaves E height (leaves.take (2 ^ height)) index
    else
      merkleRoot E height (leaves.take (2 ^ height)) ::
        witnessOfLeaves E height (leaves.drop (2 ^ height)) (index - 2 ^ height)

/-! ## Further example pours -/

/-- A second pour under `referenceExternals`, unlike `balancedTx` in version, anchor root,
`pubkeyHash`, values, new coins and first input; its second input is the first input of
`balancedTx`, the coin `sampleCoin 1 1` held by `sampleAddress 1`. -/
def swappedPour : Option PourTransaction :=
  PourTransaction.init referenceExternals 2 referenceParams (sampleRoot 9)
    (sampleCoin 5 4) (sampleCoin 1 1) (sampleAddress 5) (sampleAddress 1) 0 1
    samplePath samplePath
    (samplePublicAddress 6) (samplePublicAddress 7) 0 0 (List.replicate sig_pk_size 98)
    (sampleCoin 6 3) (sampleCoin 7 2) ()

/-- The transaction `swappedPour` returns. -/
def swappedTx : PourTransaction :=
  swappedPour.getD placeholderTx

/-- The transaction `balancedTx` with other ciphertexts. -/
def reencryptedTx : PourTransaction :=
  { balancedTx with ciphertext_1 := [], ciphertext_2 := [1, 2, 3] }

/-! ## Raw-buffer conversion (`utils/util.cpp`) -/

/-- Modelled from the spec: `convertVectorToBytes(v, bytes)` of `utils/util.cpp` (not in the
sources) on a raw output buffer, as `init` calls it (lines 304-309): the bit-vector to byte
conversion of section 4.1, written to the front of the buffer. It writes one byte per complete
group of eight bits, `v.size() / 8` bytes in all, and leaves the rest of the buffer as it was.
The buffer must hold at least that many bytes. -/
def convertVectorToBytes (v : List Bool) (bytes : List Byte) : List Byte :=
  convertVectorToBytesVector v ++ bytes.drop (v.length / 8)

/-- The input of the test `convertBytesToVector.InverseEquality` with its terminator: the
characters of `Hello World!` and a zero byte. -/
def helloWorld : List Byte :=
  [72, 101, 108, 108, 111, 32, 87, 111, 114, 108, 100, 33, 0]

/-! ## Compact representation of the tree (sections 3 and 6) -/

/-- Modelled from the spec: `countOnes` of `utils/util.cpp` (not in the sources), the population
count of section 4.1. -/
def countOnes (bits : List Bool) : Nat :=
  bits.count true

/-- Modelled from the spec: class `IncrementalMerkleTreeCompact` (`IncrementalMerkleTree.h`, not
in the sources), section 3, read by the tests through `getTreeHeight()`, `getHashList()` and
`getHashVec()`: the depth, the path to the next insertion slot as one bit per level from the
root side, and one 32-byte sibling hash per `1` bit of the path, root side first. -/
structure IncrementalMerkleTreeCompact where
  treeHeight : Nat
  hashList : List Bool
  hashVec : List (List Byte)
deriving DecidableEq

/-- Modelled from the spec: the walk of `getCompactRepresentation` below a node of the given
height (section 3): towards the next free slot, a full left subtree gives the bit `1` and its
hash and the walk goes right, otherwise the bit is `0` and the walk goes left; below a subtree
without inserted leaves all bits are `0`. A full subtree has no free slot; the bits for it are
`0` by convention. -/
def IncrementalMerkleNode.getCompactRepresentation (E : Externals) :
    Nat → IncrementalMerkleNode → List Bool × List (List Byte)
  | 0, _ => ([], [])
  | height + 1, IncrementalMerkleNode.node left right =>
    if left.isFull then
      (true :: (getCompactRepresentation E height right).1,
        convertVectorToBytesVector (left.getValue E) ::
          (getCompactRepresentation E height right).2)
    else
      (false :: (getCompactRepresentation E height left).1,
        (getCompactRepresentation E height left).2)
  | height + 1, _ => (List.replicate (height + 1) false, [])

/-- Modelled from the spec: `getCompactRepresentation() -> Compact` (sections 3 and 4.5). -/
def IncrementalMerkleTree.getCompactRepresentation (E : Externals)
    (this : IncrementalMerkleTree) : IncrementalMerkleTreeCompact :=
  { treeHeight := this.treeHeight
    hashList := (this.root.getCompactRepresentation E this.treeHeight).1
    hashVec := (this.root.getCompactRepresentation E this.treeHeight).2 }

/-- The binary expansion of `n` on `width` bits, most significant bit first. -/
def binaryExpansion (width n : Nat) : List Bool :=
  (List.range width).map fun k => decide (n / 2 ^ (width - 1 - k) % 2 = 1)

/-- The leaf of `constructNonzeroTestVector` in the tests: 256 bits, the first one set. -/
def nonzeroLeaf : List Bool :=
  true :: List.replicate 255 false

/-- The tree of `testCompactDeserializationFailures`: depth 64, five times the nonzero leaf,
pruned; hashed with `mixingExternals`. -/
def compactTestTree : IncrementalMerkleTree :=
  IncrementalMerkleTree.prune mixingExternals
    ((IncrementalMerkleTree.new 64).insertVector (List.replicate 5 nonzeroLeaf)).2

/-! ## Serialized compact representation (section 6) -/

/-- How `IncrementalMerkleTreeCompact::Deserialize` fails (sections 6 and 7): `outOfRange` is
the out-of-range error for a truncated buffer (`std::out_of_range` in the tests), `format` the
format error for trailing bytes (`std::runtime_error` in the tests). -/
inductive DeserializeError
  | outOfRange
  | format
deriving DecidableEq

namespace IncrementalMerkleTreeCompact

/-- Modelled from the spec: `IncrementalMerkleTreeCompact::serialize()` (the code is not in the
sources), section 6: one byte for the depth `D`, then `ceil(D/8)` bytes of `hashList` packed
with bit 0 in the most significant bit of the first byte (zero bits fill the last byte), then
the 32-byte hashes of `hashVec` in their order. -/
def serialize (this : IncrementalMerkleTreeCompact) : List Byte :=
  Fin.ofNat this.treeHeight ::
    (convertVectorToBytesVector
        (this.hashList ++ List.replicate ((8 - this.hashList.length % 8) % 8) false) ++
      this.hashVec.flatten)

/-- Modelled from the spec: `IncrementalMerkleTreeCompact::Deserialize(serialized)` (the code
is not in the sources), section 6: it reads the depth byte, `ceil(D/8)` bytes of path bits, of
which the first `D` are the `hashList`, and one 32-byte hash per `1` bit. A read past the end
of the buffer is the out-of-range error; bytes left over after the last hash are the format
error. -/
def Deserialize (serialized : List Byte) :
    Except DeserializeError IncrementalMerkleTreeCompact :=
  match serialized with
  | [] => Except.error DeserializeError.outOfRange
  | depth :: rest =>
    match readBytes ((depth.val + 7) / 8) rest with
    | none => Except.error DeserializeError.outOfRange
    | some (packed, rest) =>
      match readFields
          (List.replicate (countOnes ((convertBytesVectorToVector packed).take depth.val)) 32)
          rest with
      | none => Except.error DeserializeError.outOfRange
      | some (hashVec, []) =>
        Except.ok
          { treeHeight := depth.val
            hashList := (convertBytesVectorToVector packed).take depth.val
            hashVec := hashVec }
      | some (_, _ :: _) => Except.error DeserializeError.format

/-- The shape of a compact representation taken from a tree of the spec: a depth that fits the
depth byte, one path bit per level, one hash per `1` bit, hashes of 32 bytes. -/
def WellFormed (this : IncrementalMerkleTreeCompact) : Prop :=
  this.treeHeight < 256 ∧ this.hashList.length = this.treeHeight ∧
    this.hashVec.length = countOnes this.hashList ∧ ∀ hash ∈ this.hashVec, hash.length = 32

end IncrementalMerkleTreeCompact

/-! ## A backend whose prover does not throw -/

end Libzerocash


/-! # Theorems -/

set_option maxRecDepth 100000

namespace Libzerocash

/-! ## Facts about the bit and byte helpers -/

theorem length_byteToBits (c : Byte) : (byteToBits c).length = 8 := by
  simp [byteToBits]

theorem length_convertBytesVectorToVector (bytes : List Byte) :
    (convertBytesVectorToVector bytes).length = 8 * bytes.length := by
  induction bytes with
  | nil => rfl
  | cons c cs ih =>
    simp only [convertBytesVectorToVector, List.length_append, length_byteToBits, ih,
      List.length_cons]
    omega

theorem byteToBits_bitsToByte (b0 b1 b2 b3 b4 b5 b6 b7 : Bool) :
    byteToBits (bitsToByte [b0, b1, b2, b3, b4, b5, b6, b7]) = [b0, b1, b2, b3, b4, b5, b6, b7] := by
  cases b0 <;> cases b1 <;> cases b2 <;> cases b3 <;> cases b4 <;> cases b5 <;> cases b6 <;>
    cases b7 <;> rfl

/-- Packing bits into bytes and expanding them again is the identity on bit vectors whose length
is a multiple of eight. -/
theorem convertBytesVectorToVector_convertVectorToBytesVector :
    ∀ (n : Nat) (v : List Bool), v.length = 8 * n →
      convertBytesVectorToVector (convertVectorToBytesVector v) = v := by
  intro n
  induction n with
  | zero =>
    intro v hv
    have : v = [] := List.length_eq_zero.mp (by omega)
    subst this
    rfl
  | succ n ih =>
    intro v hv
    match v, hv with
    | b0 :: b1 :: b2 :: b3 :: b4 :: b5 :: b6 :: b7 :: rest, hv =>
      have hrest : rest.length = 8 * n := by
        simp only [List.length_cons] at hv
        omega
      simp only [convertVectorToBytesVector, convertBytesVectorToVector, byteToBits_bitsToByte,
        ih rest hrest, List.cons_append, List.nil_append]

theorem length_convertVectorToBytesVector :
    ∀ (n : Nat) (v : List Bool), v.length = 8 * n →
      (convertVectorToBytesVector v).length = n := by
  intro n
  induction n with
  | zero =>
    intro v hv
    have : v = [] := List.length_eq_zero.mp (by omega)
    subst this
    rfl
  | succ n ih =>
    intro v hv
    match v, hv with
    | b0 :: b1 :: b2 :: b3 :: b4 :: b5 :: b6 :: b7 :: rest, hv =>
      have hrest : rest.length = 8 * n := by
        simp only [List.length_cons] at hv
        omega
      simp only [convertVectorToBytesVector, List.length_cons, ih rest hrest]

theorem length_convertIntToBytesVector (val_int size : Nat) :
    (convertIntToBytesVector val_int size).length = size := by
  simp [convertIntToBytesVector]

/-! ## The result of `init` -/

namespace PourTransaction

/-- When `init` returns a transaction, the proof step succeeded and every member other than the
two ciphertexts is the value computed from the arguments. -/
theorem init_eq_some {E : Externals} {version_num : Nat} {params : ZerocashParams E}
    {rt : List Byte} {c_1_old c_2_old : Coin} {addr_1_old addr_2_old : Address}
    {patMerkleIdx_1 patMerkleIdx_2 : Nat} {patMAC_1 patMAC_2 : merkle_authentication_path}
    {addr_1_new addr_2_new : PublicAddress} {v_pub_in v_pub_out : Nat} {pubkeyHash : List Byte}
    {c_1_new c_2_new : Coin} {prng_1 : E.Rng} {tx : PourTransaction}
    (h : init E version_num params rt c_1_old c_2_old addr_1_old addr_2_old patMerkleIdx_1
      patMerkleIdx_2 patMAC_1 patMAC_2 addr_1_new addr_2_new v_pub_in v_pub_out pubkeyHash
      c_1_new c_2_new prng_1 = some tx) :
    init_zkSNARK E version_num params (proverArgs E rt c_1_old c_2_old addr_1_old addr_2_old
      patMerkleIdx_1 patMerkleIdx_2 patMAC_1 patMAC_2 addr_1_new addr_2_new v_pub_in v_pub_out
      pubkeyHash c_1_new c_2_new) = some tx.zkSNARK ∧
    tx.version = version_num ∧
    tx.publicInValue = convertIntToBytesVector v_pub_in v_size ∧
    tx.publicOutValue = convertIntToBytesVector v_pub_out v_size ∧
    tx.cm_1 = c_1_new.cm ∧
    tx.cm_2 = c_2_new.cm ∧
    tx.serialNumber_1 = convertVectorToBytesVector (sn_old_bv E
      (convertBytesVectorToVector addr_1_old.addr_sk) (convertBytesVectorToVector c_1_old.rho)) ∧
    tx.serialNumber_2 = convertVectorToBytesVector (sn_old_bv E
      (convertBytesVectorToVector addr_2_old.addr_sk) (convertBytesVectorToVector c_2_old.rho)) ∧
    tx.MAC_1 = convertVectorToBytesVector (MAC_1_bv E
      (convertBytesVectorToVector addr_1_old.addr_sk) pubkeyHash) ∧
    tx.MAC_2 = convertVectorToBytesVector (MAC_2_bv E
      (convertBytesVectorToVector addr_2_old.addr_sk) pubkeyHash) := by
  unfold init at h
  simp only [] at h
  split at h
  · exact absurd h (by simp)
  · rename_i zk hzk
    split at h
    · exact absurd h (by simp)
    · split at h
      · exact absurd h (by simp)
      · have htx := Option.some.inj h
        subst htx
        exact ⟨hzk, rfl, rfl, rfl, rfl, rfl, rfl, rfl, rfl, rfl⟩

/-! ## Serial numbers and MACs -/

theorem nonce_old_eq (nonce_old_bv : List Bool) (h : nonce_old_bv.length = rho_size * 8) :
    nonce_old nonce_old_bv = [false, true] ++ nonce_old_bv.take 254 := by
  have hdrop : (List.replicate (rho_size * 8) false).drop nonce_old_bv.length = [] := by
    rw [h]
    exact List.drop_eq_nil_of_le (by simp)
  have h254 : nonce_old_bv.length - 2 = 254 := by
    rw [h]
    rfl
  simp only [nonce_old, stdCopy, eraseEnd, insertBegin, hdrop, List.append_nil, h254]
  rfl

theorem h_S_bv_eq (E : Externals) (pubkeyHash : List Byte) (h : pubkeyHash.length = h_size) :
    h_S_bv E pubkeyHash = convertBytesVectorToVector (E.SHA256 pubkeyHash) := by
  have htake : pubkeyHash.take h_size = pubkeyHash := List.take_of_length_le (by omega)
  have hlen : (E.SHA256 pubkeyHash).length ≤ h_size * 8 / 8 := by
    rw [E.SHA256_size]
    decide
  simp only [h_S_bv, h_S_bytes, convertBytesVectorToBytes, convertBytesToVector, htake,
    List.length_replicate]
  rw [List.take_of_length_le hlen]

theorem length_h_S_bv (E : Externals) (pubkeyHash : List Byte) (h : pubkeyHash.length = h_size) :
    (h_S_bv E pubkeyHash).length = 256 := by
  rw [h_S_bv_eq E pubkeyHash h, length_convertBytesVectorToVector, E.SHA256_size]
  rfl

theorem h_S_erased_eq (E : Externals) (pubkeyHash : List Byte) (h : pubkeyHash.length = h_size) :
    h_S_erased E pubkeyHash = (convertBytesVectorToVector (E.SHA256 pubkeyHash)).take 253 := by
  have h1 := h_S_bv_eq E pubkeyHash h
  have h2 := length_h_S_bv E pubkeyHash h
  unfold h_S_bv at h1 h2
  simp only [h_S_erased, eraseEnd, h2]
  rw [h1]

/-- C7. For both old coins, given a 32-byte address secret and a 32-byte `rho`, the serial number
`init` stores is the byte form of `CRH` applied to the bits of `a_sk`, followed by the bits
`0, 1`, followed by the first 254 bits of `rho`; this input has exactly 512 bits. -/
theorem init_serialNumber (E : Externals) (version_num : Nat) (params : ZerocashParams E)
    (rt : List Byte) (c_1_old c_2_old : Coin) (addr_1_old addr_2_old : Address)
    (patMerkleIdx_1 patMerkleIdx_2 : Nat) (patMAC_1 patMAC_2 : merkle_authentication_path)
    (addr_1_new addr_2_new : PublicAddress) (v_pub_in v_pub_out : Nat) (pubkeyHash : List Byte)
    (c_1_new c_2_new : Coin) (prng_1 : E.Rng) (tx : PourTransaction)
    (hsk1 : addr_1_old.addr_sk.length = a_sk_size) (hsk2 : addr_2_old.addr_sk.length = a_sk_size)
    (hrho1 : c_1_old.rho.length = rho_size) (hrho2 : c_2_old.rho.length = rho_size)
    (h : init E version_num params rt c_1_old c_2_old addr_1_old addr_2_old patMerkleIdx_1
      patMerkleIdx_2 patMAC_1 patMAC_2 addr_1_new addr_2_new v_pub_in v_pub_out pubkeyHash
      c_1_new c_2_new prng_1 = some tx) :
    (tx.serialNumber_1 = convertVectorToBytesVector (E.hashVector
        (convertBytesVectorToVector addr_1_old.addr_sk ++ [false, true] ++
          (convertBytesVectorToVector c_1_old.rho).take 254)) ∧
      (convertBytesVectorToVector addr_1_old.addr_sk ++ [false, true] ++
          (convertBytesVectorToVector c_1_old.rho).take 254).length = 512) ∧
    (tx.serialNumber_2 = convertVectorToBytesVector (E.hashVector
        (convertBytesVectorToVector addr_2_old.addr_sk ++ [false, true] ++
          (convertBytesVectorToVector c_2_old.rho).take 254)) ∧
      (convertBytesVectorToVector addr_2_old.addr_sk ++ [false, true] ++
          (convertBytesVectorToVector c_2_old.rho).take 254).length = 512) := by
  obtain ⟨_, _, _, _, _, _, hsn1, hsn2, _, _⟩ := init_eq_some h
  have hb1 : (convertBytesVectorToVector c_1_old.rho).length = rho_size * 8 := by
    rw [length_convertBytesVectorToVector, hrho1, Nat.mul_comm]
  have hb2 : (convertBytesVectorToVector c_2_old.rho).length = rho_size * 8 := by
    rw [length_convertBytesVectorToVector, hrho2, Nat.mul_comm]
  refine ⟨⟨?_, ?_⟩, ⟨?_, ?_⟩⟩
  · rw [hsn1, sn_old_bv, sn_internal, concatenateVectors, nonce_old_eq _ hb1, List.append_assoc]
  · simp only [List.length_append, List.length_take, length_convertBytesVectorToVector, hsk1,
      hrho1, a_sk_size, rho_size, List.length_cons, List.length_nil]
    rfl
  · rw [hsn2, sn_old_bv, sn_internal, concatenateVectors, nonce_old_eq _ hb2, List.append_assoc]
  · simp only [List.length_append, List.length_take, length_convertBytesVectorToVector, hsk2,
      hrho2, a_sk_size, rho_size, List.length_cons, List.length_nil]
    rfl

/-- A run of `init` to which C7 applies: the pour of the tests, 32-byte secrets and nonces. -/
theorem init_serialNumber_witness :
    (sampleAddress 1).addr_sk.length = a_sk_size ∧ (sampleAddress 2).addr_sk.length = a_sk_size ∧
    (sampleCoin 1 1).rho.length = rho_size ∧ (sampleCoin 2 3).rho.length = rho_size ∧
    samplePour 1 (sampleRoot 7) 1 3 2 2 0 0 = some balancedTx ∧
    (balancedTx.serialNumber_1 = convertVectorToBytesVector (referenceExternals.hashVector
        (convertBytesVectorToVector (sampleAddress 1).addr_sk ++ [false, true] ++
          (convertBytesVectorToVector (sampleCoin 1 1).rho).take 254)) ∧
      (convertBytesVectorToVector (sampleAddress 1).addr_sk ++ [false, true] ++
          (convertBytesVectorToVector (sampleCoin 1 1).rho).take 254).length = 512) ∧
    (balancedTx.serialNumber_2 = convertVectorToBytesVector (referenceExternals.hashVector
        (convertBytesVectorToVector (sampleAddress 2).addr_sk ++ [false, true] ++
          (convertBytesVectorToVector (sampleCoin 2 3).rho).take 254)) ∧
      (convertBytesVectorToVector (sampleAddress 2).addr_sk ++ [false, true] ++
          (convertBytesVectorToVector (sampleCoin 2 3).rho).take 254).length = 512) :=
  have h : samplePour 1 (sampleRoot 7) 1 3 2 2 0 0 = some balancedTx := by decide
  ⟨by decide, by decide, by decide, by decide, h,
    init_serialNumber referenceExternals 1 referenceParams (sampleRoot 7) (sampleCoin 1 1)
      (sampleCoin 2 3) (sampleAddress 1) (sampleAddress 2) 1 3 samplePath samplePath
      (samplePublicAddress 3)
      (samplePublicAddress 4) 0 0 samplePubkeyHash (sampleCoin 3 2) (sampleCoin 4 2) ()
      balancedTx (by decide) (by decide) (by decide) (by decide) h⟩

theorem h_S_internal1_eq (E : Externals) (pubkeyHash : List Byte)
    (h : pubkeyHash.length = h_size) :
    h_S_internal1 E pubkeyHash =
      [true, false, false] ++ (convertBytesVectorToVector (E.SHA256 pubkeyHash)).take 253 := by
  simp only [h_S_internal1, insertBegin, h_S_erased_eq E pubkeyHash h]
  rfl

theorem h_S_internal2_eq (E : Externals) (pubkeyHash : List Byte)
    (h : pubkeyHash.length = h_size) :
    h_S_internal2 E pubkeyHash =
      [true, false, true] ++ (convertBytesVectorToVector (E.SHA256 pubkeyHash)).take 253 := by
  simp only [h_S_internal2, insertBegin, h_S_erased_eq E pubkeyHash h]
  rfl

theorem length_take_253_h_S (E : Externals) (pubkeyHash : List Byte) :
    ((convertBytesVectorToVector (E.SHA256 pubkeyHash)).take 253).length = 253 := by
  rw [List.length_take, length_convertBytesVectorToVector, E.SHA256_size]
  decide

/-- C8. For a 32-byte `pubkeyHash` (and 32-byte address secrets), `init` stores
`mac_j = bytes(CRH(bits(a_sk_j) ++ t_j ++ first 253 bits of bits(SHA-256(pubkeyHash))))` with the
three-bit tags `t_1 = 1,0,0` and `t_2 = 1,0,1`, which are distinct. The two 256-bit second halves
differ at index 2, a tag bit, and agree at every other index, so the two hashed inputs, both of
512 bits, are different whatever the two address secrets are. -/
theorem init_MAC_tags (E : Externals) (version_num : Nat) (params : ZerocashParams E)
    (rt : List Byte) (c_1_old c_2_old : Coin) (addr_1_old addr_2_old : Address)
    (patMerkleIdx_1 patMerkleIdx_2 : Nat) (patMAC_1 patMAC_2 : merkle_authentication_path)
    (addr_1_new addr_2_new : PublicAddress) (v_pub_in v_pub_out : Nat) (pubkeyHash : List Byte)
    (c_1_new c_2_new : Coin) (prng_1 : E.Rng) (tx : PourTransaction)
    (hph : pubkeyHash.length = h_size)
    (hsk1 : addr_1_old.addr_sk.length = a_sk_size) (hsk2 : addr_2_old.addr_sk.length = a_sk_size)
    (h : init E version_num params rt c_1_old c_2_old addr_1_old addr_2_old patMerkleIdx_1
      patMerkleIdx_2 patMAC_1 patMAC_2 addr_1_new addr_2_new v_pub_in v_pub_out pubkeyHash
      c_1_new c_2_new prng_1 = some tx) :
    tx.MAC_1 = convertVectorToBytesVector (E.hashVector
      (convertBytesVectorToVector addr_1_old.addr_sk ++ [true, false, false] ++
        (convertBytesVectorToVector (E.SHA256 pubkeyHash)).take 253)) ∧
    tx.MAC_2 = convertVectorToBytesVector (E.hashVector
      (convertBytesVectorToVector addr_2_old.addr_sk ++ [true, false, true] ++
        (convertBytesVectorToVector (E.SHA256 pubkeyHash)).take 253)) ∧
    ([true, false, false] : List Bool) ≠ [true, false, true] ∧
    (h_S_internal1 E pubkeyHash).length = 256 ∧
    (h_S_internal2 E pubkeyHash).length = 256 ∧
    (h_S_internal1 E pubkeyHash)[2]? ≠ (h_S_internal2 E pubkeyHash)[2]? ∧
    (∀ i : Nat, i ≠ 2 → (h_S_internal1 E pubkeyHash)[i]? = (h_S_internal2 E pubkeyHash)[i]?) ∧
    (MAC_1_internal E (convertBytesVectorToVector addr_1_old.addr_sk) pubkeyHash).length = 512 ∧
    (MAC_2_internal E (convertBytesVectorToVector addr_2_old.addr_sk) pubkeyHash).length = 512 ∧
    MAC_1_internal E (convertBytesVectorToVector addr_1_old.addr_sk) pubkeyHash ≠
      MAC_2_internal E (convertBytesVectorToVector addr_2_old.addr_sk) pubkeyHash := by
  obtain ⟨_, _, _, _, _, _, _, _, hmac1, hmac2⟩ := init_eq_some h
  have h1 := h_S_internal1_eq E pubkeyHash hph
  have h2 := h_S_internal2_eq E pubkeyHash hph
  have h253 := length_take_253_h_S E pubkeyHash
  have hl1 : (convertBytesVectorToVector addr_1_old.addr_sk).length = 256 := by
    rw [length_convertBytesVectorToVector, hsk1]
    rfl
  have hl2 : (convertBytesVectorToVector addr_2_old.addr_sk).length = 256 := by
    rw [length_convertBytesVectorToVector, hsk2]
    rfl
  refine ⟨?_, ?_, by decide, ?_, ?_, ?_, ?_, ?_, ?_, ?_⟩
  · rw [hmac1, MAC_1_bv, MAC_1_internal, concatenateVectors, h1, List.append_assoc]
  · rw [hmac2, MAC_2_bv, MAC_2_internal, concatenateVectors, h2, List.append_assoc]
  · rw [h1, List.length_append, h253]
    rfl
  · rw [h2, List.length_append, h253]
    rfl
  · rw [h1, h2]
    simp
  · intro i hi
    rw [h1, h2]
    match i, hi with
    | 0, _ => rfl
    | 1, _ => rfl
    | n + 3, _ => simp
  · rw [MAC_1_internal, concatenateVectors, List.length_append, hl1, h1, List.length_append, h253]
    rfl
  · rw [MAC_2_internal, concatenateVectors, List.length_append, hl2, h2, List.length_append, h253]
    rfl
  · intro heq
    rw [MAC_1_internal, MAC_2_internal, concatenateVectors, concatenateVectors, h1, h2] at heq
    have hinj := (List.append_inj heq (hl1.trans hl2.symm)).2
    simp at hinj

/-- A run of `init` to which C8 applies: the pour of the tests, with both old coins held by the
same address secret. -/
theorem init_MAC_tags_witness :
    samplePubkeyHash.length = h_size ∧ (sampleAddress 1).addr_sk.length = a_sk_size ∧
    (PourTransaction.init referenceExternals 1 referenceParams (sampleRoot 7) (sampleCoin 1 1)
      (sampleCoin 2 3) (sampleAddress 1) (sampleAddress 1) 1 3 samplePath samplePath
      (samplePublicAddress 3) (samplePublicAddress 4) 0 0 samplePubkeyHash (sampleCoin 3 2)
      (sampleCoin 4 2) ()).map (fun tx => decide (tx.MAC_1 = tx.MAC_2)) = some false ∧
    MAC_1_internal referenceExternals (convertBytesVectorToVector (sampleAddress 1).addr_sk)
        samplePubkeyHash ≠
      MAC_2_internal referenceExternals (convertBytesVectorToVector (sampleAddress 1).addr_sk)
        samplePubkeyHash :=
  ⟨by decide, by decide, by decide,
    (init_MAC_tags referenceExternals 1 referenceParams (sampleRoot 7) (sampleCoin 1 1)
      (sampleCoin 2 3) (sampleAddress 1) (sampleAddress 1) 1 3 samplePath samplePath
      (samplePublicAddress 3) (samplePublicAddress 4) 0 0 samplePubkeyHash (sampleCoin 3 2)
      (sampleCoin 4 2) () balancedTx (by decide) (by decide) (by decide)
      (by decide)).2.2.2.2.2.2.2.2.2⟩

/-- C9, as stated, fails. In the pour of the tests the 256-bit block hashed after `bits(a_sk_1)`
is not the first 253 bits of `h_S` behind the bits `1,0,1` (its third bit is `0`), and the stored
`mac_1` is not the byte form of `CRH` of the input the claim describes. -/
theorem init_MAC_1_tag_counterexample :
    h_S_internal1 referenceExternals samplePubkeyHash ≠
      [true, false, true] ++
        (convertBytesVectorToVector (referenceExternals.SHA256 samplePubkeyHash)).take 253 ∧
    (samplePour 1 (sampleRoot 7) 1 3 2 2 0 0).map (fun tx => tx.MAC_1) ≠
      some (convertVectorToBytesVector (referenceExternals.hashVector
        (convertBytesVectorToVector (sampleAddress 1).addr_sk ++ [true, false, true] ++
          (convertBytesVectorToVector (referenceExternals.SHA256 samplePubkeyHash)).take 253))) := by
  decide

/-- C9, amended. For the first MAC the 256-bit block hashed after `bits(a_sk_1)` is `h_S_bits`
with its last three bits dropped and the three bits `1,0,0` prepended, so that
`mac_1 = bytes(CRH(bits(a_sk_1) ++ [1,0,0] ++ first 253 bits of bits(SHA-256(pubkeyHash))))`;
this block is never the one that starts with `1,0,1`. -/
theorem init_MAC_1_tag (E : Externals) (version_num : Nat) (params : ZerocashParams E)
    (rt : List Byte) (c_1_old c_2_old : Coin) (addr_1_old addr_2_old : Address)
    (patMerkleIdx_1 patMerkleIdx_2 : Nat) (patMAC_1 patMAC_2 : merkle_authentication_path)
    (addr_1_new addr_2_new : PublicAddress) (v_pub_in v_pub_out : Nat) (pubkeyHash : List Byte)
    (c_1_new c_2_new : Coin) (prng_1 : E.Rng) (tx : PourTransaction)
    (hph : pubkeyHash.length = h_size)
    (h : init E version_num params rt c_1_old c_2_old addr_1_old addr_2_old patMerkleIdx_1
      patMerkleIdx_2 patMAC_1 patMAC_2 addr_1_new addr_2_new v_pub_in v_pub_out pubkeyHash
      c_1_new c_2_new prng_1 = some tx) :
    h_S_internal1 E pubkeyHash =
      [true, false, false] ++ (convertBytesVectorToVector (E.SHA256 pubkeyHash)).take 253 ∧
    h_S_internal1 E pubkeyHash ≠
      [true, false, true] ++ (convertBytesVectorToVector (E.SHA256 pubkeyHash)).take 253 ∧
    tx.MAC_1 = convertVectorToBytesVector (E.hashVector
      (convertBytesVectorToVector addr_1_old.addr_sk ++ [true, false, false] ++
        (convertBytesVectorToVector (E.SHA256 pubkeyHash)).take 253)) := by
  obtain ⟨_, _, _, _, _, _, _, _, hmac1, _⟩ := init_eq_some h
  have h1 := h_S_internal1_eq E pubkeyHash hph
  refine ⟨h1, ?_, ?_⟩
  · rw [h1]
    simp
  · rw [hmac1, MAC_1_bv, MAC_1_internal, concatenateVectors, h1, List.append_assoc]

/-- A run of `init` to which the amended C9 applies: the pour of the tests. -/
theorem init_MAC_1_tag_witness :
    samplePubkeyHash.length = h_size ∧
    samplePour 1 (sampleRoot 7) 1 3 2 2 0 0 = some balancedTx ∧
    balancedTx.MAC_1 = convertVectorToBytesVector (referenceExternals.hashVector
      (convertBytesVectorToVector (sampleAddress 1).addr_sk ++ [true, false, false] ++
        (convertBytesVectorToVector (referenceExternals.SHA256 samplePubkeyHash)).take 253)) :=
  have h : samplePour 1 (sampleRoot 7) 1 3 2 2 0 0 = some balancedTx := by decide
  ⟨by decide, h,
    (init_MAC_1_tag referenceExternals 1 referenceParams (sampleRoot 7) (sampleCoin 1 1)
      (sampleCoin 2 3) (sampleAddress 1) (sampleAddress 2) 1 3 samplePath samplePath
      (samplePublicAddress 3)
      (samplePublicAddress 4) 0 0 samplePubkeyHash (sampleCoin 3 2) (sampleCoin 4 2) ()
      balancedTx (by decide) h).2.2⟩

/-! ## `verify` -/

/-- For a version other than 0 and correct checked lengths, `verify` is the call of the backend
verifier at the end of its body. -/
theorem verify_of_lengths (E : Externals) (tx : PourTransaction) (params : ZerocashParams E)
    (pubkeyHash merkleRoot : List Byte) (hv : tx.version ≠ 0)
    (hroot : merkleRoot.length = root_size) (hph : pubkeyHash.length = h_size)
    (hsn1 : tx.serialNumber_1.length = sn_size) (hsn2 : tx.serialNumber_2.length = sn_size)
    (hin : tx.publicInValue.length = v_size) (hout : tx.publicOutValue.length = v_size)
    (hmac1 : tx.MAC_1.length = h_size) (hmac2 : tx.MAC_2.length = h_size) :
    verify E tx params pubkeyHash merkleRoot =
      E.zerocash_pour_ppzksnark_verifier params.verificationKey
        (convertBytesVectorToVector merkleRoot)
        (convertBytesVectorToVector tx.serialNumber_1,
          convertBytesVectorToVector tx.serialNumber_2)
        (convertBytesVectorToVector tx.cm_1.commitmentValue,
          convertBytesVectorToVector tx.cm_2.commitmentValue)
        (convertBytesVectorToVector tx.publicInValue)
        (convertBytesVectorToVector tx.publicOutValue)
        (h_S_bv E pubkeyHash)
        (convertBytesVectorToVector tx.MAC_1, convertBytesVectorToVector tx.MAC_2)
        (E.readProof tx.zkSNARK).1 := by
  simp only [verify, hv, hroot, hph, hsn1, hsn2, hin, hout, hmac1, hmac2, if_false, ne_eq,
    not_true_eq_false]

/-- C3. A transaction whose version is 0 verifies, for every instance of the external
collaborators (so whatever the proof backend would answer), every parameter object, every
`pubkeyHash` and every `merkleRoot`, and whatever its other members hold. -/
theorem verify_version_zero (E : Externals) (tx : PourTransaction) (params : ZerocashParams E)
    (pubkeyHash merkleRoot : List Byte) (h : tx.version = 0) :
    verify E tx params pubkeyHash merkleRoot = true := by
  simp [verify, h]

/-- C3 at the placeholder transaction, whose byte vectors are all empty, with an empty
`pubkeyHash` and an empty root. -/
theorem verify_version_zero_witness :
    placeholderTx.version = 0 ∧
    verify referenceExternals placeholderTx referenceParams [] [] = true :=
  ⟨rfl, verify_version_zero referenceExternals placeholderTx referenceParams [] [] rfl⟩

/-- C4. For a version above 0 and correct checked lengths, `verify` returns what the backend
verifier returns on the verification key, the bits of `merkleRoot`, of the two serial numbers,
of the two commitments, of `v_pub_in` and `v_pub_out`, of SHA-256 of `pubkeyHash`, of the two
MACs, and the proof read from the stored blob. -/
theorem verify_eq_verifier (E : Externals) (tx : PourTransaction) (params : ZerocashParams E)
    (pubkeyHash merkleRoot : List Byte) (hv : tx.version > 0)
    (hroot : merkleRoot.length = root_size) (hph : pubkeyHash.length = h_size)
    (hsn1 : tx.serialNumber_1.length = sn_size) (hsn2 : tx.serialNumber_2.length = sn_size)
    (hin : tx.publicInValue.length = v_size) (hout : tx.publicOutValue.length = v_size)
    (hmac1 : tx.MAC_1.length = h_size) (hmac2 : tx.MAC_2.length = h_size) :
    verify E tx params pubkeyHash merkleRoot =
      E.zerocash_pour_ppzksnark_verifier params.verificationKey
        (convertBytesVectorToVector merkleRoot)
        (convertBytesVectorToVector tx.serialNumber_1,
          convertBytesVectorToVector tx.serialNumber_2)
        (convertBytesVectorToVector tx.cm_1.commitmentValue,
          convertBytesVectorToVector tx.cm_2.commitmentValue)
        (convertBytesVectorToVector tx.publicInValue)
        (convertBytesVectorToVector tx.publicOutValue)
        (convertBytesVectorToVector (E.SHA256 pubkeyHash))
        (convertBytesVectorToVector tx.MAC_1, convertBytesVectorToVector tx.MAC_2)
        (E.readProof tx.zkSNARK).1 := by
  have hv0 : tx.version ≠ 0 := by omega
  simp only [verify, hv0, hroot, hph, hsn1, hsn2, hin, hout, hmac1, hmac2, if_false, ne_eq,
    not_true_eq_false, h_S_bv_eq E pubkeyHash hph]

/-- C4 at the pour of the tests. -/
theorem verify_eq_verifier_witness :
    balancedTx.version > 0 ∧
    verify referenceExternals balancedTx referenceParams samplePubkeyHash (sampleRoot 7) =
      referenceExternals.zerocash_pour_ppzksnark_verifier referenceParams.verificationKey
        (convertBytesVectorToVector (sampleRoot 7))
        (convertBytesVectorToVector balancedTx.serialNumber_1,
          convertBytesVectorToVector balancedTx.serialNumber_2)
        (convertBytesVectorToVector balancedTx.cm_1.commitmentValue,
          convertBytesVectorToVector balancedTx.cm_2.commitmentValue)
        (convertBytesVectorToVector balancedTx.publicInValue)
        (convertBytesVectorToVector balancedTx.publicOutValue)
        (convertBytesVectorToVector (referenceExternals.SHA256 samplePubkeyHash))
        (convertBytesVectorToVector balancedTx.MAC_1, convertBytesVectorToVector balancedTx.MAC_2)
        (referenceExternals.readProof balancedTx.zkSNARK).1 :=
  ⟨by decide,
    verify_eq_verifier referenceExternals balancedTx referenceParams samplePubkeyHash
      (sampleRoot 7) (by decide) (by decide) (by decide) (by decide) (by decide) (by decide)
      (by decide) (by decide) (by decide)⟩

/-- C5, as stated, fails. The version 0 pour that `init` builds from the tests' coins verifies
against a root of 31 bytes and a `pubkeyHash` of 31 bytes. -/
theorem verify_size_checks_counterexample :
    (List.replicate 31 (7 : Byte)).length ≠ root_size ∧
    (List.replicate 31 (97 : Byte)).length ≠ h_size ∧
    (samplePour 0 (sampleRoot 7) 1 3 2 2 0 0).map
      (fun tx => verify referenceExternals tx referenceParams (List.replicate 31 97)
        (List.replicate 31 7)) = some true := by
  decide

/-- C5, amended. For a version above 0, `verify` returns false if `merkleRoot` is not
`root_size` bytes, or `pubkeyHash` is not `h_size` bytes, or one of `sn_1`, `sn_2` (`sn_size`),
`v_pub_in`, `v_pub_out` (`v_size`), `mac_1`, `mac_2` (`h_size`) has a different length. -/
theorem verify_size_checks (E : Externals) (tx : PourTransaction) (params : ZerocashParams E)
    (pubkeyHash merkleRoot : List Byte) (hv : tx.version > 0)
    (hsize : merkleRoot.length ≠ root_size ∨ pubkeyHash.length ≠ h_size ∨
      tx.serialNumber_1.length ≠ sn_size ∨ tx.serialNumber_2.length ≠ sn_size ∨
      tx.publicInValue.length ≠ v_size ∨ tx.publicOutValue.length ≠ v_size ∨
      tx.MAC_1.length ≠ h_size ∨ tx.MAC_2.length ≠ h_size) :
    verify E tx params pubkeyHash merkleRoot = false := by
  have hv0 : tx.version ≠ 0 := by omega
  unfold verify
  rw [if_neg hv0]
  simp only []
  by_cases h1 : merkleRoot.length ≠ root_size
  · rw [if_pos h1]
  rw [if_neg h1]
  by_cases h2 : pubkeyHash.length ≠ h_size
  · rw [if_pos h2]
  rw [if_neg h2]
  by_cases h3 : tx.serialNumber_1.length ≠ sn_size
  · rw [if_pos h3]
  rw [if_neg h3]
  by_cases h4 : tx.serialNumber_2.length ≠ sn_size
  · rw [if_pos h4]
  rw [if_neg h4]
  by_cases h5 : tx.publicInValue.length ≠ v_size
  · rw [if_pos h5]
  rw [if_neg h5]
  by_cases h6 : tx.publicOutValue.length ≠ v_size
  · rw [if_pos h6]
  rw [if_neg h6]
  by_cases h7 : tx.MAC_1.length ≠ h_size
  · rw [if_pos h7]
  rw [if_neg h7]
  by_cases h8 : tx.MAC_2.length ≠ h_size
  · rw [if_pos h8]
  exact absurd hsize (by tauto)

/-- The amended C5 at the pour of the tests with its second MAC cut to 31 bytes, a valid proof
and otherwise correct lengths. -/
theorem verify_size_checks_witness :
    ({ balancedTx with MAC_2 := balancedTx.MAC_2.take 31 } : PourTransaction).version > 0 ∧
    ({ balancedTx with MAC_2 := balancedTx.MAC_2.take 31 } : PourTransaction).MAC_2.length ≠
      h_size ∧
    verify referenceExternals { balancedTx with MAC_2 := balancedTx.MAC_2.take 31 }
      referenceParams samplePubkeyHash (sampleRoot 7) = false :=
  ⟨by decide, by decide,
    verify_size_checks referenceExternals { balancedTx with MAC_2 := balancedTx.MAC_2.take 31 }
      referenceParams samplePubkeyHash (sampleRoot 7) (by decide)
      (Or.inr (Or.inr (Or.inr (Or.inr (Or.inr (Or.inr (Or.inr (by decide))))))))⟩

/-- With version 0 the result of `init` is the same for every anchor root. -/
theorem init_version_zero_rt (E : Externals) (params : ZerocashParams E) (rt rt2 : List Byte)
    (c_1_old c_2_old : Coin) (addr_1_old addr_2_old : Address)
    (patMerkleIdx_1 patMerkleIdx_2 : Nat) (patMAC_1 patMAC_2 : merkle_authentication_path)
    (addr_1_new addr_2_new : PublicAddress) (v_pub_in v_pub_out : Nat) (pubkeyHash : List Byte)
    (c_1_new c_2_new : Coin) (prng_1 : E.Rng) :
    init E 0 params rt c_1_old c_2_old addr_1_old addr_2_old patMerkleIdx_1 patMerkleIdx_2
        patMAC_1 patMAC_2 addr_1_new addr_2_new v_pub_in v_pub_out pubkeyHash c_1_new c_2_new
        prng_1 =
      init E 0 params rt2 c_1_old c_2_old addr_1_old addr_2_old patMerkleIdx_1 patMerkleIdx_2
        patMAC_1 patMAC_2 addr_1_new addr_2_new v_pub_in v_pub_out pubkeyHash c_1_new c_2_new
        prng_1 := by
  simp [init, init_zkSNARK]

/-- C10, as stated, fails. Two runs of `init` whose inputs differ only in `rt` return the same
transaction: no member holds `rt`. -/
theorem init_rt_counterexample :
    sampleRoot 7 ≠ sampleRoot 8 ∧
    (samplePour 0 (sampleRoot 7) 1 3 2 2 0 0).isSome = true ∧
    samplePour 0 (sampleRoot 7) 1 3 2 2 0 0 = samplePour 0 (sampleRoot 8) 1 3 2 2 0 0 :=
  ⟨by decide, by decide, init_version_zero_rt _ _ _ _ _ _ _ _ _ _ _ _ _ _ _ _ _ _ _ _⟩

/-- C10, amended. A pour transaction has no member for the anchor root: `init` reads `rt` only
to build the root argument of the prover. With version 0 two runs of `init` that differ only in
`rt` give the same result, and for every version the result is a function, the same for every
`rt`, of the proof string obtained for that `rt`. -/
theorem init_rt_only_through_proof (E : Externals) (version_num : Nat)
    (params : ZerocashParams E) (c_1_old c_2_old : Coin) (addr_1_old addr_2_old : Address)
    (patMerkleIdx_1 patMerkleIdx_2 : Nat) (patMAC_1 patMAC_2 : merkle_authentication_path)
    (addr_1_new addr_2_new : PublicAddress) (v_pub_in v_pub_out : Nat) (pubkeyHash : List Byte)
    (c_1_new c_2_new : Coin) (prng_1 : E.Rng) :
    (∀ rt rt2 : List Byte,
      init E 0 params rt c_1_old c_2_old addr_1_old addr_2_old patMerkleIdx_1 patMerkleIdx_2
          patMAC_1 patMAC_2 addr_1_new addr_2_new v_pub_in v_pub_out pubkeyHash c_1_new c_2_new
          prng_1 =
        init E 0 params rt2 c_1_old c_2_old addr_1_old addr_2_old patMerkleIdx_1 patMerkleIdx_2
          patMAC_1 patMAC_2 addr_1_new addr_2_new v_pub_in v_pub_out pubkeyHash c_1_new c_2_new
          prng_1) ∧
    ∃ rest : List Byte → Option PourTransaction, ∀ rt : List Byte,
      init E version_num params rt c_1_old c_2_old addr_1_old addr_2_old patMerkleIdx_1
          patMerkleIdx_2 patMAC_1 patMAC_2 addr_1_new addr_2_new v_pub_in v_pub_out pubkeyHash
          c_1_new c_2_new prng_1 =
        (init_zkSNARK E version_num params (proverArgs E rt c_1_old c_2_old addr_1_old
          addr_2_old patMerkleIdx_1 patMerkleIdx_2 patMAC_1 patMAC_2 addr_1_new addr_2_new
          v_pub_in v_pub_out pubkeyHash c_1_new c_2_new)).bind rest := by
  refine ⟨fun rt rt2 => init_version_zero_rt _ _ _ _ _ _ _ _ _ _ _ _ _ _ _ _ _ _ _ _, ?_⟩
  · refine ⟨fun zkSNARK =>
      match init_encrypt E prng_1 addr_1_new c_1_new with
      | none => none
      | some (C_1_string, prng_1) =>
        match init_encrypt E prng_1 addr_2_new c_2_new with
        | none => none
        | some (C_2_string, _) =>
          some
            { version := version_num
              publicInValue := convertIntToBytesVector v_pub_in v_size
              publicOutValue := convertIntToBytesVector v_pub_out v_size
              cm_1 := c_1_new.cm
              cm_2 := c_2_new.cm
              serialNumber_1 := convertVectorToBytesVector (sn_old_bv E
                (convertBytesVectorToVector addr_1_old.addr_sk)
                (convertBytesVectorToVector c_1_old.rho))
              serialNumber_2 := convertVectorToBytesVector (sn_old_bv E
                (convertBytesVectorToVector addr_2_old.addr_sk)
                (convertBytesVectorToVector c_2_old.rho))
              MAC_1 := convertVectorToBytesVector (MAC_1_bv E
                (convertBytesVectorToVector addr_1_old.addr_sk) pubkeyHash)
              MAC_2 := convertVectorToBytesVector (MAC_2_bv E
                (convertBytesVectorToVector addr_2_old.addr_sk) pubkeyHash)
              zkSNARK := zkSNARK
              ciphertext_1 := C_1_string
              ciphertext_2 := C_2_string }, fun rt => ?_⟩
    unfold init
    simp only []
    cases init_zkSNARK E version_num params (proverArgs E rt c_1_old c_2_old addr_1_old
      addr_2_old patMerkleIdx_1 patMerkleIdx_2 patMAC_1 patMAC_2 addr_1_new addr_2_new
      v_pub_in v_pub_out pubkeyHash c_1_new c_2_new) <;> rfl

/-! ## Value conservation -/

/-- The eight big-endian bytes of an integer write its low 64 bits. -/
theorem foldl_convertIntToBytesVector (val_int : Nat) :
    (convertIntToBytesVector val_int v_size).foldl (fun acc b => 256 * acc + b.val) 0 =
      val_int % 2 ^ 64 := by
  simp only [convertIntToBytesVector, v_size, List.range, List.range.loop, List.map_cons,
    List.map_nil, List.foldl_cons, List.foldl_nil]
  norm_num
  omega

/-- C2. Let the proof stream operators round-trip, and let the backend verifier accept the proof
the prover returned for this pour on the public inputs `init` computed for it (completeness of
the proving system on a valid pour). Then a pour that `init` built with a version above 0,
a `root_size`-byte `rt` and an `h_size`-byte `pubkeyHash` passes `verify` called with the same
`pubkeyHash` and `rt`: the size checks pass and `verify` rebuilds, from the stored bytes, the
very public inputs and proof of `init`. -/
theorem verify_init (E : Externals) (version_num : Nat) (params : ZerocashParams E)
    (rt : List Byte) (c_1_old c_2_old : Coin) (addr_1_old addr_2_old : Address)
    (patMerkleIdx_1 patMerkleIdx_2 : Nat) (patMAC_1 patMAC_2 : merkle_authentication_path)
    (addr_1_new addr_2_new : PublicAddress) (v_pub_in v_pub_out : Nat) (pubkeyHash : List Byte)
    (c_1_new c_2_new : Coin) (prng_1 : E.Rng) (tx : PourTransaction)
    (hv : version_num > 0) (hrt : rt.length = root_size) (hph : pubkeyHash.length = h_size)
    (hround : ∀ proof, (E.readProof (E.writeProof proof)).1 = proof)
    (hcomplete : ∀ proof,
      E.zerocash_pour_ppzksnark_prover params.provingKey (proverArgs E rt c_1_old c_2_old
        addr_1_old addr_2_old patMerkleIdx_1 patMerkleIdx_2 patMAC_1 patMAC_2 addr_1_new
        addr_2_new v_pub_in v_pub_out pubkeyHash c_1_new c_2_new) = some proof →
      E.zerocash_pour_ppzksnark_verifier params.verificationKey
        (convertBytesVectorToVector rt)
        (sn_old_bv E (convertBytesVectorToVector addr_1_old.addr_sk)
            (convertBytesVectorToVector c_1_old.rho),
          sn_old_bv E (convertBytesVectorToVector addr_2_old.addr_sk)
            (convertBytesVectorToVector c_2_old.rho))
        (convertBytesVectorToVector c_1_new.cm.commitmentValue,
          convertBytesVectorToVector c_2_new.cm.commitmentValue)
        (convertBytesVectorToVector (convertIntToBytesVector v_pub_in v_size))
        (convertBytesVectorToVector (convertIntToBytesVector v_pub_out v_size))
        (h_S_bv E pubkeyHash)
        (MAC_1_bv E (convertBytesVectorToVector addr_1_old.addr_sk) pubkeyHash,
          MAC_2_bv E (convertBytesVectorToVector addr_2_old.addr_sk) pubkeyHash)
        proof = true)
    (h : init E version_num params rt c_1_old c_2_old addr_1_old addr_2_old patMerkleIdx_1
      patMerkleIdx_2 patMAC_1 patMAC_2 addr_1_new addr_2_new v_pub_in v_pub_out pubkeyHash
      c_1_new c_2_new prng_1 = some tx) :
    verify E tx params pubkeyHash rt = true := by
  obtain ⟨hzk, hver, hvin, hvout, hcm1, hcm2, hsn1, hsn2, hmac1, hmac2⟩ := init_eq_some h
  rw [init_zkSNARK, if_pos hv, Option.map_eq_some'] at hzk
  obtain ⟨proof, hproof, hwrite⟩ := hzk
  have h256 : ∀ input, (E.hashVector input).length = 8 * 32 := fun input =>
    E.hashVector_size input
  have hbytes : ∀ input, (convertVectorToBytesVector (E.hashVector input)).length = 32 :=
    fun input => length_convertVectorToBytesVector 32 _ (h256 input)
  have hbits : ∀ input, convertBytesVectorToVector
      (convertVectorToBytesVector (E.hashVector input)) = E.hashVector input :=
    fun input => convertBytesVectorToVector_convertVectorToBytesVector 32 _ (h256 input)
  rw [verify_of_lengths E tx params pubkeyHash rt (by omega) hrt hph
    (by rw [hsn1]; exact hbytes _) (by rw [hsn2]; exact hbytes _)
    (by rw [hvin]; exact length_convertIntToBytesVector _ _)
    (by rw [hvout]; exact length_convertIntToBytesVector _ _)
    (by rw [hmac1]; exact hbytes _) (by rw [hmac2]; exact hbytes _)]
  rw [hsn1, hsn2, hmac1, hmac2, hvin, hvout, hcm1, hcm2, ← hwrite, hround]
  simp only [sn_old_bv, MAC_1_bv, MAC_2_bv, hbits]
  exact hcomplete proof hproof

/-- C2 at the pour of the tests: coins of value 1 and 3 at indices 1 and 3 poured into 2 and 2,
no public value, `pubkeyHash` 32 times the character `a`, tree depth 4, version 1. -/
theorem verify_init_witness :
    samplePour 1 (sampleRoot 7) 1 3 2 2 0 0 = some balancedTx ∧
    verify referenceExternals balancedTx referenceParams samplePubkeyHash (sampleRoot 7) = true :=
  have h : samplePour 1 (sampleRoot 7) 1 3 2 2 0 0 = some balancedTx := by decide
  ⟨h,
    verify_init referenceExternals 1 referenceParams (sampleRoot 7) (sampleCoin 1 1)
      (sampleCoin 2 3) (sampleAddress 1) (sampleAddress 2) 1 3 samplePath samplePath
      (samplePublicAddress 3)
      (samplePublicAddress 4) 0 0 samplePubkeyHash (sampleCoin 3 2) (sampleCoin 4 2) ()
      balancedTx (by decide) (by decide) (by decide)
      (fun proof => by cases proof <;> rfl)
      (fun proof hproof => by
        have hp : some true = some proof := by
          rw [← hproof]
          decide
        exact (Option.some.inj hp).symm)
      h⟩

end PourTransaction

namespace PourTransaction

/-! ## The stored public values -/

/-- Reading back the eight big-endian bytes of a 64-bit integer gives the integer. -/
theorem convertBytesVectorToInt_convertIntToBytesVector (val_int : Nat)
    (h : val_int < 2 ^ 64) :
    convertBytesVectorToInt (convertIntToBytesVector val_int v_size) = val_int := by
  rw [convertBytesVectorToInt, foldl_convertIntToBytesVector, Nat.mod_mod,
    Nat.mod_eq_of_lt h]

/-- The byte at position `k` of the big-endian form is digit `size - 1 - k` in base 256. -/
theorem getElem_convertIntToBytesVector (val_int size k : Nat) (hk : k < size) :
    (convertIntToBytesVector val_int size)[k]? =
      some ⟨val_int / 256 ^ (size - 1 - k) % 256, Nat.mod_lt _ (by decide)⟩ := by
  have hpow : (2 : Nat) ^ (8 * (size - 1 - k)) = 256 ^ (size - 1 - k) := by
    rw [pow_mul]
    rfl
  simp [convertIntToBytesVector, List.getElem?_map, List.getElem?_range hk, hpow]

end PourTransaction

namespace PourTransaction

/-! ## Ciphertexts -/

/-- When `init` returns a transaction, both encryptions succeeded, the second on the random
pool the first one left, and the two ciphertext members are their results. -/
theorem init_eq_some_ciphertexts {E : Externals} {version_num : Nat} {params : ZerocashParams E}
    {rt : List Byte} {c_1_old c_2_old : Coin} {addr_1_old addr_2_old : Address}
    {patMerkleIdx_1 patMerkleIdx_2 : Nat} {patMAC_1 patMAC_2 : merkle_authentication_path}
    {addr_1_new addr_2_new : PublicAddress} {v_pub_in v_pub_out : Nat} {pubkeyHash : List Byte}
    {c_1_new c_2_new : Coin} {prng_1 : E.Rng} {tx : PourTransaction}
    (h : init E version_num params rt c_1_old c_2_old addr_1_old addr_2_old patMerkleIdx_1
      patMerkleIdx_2 patMAC_1 patMAC_2 addr_1_new addr_2_new v_pub_in v_pub_out pubkeyHash
      c_1_new c_2_new prng_1 = some tx) :
    ∃ prng_2 prng_3,
      init_encrypt E prng_1 addr_1_new c_1_new = some (tx.ciphertext_1, prng_2) ∧
      init_encrypt E prng_2 addr_2_new c_2_new = some (tx.ciphertext_2, prng_3) := by
  unfold init at h
  simp only [] at h
  split at h
  · exact absurd h (by simp)
  · split at h
    · exact absurd h (by simp)
    · rename_i C_1 prng_2 h1
      split at h
      · exact absurd h (by simp)
      · rename_i C_2 prng_3 h2
        have htx := Option.some.inj h
        subst htx
        exact ⟨prng_2, prng_3, h1, h2⟩

/-- With fields of the protocol sizes the plaintext of a new coin has 88 bytes. -/
theorem length_ciphertext_internals (c_new : Coin) (hv : c_new.coinValue.length = v_size)
    (hr : c_new.r.length = zc_r_size) (hrho : c_new.rho.length = rho_size) :
    (ciphertext_internals c_new).length = 88 := by
  simp only [ciphertext_internals, List.length_append, hv, hr, hrho, v_size, zc_r_size,
    rho_size]

/-- With fields of the protocol sizes the size assertion passes and the whole plaintext is
encrypted. -/
theorem init_encrypt_eq (E : Externals) (prng : E.Rng) (addr_new : PublicAddress)
    (c_new : Coin) (hv : c_new.coinValue.length = v_size) (hr : c_new.r.length = zc_r_size)
    (hrho : c_new.rho.length = rho_size) :
    init_encrypt E prng addr_new c_new =
      E.eciesEncrypt prng addr_new.encryptionPublicKey
        (c_new.coinValue ++ c_new.r ++ c_new.rho) := by
  have hlen := length_ciphertext_internals c_new hv hr hrho
  have h88 : v_size + zc_r_size + rho_size = 88 := rfl
  simp only [init_encrypt, h88, hlen, if_true]
  rw [List.take_of_length_le (by omega)]
  rfl

/-- C14. For new coins whose value, `r` and `rho` have the protocol sizes, the plaintext `init`
encrypts for coin `j` is `coinValue ++ r ++ rho` of new coin `j`, of exactly
`v_size + zc_r_size + rho_size = 88` bytes, so that the size assertion passes whatever the key
and the random pool are; `ct_1` is this plaintext of coin 1 encrypted under the encryption
public key of recipient address 1, and `ct_2` that of coin 2 under the key of address 2. -/
theorem init_ciphertexts (E : Externals) (version_num : Nat) (params : ZerocashParams E)
    (rt : List Byte) (c_1_old c_2_old : Coin) (addr_1_old addr_2_old : Address)
    (patMerkleIdx_1 patMerkleIdx_2 : Nat) (patMAC_1 patMAC_2 : merkle_authentication_path)
    (addr_1_new addr_2_new : PublicAddress) (v_pub_in v_pub_out : Nat) (pubkeyHash : List Byte)
    (c_1_new c_2_new : Coin) (prng_1 : E.Rng) (tx : PourTransaction)
    (hv1 : c_1_new.coinValue.length = v_size) (hr1 : c_1_new.r.length = zc_r_size)
    (hrho1 : c_1_new.rho.length = rho_size)
    (hv2 : c_2_new.coinValue.length = v_size) (hr2 : c_2_new.r.length = zc_r_size)
    (hrho2 : c_2_new.rho.length = rho_size)
    (h : init E version_num params rt c_1_old c_2_old addr_1_old addr_2_old patMerkleIdx_1
      patMerkleIdx_2 patMAC_1 patMAC_2 addr_1_new addr_2_new v_pub_in v_pub_out pubkeyHash
      c_1_new c_2_new prng_1 = some tx) :
    ciphertext_internals c_1_new = c_1_new.coinValue ++ c_1_new.r ++ c_1_new.rho ∧
    ciphertext_internals c_2_new = c_2_new.coinValue ++ c_2_new.r ++ c_2_new.rho ∧
    (ciphertext_internals c_1_new).length = v_size + zc_r_size + rho_size ∧
    (ciphertext_internals c_2_new).length = v_size + zc_r_size + rho_size ∧
    v_size + zc_r_size + rho_size = 88 ∧
    (∀ (prng : E.Rng) (addr_new : PublicAddress),
      init_encrypt E prng addr_new c_1_new =
        E.eciesEncrypt prng addr_new.encryptionPublicKey (ciphertext_internals c_1_new)) ∧
    (∀ (prng : E.Rng) (addr_new : PublicAddress),
      init_encrypt E prng addr_new c_2_new =
        E.eciesEncrypt prng addr_new.encryptionPublicKey (ciphertext_internals c_2_new)) ∧
    ∃ prng_2 prng_3,
      E.eciesEncrypt prng_1 addr_1_new.encryptionPublicKey
          (c_1_new.coinValue ++ c_1_new.r ++ c_1_new.rho) = some (tx.ciphertext_1, prng_2) ∧
      E.eciesEncrypt prng_2 addr_2_new.encryptionPublicKey
          (c_2_new.coinValue ++ c_2_new.r ++ c_2_new.rho) = some (tx.ciphertext_2, prng_3) := by
  obtain ⟨prng_2, prng_3, h1, h2⟩ := init_eq_some_ciphertexts h
  rw [init_encrypt_eq E _ _ _ hv1 hr1 hrho1] at h1
  rw [init_encrypt_eq E _ _ _ hv2 hr2 hrho2] at h2
  exact ⟨rfl, rfl, length_ciphertext_internals c_1_new hv1 hr1 hrho1,
    length_ciphertext_internals c_2_new hv2 hr2 hrho2, rfl,
    fun prng addr_new => init_encrypt_eq E prng addr_new c_1_new hv1 hr1 hrho1,
    fun prng addr_new => init_encrypt_eq E prng addr_new c_2_new hv2 hr2 hrho2,
    prng_2, prng_3, h1, h2⟩

/-- C14 at the pour of the tests; under `referenceExternals` a ciphertext is its plaintext. -/
theorem init_ciphertexts_witness :
    (sampleCoin 3 2).coinValue.length = v_size ∧ (sampleCoin 3 2).r.length = zc_r_size ∧
    (sampleCoin 3 2).rho.length = rho_size ∧
    samplePour 1 (sampleRoot 7) 1 3 2 2 0 0 = some balancedTx ∧
    balancedTx.ciphertext_1 =
      (sampleCoin 3 2).coinValue ++ (sampleCoin 3 2).r ++ (sampleCoin 3 2).rho ∧
    balancedTx.ciphertext_2 =
      (sampleCoin 4 2).coinValue ++ (sampleCoin 4 2).r ++ (sampleCoin 4 2).rho :=
  have h : samplePour 1 (sampleRoot 7) 1 3 2 2 0 0 = some balancedTx := by decide
  have hC := (init_ciphertexts referenceExternals 1 referenceParams (sampleRoot 7)
    (sampleCoin 1 1) (sampleCoin 2 3) (sampleAddress 1) (sampleAddress 2) 1 3 samplePath
    samplePath (samplePublicAddress 3) (samplePublicAddress 4) 0 0 samplePubkeyHash
    (sampleCoin 3 2) (sampleCoin 4 2) () balancedTx (by decide) (by decide) (by decide)
    (by decide) (by decide) (by decide) h).2.2.2.2.2.2.2
  ⟨by decide, by decide, by decide, h,
    hC.elim fun _ h2 => h2.elim fun _ h3 => (Prod.mk.inj (Option.some.inj h3.1)).1.symm,
    hC.elim fun _ h2 => h2.elim fun _ h3 => (Prod.mk.inj (Option.some.inj h3.2)).1.symm⟩

end PourTransaction

/-! ## The list-taking constructor -/

/-- A coin made with value 0 has value 0. -/
theorem getValue_new_zero (E : Externals) (addr : PublicAddress) (rho r : List Byte) :
    (Coin.new E addr 0 rho r).getValue = 0 :=
  PourTransaction.convertBytesVectorToInt_convertIntToBytesVector 0 (by decide)

namespace PourTransaction

/-- Up to two rounds of the padding loop append the dummies still missing, in order. -/
theorem pushDummies_two {α : Type} (dummy : Nat → α) (xs : List α) (h : xs.length ≤ 2) :
    pushDummies dummy 2 0 xs = xs ++ (List.range (2 - xs.length)).map dummy := by
  match xs, h with
  | [], _ => rfl
  | [_], _ => rfl
  | [_, _], _ => rfl

/-- The list-taking constructor on two inputs and two outputs is `init` with version 1. -/
theorem ofLists_two (E : Externals) (NDEBUG : Bool) (params : ZerocashParams E)
    (pubkeyHash rt : List Byte) (input0 input1 : PourInput) (output0 output1 : PourOutput) (vpub_in vpub_out : Nat)
    (dummy_input : Nat → PourInput) (dummy_output : Nat → PourOutput) (prng_1 : E.Rng)
    (inputs : List PourInput) (outputs : List PourOutput)
    (hin : inputs.length ≤ 2) (hout : outputs.length ≤ 2)
    (hi : inputs ++ (List.range (2 - inputs.length)).map dummy_input = [input0, input1])
    (ho : outputs ++ (List.range (2 - outputs.length)).map dummy_output = [output0, output1]) :
    ofLists E NDEBUG params pubkeyHash rt inputs outputs vpub_in vpub_out dummy_input
        dummy_output prng_1 =
      match init E 1 params rt input0.old_coin input1.old_coin input0.old_address
          input1.old_address input0.merkle_index input1.merkle_index input0.path input1.path
          output0.to_address output1.to_address vpub_in vpub_out pubkeyHash output0.new_coin
          output1.new_coin prng_1 with
      | some tx => Except.ok tx
      | none => Except.error ConstructionError.initFailed := by
  unfold ofLists
  rw [if_neg (fun h => h.2 hin), if_neg (fun h => h.2 hout)]
  simp only [pushDummies_two dummy_input inputs hin, pushDummies_two dummy_output outputs hout,
    hi, ho]
  rw [if_neg (fun h => h.2 ⟨rfl, rfl⟩)]

/-- C12. For at most two inputs and at most two outputs, the list-taking constructor runs `init`
with version 1 on exactly two inputs and two outputs: the supplied ones in their order, followed
by as many dummies as are missing. A dummy holds a coin of value 0 paid to the dummy's own fresh
address. Serial number `j` and MAC `j` of the result are those of input `j - 1`, and `cm_j` and
the encryption for `ct_j` are those of output `j - 1`. -/
theorem ofLists_eq_init (E : Externals) (NDEBUG : Bool) (params : ZerocashParams E)
    (pubkeyHash rt : List Byte) (inputs : List PourInput) (outputs : List PourOutput) (vpub_in vpub_out : Nat)
    (seeds_in seeds_out : Nat → DummySeed) (prng_1 : E.Rng)
    (hin : inputs.length ≤ 2) (hout : outputs.length ≤ 2) :
    (∀ k, (PourInput.dummy E params.treeDepth (seeds_in k)).old_coin.getValue = 0 ∧
      (PourInput.dummy E params.treeDepth (seeds_in k)).old_address.addr_pk =
        (PourInput.dummy E params.treeDepth (seeds_in k)).old_coin.addr_pk) ∧
    (∀ k, (PourOutput.dummy E (seeds_out k)).new_coin.getValue = 0 ∧
      (PourOutput.dummy E (seeds_out k)).to_address =
        (PourOutput.dummy E (seeds_out k)).new_coin.addr_pk) ∧
    ∃ input0 input1 output0 output1,
      inputs ++ (List.range (2 - inputs.length)).map
          (fun k => PourInput.dummy E params.treeDepth (seeds_in k)) = [input0, input1] ∧
      outputs ++ (List.range (2 - outputs.length)).map
          (fun k => PourOutput.dummy E (seeds_out k)) = [output0, output1] ∧
      ofLists E NDEBUG params pubkeyHash rt inputs outputs vpub_in vpub_out
          (fun k => PourInput.dummy E params.treeDepth (seeds_in k))
          (fun k => PourOutput.dummy E (seeds_out k)) prng_1 =
        (match init E 1 params rt input0.old_coin input1.old_coin input0.old_address
            input1.old_address input0.merkle_index input1.merkle_index input0.path input1.path
            output0.to_address output1.to_address vpub_in vpub_out pubkeyHash output0.new_coin
            output1.new_coin prng_1 with
        | some tx => Except.ok tx
        | none => Except.error ConstructionError.initFailed) ∧
      ∀ tx, ofLists E NDEBUG params pubkeyHash rt inputs outputs vpub_in vpub_out
          (fun k => PourInput.dummy E params.treeDepth (seeds_in k))
          (fun k => PourOutput.dummy E (seeds_out k)) prng_1 = Except.ok tx →
        tx.version = 1 ∧
        tx.serialNumber_1 = convertVectorToBytesVector (sn_old_bv E
          (convertBytesVectorToVector input0.old_address.addr_sk)
          (convertBytesVectorToVector input0.old_coin.rho)) ∧
        tx.serialNumber_2 = convertVectorToBytesVector (sn_old_bv E
          (convertBytesVectorToVector input1.old_address.addr_sk)
          (convertBytesVectorToVector input1.old_coin.rho)) ∧
        tx.MAC_1 = convertVectorToBytesVector (MAC_1_bv E
          (convertBytesVectorToVector input0.old_address.addr_sk) pubkeyHash) ∧
        tx.MAC_2 = convertVectorToBytesVector (MAC_2_bv E
          (convertBytesVectorToVector input1.old_address.addr_sk) pubkeyHash) ∧
        tx.cm_1 = output0.new_coin.cm ∧ tx.cm_2 = output1.new_coin.cm ∧
        ∃ prng_2 prng_3,
          init_encrypt E prng_1 output0.to_address output0.new_coin =
            some (tx.ciphertext_1, prng_2) ∧
          init_encrypt E prng_2 output1.to_address output1.new_coin =
            some (tx.ciphertext_2, prng_3) := by
  refine ⟨fun k => ⟨getValue_new_zero E _ _ _, rfl⟩, fun k => ⟨getValue_new_zero E _ _ _, rfl⟩,
    ?_⟩
  have hpad : ∀ {α : Type} (dummy : Nat → α) (xs : List α), xs.length ≤ 2 →
      ∃ x0 x1, xs ++ (List.range (2 - xs.length)).map dummy = [x0, x1] := by
    intro α dummy xs hxs
    match xs, hxs with
    | [], _ => exact ⟨dummy 0, dummy 1, rfl⟩
    | [x0], _ => exact ⟨x0, dummy 0, rfl⟩
    | [x0, x1], _ => exact ⟨x0, x1, rfl⟩
  obtain ⟨input0, input1, hi⟩ :=
    hpad (fun k => PourInput.dummy E params.treeDepth (seeds_in k)) inputs hin
  obtain ⟨output0, output1, ho⟩ :=
    hpad (fun k => PourOutput.dummy E (seeds_out k)) outputs hout
  have hof := ofLists_two E NDEBUG params pubkeyHash rt input0 input1 output0 output1 vpub_in vpub_out
    _ _ prng_1 inputs outputs hin hout hi ho
  refine ⟨input0, input1, output0, output1, hi, ho, hof, ?_⟩
  intro tx htx
  rw [hof] at htx
  split at htx
  · rename_i tx2 hinit
    have : tx2 = tx := by simpa using htx
    subst this
    obtain ⟨_, hver, _, _, hcm1, hcm2, hsn1, hsn2, hmac1, hmac2⟩ := init_eq_some hinit
    exact ⟨hver, hsn1, hsn2, hmac1, hmac2, hcm1, hcm2, init_eq_some_ciphertexts hinit⟩
  · exact absurd htx (by simp)

/-- C12 at the pour `test_pour(p, 0, 0, {1}, {1})` of the tests. -/
theorem ofLists_eq_init_witness :
    [sampleInput 1 1 0].length ≤ 2 ∧ [sampleOutput 3 1].length ≤ 2 ∧
    paddedPour.toOption = some paddedTx ∧
    paddedTx.version = 1 ∧
    paddedTx.cm_1 = (sampleOutput 3 1).new_coin.cm ∧
    paddedTx.cm_2 = (PourOutput.dummy referenceExternals (sampleSeed 2)).new_coin.cm ∧
    paddedTx.MAC_2 = convertVectorToBytesVector (MAC_2_bv referenceExternals
      (convertBytesVectorToVector
        (PourInput.dummy referenceExternals 4 (sampleSeed 0)).old_address.addr_sk)
      samplePubkeyHash) := by
  obtain ⟨_, _, input0, input1, output0, output1, hi, ho, _, hall⟩ :=
    ofLists_eq_init referenceExternals false referenceParams samplePubkeyHash (sampleRoot 7)
      [sampleInput 1 1 0] [sampleOutput 3 1] 0 0 sampleSeed (fun k => sampleSeed (2 + k)) ()
      (by decide) (by decide)
  have hok : paddedPour = Except.ok paddedTx := by
    have hsome : paddedPour.toOption = some paddedTx := by decide
    unfold Except.toOption at hsome
    split at hsome
    · rename_i tx htx
      rw [htx, Option.some.inj hsome]
    · exact absurd hsome (by simp)
  obtain ⟨hver, _, _, _, hmac2, hcm1, hcm2, _⟩ := hall paddedTx hok
  have hi0 : input1 = PourInput.dummy referenceExternals 4 (sampleSeed 0) := by
    have := (List.cons.inj (List.cons.inj hi).2).1
    exact this.symm
  have ho0 : output0 = sampleOutput 3 1 := ((List.cons.inj ho).1).symm
  have ho1 : output1 = PourOutput.dummy referenceExternals (sampleSeed 2) :=
    ((List.cons.inj (List.cons.inj ho).2).1).symm
  subst hi0 ho0 ho1
  exact ⟨by decide, by decide, by decide, hver, hcm1, hcm2, hmac2⟩

/-- C13. The list-taking constructor at three inputs (values 1, 1 and 5) and no output, with
`vpub_out = 2`. In a build with assertions the assertion of line 58 fails and the process
aborts. In a build with `NDEBUG` no size is tested: the constructor returns a version 1
transaction, the same it returns for the first two inputs alone, with the serial numbers of
inputs 0 and 1, and `verify` accepts it; the third input is dropped without notice. -/
theorem ofLists_three_inputs :
    [sampleInput 1 1 0, sampleInput 2 1 1, sampleInput 5 5 2].length = 3 ∧
    (ofLists referenceExternals false referenceParams samplePubkeyHash (sampleRoot 7)
      [sampleInput 1 1 0, sampleInput 2 1 1, sampleInput 5 5 2] [] 0 2
      (fun k => PourInput.dummy referenceExternals referenceParams.treeDepth (sampleSeed k))
      (fun k => PourOutput.dummy referenceExternals (sampleSeed (2 + k))) ()).toOption = none ∧
    (ofLists referenceExternals true referenceParams samplePubkeyHash (sampleRoot 7)
      [sampleInput 1 1 0, sampleInput 2 1 1, sampleInput 5 5 2] [] 0 2
      (fun k => PourInput.dummy referenceExternals referenceParams.treeDepth (sampleSeed k))
      (fun k => PourOutput.dummy referenceExternals (sampleSeed (2 + k))) ()).toOption =
      (ofLists referenceExternals true referenceParams samplePubkeyHash (sampleRoot 7)
        [sampleInput 1 1 0, sampleInput 2 1 1] [] 0 2
        (fun k => PourInput.dummy referenceExternals referenceParams.treeDepth (sampleSeed k))
        (fun k => PourOutput.dummy referenceExternals (sampleSeed (2 + k))) ()).toOption ∧
    ((ofLists referenceExternals true referenceParams samplePubkeyHash (sampleRoot 7)
      [sampleInput 1 1 0, sampleInput 2 1 1, sampleInput 5 5 2] [] 0 2
      (fun k => PourInput.dummy referenceExternals referenceParams.treeDepth (sampleSeed k))
      (fun k => PourOutput.dummy referenceExternals (sampleSeed (2 + k))) ()).toOption.map
        fun tx => (tx.version,
          decide (tx.serialNumber_1 = convertVectorToBytesVector (sn_old_bv referenceExternals
            (convertBytesVectorToVector (sampleAddress 1).addr_sk)
            (convertBytesVectorToVector (sampleCoin 1 1).rho))),
          decide (tx.serialNumber_2 = convertVectorToBytesVector (sn_old_bv referenceExternals
            (convertBytesVectorToVector (sampleAddress 2).addr_sk)
            (convertBytesVectorToVector (sampleCoin 2 1).rho))),
          verify referenceExternals tx referenceParams samplePubkeyHash (sampleRoot 7))) =
      some (1, true, true, true) := by
  decide

end PourTransaction

namespace PourTransaction

/-- A transaction returned by the list-taking constructor was returned by `init`, run with
version 1 and the constructor's two public values. -/
theorem ofLists_ok {E : Externals} {NDEBUG : Bool} {params : ZerocashParams E}
    {pubkeyHash rt : List Byte} {inputs : List PourInput} {outputs : List PourOutput}
    {vpub_in vpub_out : Nat} {dummy_input : Nat → PourInput} {dummy_output : Nat → PourOutput}
    {prng_1 : E.Rng} {tx : PourTransaction}
    (h : ofLists E NDEBUG params pubkeyHash rt inputs outputs vpub_in vpub_out dummy_input
      dummy_output prng_1 = Except.ok tx) :
    ∃ (input0 input1 : PourInput) (output0 output1 : PourOutput),
      init E 1 params rt input0.old_coin input1.old_coin input0.old_address
        input1.old_address input0.merkle_index input1.merkle_index input0.path input1.path
        output0.to_address output1.to_address vpub_in vpub_out pubkeyHash output0.new_coin
        output1.new_coin prng_1 = some tx := by
  unfold ofLists at h
  split at h
  · exact absurd h (by simp)
  · split at h
    · exact absurd h (by simp)
    · simp only [] at h
      split at h
      · exact absurd h (by simp)
      · split at h
        · rename_i input0 input1 _ output0 output1 _ _ _
          split at h
          · rename_i tx2 hinit
            have : tx2 = tx := by simpa using h
            subst this
            exact ⟨input0, input1, output0, output1, hinit⟩
          · exact absurd h (by simp)
        · exact absurd h (by simp)

/-- C11. For 64-bit `v_pub_in` and `v_pub_out` passed to either non-default constructor, the
transaction stores each as exactly eight bytes, byte `k` being digit `7 - k` of the value in
base 256 (big-endian), and `getPublicValueIn` and `getPublicValueOut` return the two values. -/
theorem constructor_publicValues (E : Externals) (version_num : Nat)
    (params : ZerocashParams E) (rt : List Byte) (c_1_old c_2_old : Coin)
    (addr_1_old addr_2_old : Address) (patMerkleIdx_1 patMerkleIdx_2 : Nat)
    (patMAC_1 patMAC_2 : merkle_authentication_path) (addr_1_new addr_2_new : PublicAddress)
    (v_pub_in v_pub_out : Nat) (pubkeyHash : List Byte) (c_1_new c_2_new : Coin)
    (NDEBUG : Bool) (inputs : List PourInput) (outputs : List PourOutput)
    (dummy_input : Nat → PourInput) (dummy_output : Nat → PourOutput) (prng_1 : E.Rng)
    (tx : PourTransaction)
    (hin : v_pub_in < 2 ^ 64) (hout : v_pub_out < 2 ^ 64)
    (h : ofCoins E version_num params rt c_1_old c_2_old addr_1_old addr_2_old patMerkleIdx_1
        patMerkleIdx_2 patMAC_1 patMAC_2 addr_1_new addr_2_new v_pub_in v_pub_out pubkeyHash
        c_1_new c_2_new prng_1 = some tx ∨
      ofLists E NDEBUG params pubkeyHash rt inputs outputs v_pub_in v_pub_out dummy_input
        dummy_output prng_1 = Except.ok tx) :
    (tx.publicInValue.length = 8 ∧
      (∀ k, k < 8 → tx.publicInValue[k]? =
        some ⟨v_pub_in / 256 ^ (7 - k) % 256, Nat.mod_lt _ (by decide)⟩) ∧
      tx.getPublicValueIn = v_pub_in) ∧
    (tx.publicOutValue.length = 8 ∧
      (∀ k, k < 8 → tx.publicOutValue[k]? =
        some ⟨v_pub_out / 256 ^ (7 - k) % 256, Nat.mod_lt _ (by decide)⟩) ∧
      tx.getPublicValueOut = v_pub_out) := by
  have hfields : tx.publicInValue = convertIntToBytesVector v_pub_in v_size ∧
      tx.publicOutValue = convertIntToBytesVector v_pub_out v_size := by
    rcases h with h | h
    · obtain ⟨_, _, hvin, hvout, _⟩ := init_eq_some h
      exact ⟨hvin, hvout⟩
    · obtain ⟨_, _, _, _, hinit⟩ := ofLists_ok h
      obtain ⟨_, _, hvin, hvout, _⟩ := init_eq_some hinit
      exact ⟨hvin, hvout⟩
  obtain ⟨hvin, hvout⟩ := hfields
  refine ⟨⟨?_, ?_, ?_⟩, ⟨?_, ?_, ?_⟩⟩
  · rw [hvin]
    exact length_convertIntToBytesVector _ _
  · intro k hk
    rw [hvin]
    exact getElem_convertIntToBytesVector v_pub_in 8 k hk
  · rw [getPublicValueIn, hvin]
    exact convertBytesVectorToInt_convertIntToBytesVector _ hin
  · rw [hvout]
    exact length_convertIntToBytesVector _ _
  · intro k hk
    rw [hvout]
    exact getElem_convertIntToBytesVector v_pub_out 8 k hk
  · rw [getPublicValueOut, hvout]
    exact convertBytesVectorToInt_convertIntToBytesVector _ hout

/-- C11 at a pour whose public values are `2^64 - 2` and `2^64 - 1`. -/
theorem constructor_publicValues_witness :
    samplePour 1 (sampleRoot 7) 1 3 2 1 (2 ^ 64 - 2) (2 ^ 64 - 1) = some largeValueTx ∧
    largeValueTx.publicInValue = [255, 255, 255, 255, 255, 255, 255, 254] ∧
    largeValueTx.getPublicValueIn = 2 ^ 64 - 2 ∧
    largeValueTx.publicOutValue = [255, 255, 255, 255, 255, 255, 255, 255] ∧
    largeValueTx.getPublicValueOut = 2 ^ 64 - 1 :=
  have h : samplePour 1 (sampleRoot 7) 1 3 2 1 (2 ^ 64 - 2) (2 ^ 64 - 1) = some largeValueTx := by
    decide
  have hC := constructor_publicValues referenceExternals 1 referenceParams (sampleRoot 7)
    (sampleCoin 1 1) (sampleCoin 2 3) (sampleAddress 1) (sampleAddress 2) 1 3 samplePath
    samplePath (samplePublicAddress 3) (samplePublicAddress 4) (2 ^ 64 - 2) (2 ^ 64 - 1)
    samplePubkeyHash (sampleCoin 3 2) (sampleCoin 4 1) false [] []
    (fun _ => sampleInput 1 0 0)
    (fun _ => sampleOutput 1 0) () largeValueTx (by decide) (by decide) (Or.inl h)
  ⟨h, by decide, hC.1.2.2, by decide, hC.2.2.2⟩

end PourTransaction

/-! ## Serialization round trip -/

theorem readBytes_append (n : Nat) (field rest : List Byte) (h : field.length = n) :
    readBytes n (field ++ rest) = some (field, rest) := by
  subst h
  simp [readBytes]

theorem readFields_append (fields : List (List Byte)) (rest : List Byte) :
    readFields (fields.map List.length) (fields.flatten ++ rest) = some (fields, rest) := by
  induction fields with
  | nil => rfl
  | cons field fields ih =>
    simp only [List.map_cons, List.flatten, List.append_assoc, readFields,
      readBytes_append _ field _ rfl]
    have ih2 : readFields (List.map List.length fields) (fields.flatten ++ rest) =
        some (fields, rest) := ih
    simp only [List.flatten] at ih2
    rw [ih2]

theorem readPrefixed_writePrefixed (L : LengthPrefix) (hL : L.Lawful) (field rest : List Byte)
    (h : field.length < 2 ^ 64) :
    readPrefixed L (writePrefixed L field ++ rest) = some (field, rest) := by
  simp only [readPrefixed, writePrefixed, List.append_assoc, hL field.length _ h,
    Option.some_bind, readBytes_append _ field rest rfl]

/-- The two big-endian bytes of a 16-bit integer read back as the integer. -/
theorem convertBytesVectorToInt_two (val_int : Nat) (h : val_int < 65536) :
    convertBytesVectorToInt (convertIntToBytesVector val_int 2) = val_int := by
  simp only [convertBytesVectorToInt, convertIntToBytesVector, List.range, List.range.loop,
    List.map_cons, List.map_nil, List.foldl_cons, List.foldl_nil]
  norm_num
  omega

theorem referenceLengthPrefix_lawful : referenceLengthPrefix.Lawful := by
  intro n rest hn
  simp only [referenceLengthPrefix]
  rw [readBytes_append 8 _ rest (length_convertIntToBytesVector n 8)]
  simp only [Option.some_bind]
  rw [show (8 : Nat) = v_size from rfl,
    PourTransaction.convertBytesVectorToInt_convertIntToBytesVector n hn]

namespace PourTransaction

/-- Reading back a serialized pour transaction whose fields have the widths of the format. -/
theorem deserialize_serialize_eq (L : LengthPrefix) (hL : L.Lawful) (rt : List Byte)
    (tx : PourTransaction) (hversion : tx.version < 65536) (hrt : rt.length = root_size)
    (hsn1 : tx.serialNumber_1.length = sn_size) (hsn2 : tx.serialNumber_2.length = sn_size)
    (hcm1 : tx.cm_1.commitmentValue.length = cm_size)
    (hcm2 : tx.cm_2.commitmentValue.length = cm_size)
    (hin : tx.publicInValue.length = v_size) (hout : tx.publicOutValue.length = v_size)
    (hmac1 : tx.MAC_1.length = h_size) (hmac2 : tx.MAC_2.length = h_size)
    (hct1 : tx.ciphertext_1.length < 2 ^ 64) (hct2 : tx.ciphertext_2.length < 2 ^ 64)
    (hproof : tx.zkSNARK.length < 2 ^ 64) :
    deserialize L (serialize L rt tx) = some (rt, tx) := by
  have hser : serialize L rt tx =
      [convertIntToBytesVector tx.version 2, rt, tx.serialNumber_1, tx.serialNumber_2,
        tx.cm_1.commitmentValue, tx.cm_2.commitmentValue, tx.publicInValue, tx.publicOutValue,
        tx.MAC_1, tx.MAC_2].flatten ++
      (writePrefixed L tx.ciphertext_1 ++ (writePrefixed L tx.ciphertext_2 ++
        (writePrefixed L tx.zkSNARK ++ []))) := by
    simp only [serialize, List.flatten, List.append_assoc, List.append_nil]
  have hwidths : [2, root_size, sn_size, sn_size, cm_size, cm_size, v_size, v_size, h_size,
      h_size] =
      [convertIntToBytesVector tx.version 2, rt, tx.serialNumber_1, tx.serialNumber_2,
        tx.cm_1.commitmentValue, tx.cm_2.commitmentValue, tx.publicInValue, tx.publicOutValue,
        tx.MAC_1, tx.MAC_2].map List.length := by
    simp only [List.map_cons, List.map_nil, length_convertIntToBytesVector, hrt, hsn1, hsn2,
      hcm1, hcm2, hin, hout, hmac1, hmac2]
  unfold deserialize
  rw [hser, hwidths, readFields_append]
  dsimp only
  rw [readPrefixed_writePrefixed L hL _ _ hct1]
  dsimp only
  rw [readPrefixed_writePrefixed L hL _ _ hct2]
  dsimp only
  rw [readPrefixed_writePrefixed L hL _ _ hproof]
  dsimp only
  rw [convertBytesVectorToInt_two _ hversion]

/-- C15. For a pour transaction whose fields have the widths of the serialized form (and whose
version and lengths fit their integer types), reading back its serialization gives the anchor
root written with it and a transaction equal to it in every member, so `verify` returns on the
round-tripped transaction what it returns on the original. -/
theorem deserialize_serialize (L : LengthPrefix) (E : Externals) (params : ZerocashParams E)
    (pubkeyHash merkleRoot rt : List Byte) (tx : PourTransaction) (hL : L.Lawful)
    (hversion : tx.version < 65536) (hrt : rt.length = root_size)
    (hsn1 : tx.serialNumber_1.length = sn_size) (hsn2 : tx.serialNumber_2.length = sn_size)
    (hcm1 : tx.cm_1.commitmentValue.length = cm_size)
    (hcm2 : tx.cm_2.commitmentValue.length = cm_size)
    (hin : tx.publicInValue.length = v_size) (hout : tx.publicOutValue.length = v_size)
    (hmac1 : tx.MAC_1.length = h_size) (hmac2 : tx.MAC_2.length = h_size)
    (hct1 : tx.ciphertext_1.length < 2 ^ 64) (hct2 : tx.ciphertext_2.length < 2 ^ 64)
    (hproof : tx.zkSNARK.length < 2 ^ 64) :
    deserialize L (serialize L rt tx) = some (rt, tx) ∧
    (deserialize L (serialize L rt tx)).map
        (fun p => verify E p.2 params pubkeyHash merkleRoot) =
      some (verify E tx params pubkeyHash merkleRoot) := by
  have h := deserialize_serialize_eq L hL rt tx hversion hrt hsn1 hsn2 hcm1 hcm2 hin hout hmac1
    hmac2 hct1 hct2 hproof
  refine ⟨h, ?_⟩
  rw [h]
  rfl

/-- C15 at the pour of the tests, with lengths written as eight big-endian bytes. -/
theorem deserialize_serialize_witness :
    deserialize referenceLengthPrefix
        (serialize referenceLengthPrefix (sampleRoot 7) balancedTx) =
      some (sampleRoot 7, balancedTx) ∧
    (deserialize referenceLengthPrefix
        (serialize referenceLengthPrefix (sampleRoot 7) balancedTx)).map
        (fun p => verify referenceExternals p.2 referenceParams samplePubkeyHash
          (sampleRoot 7)) = some true :=
  have hC := deserialize_serialize referenceLengthPrefix referenceExternals referenceParams
    samplePubkeyHash (sampleRoot 7) (sampleRoot 7) balancedTx referenceLengthPrefix_lawful
    (by decide) (by decide) (by decide) (by decide) (by decide) (by decide) (by decide)
    (by decide) (by decide) (by decide) (by decide) (by decide) (by decide)
  ⟨hC.1, hC.2.trans (congrArg some (by decide))⟩

end PourTransaction

/-! ## Incremental Merkle tree -/

theorem nodeHash_zero (E : Externals) : nodeHash E zeroHash zeroHash = zeroHash := by
  simp [nodeHash]

theorem merkleRoot_nil (E : Externals) (height : Nat) : merkleRoot E height [] = zeroHash := by
  induction height with
  | zero => rfl
  | succ height ih => simp [merkleRoot, ih, nodeHash_zero]

/-- Only the first `2 ^ height` leaves matter to the Merkle root. -/
theorem merkleRoot_take (E : Externals) (height : Nat) (leaves : List (List Bool)) (n : Nat)
    (h : 2 ^ height ≤ n) : merkleRoot E height (leaves.take n) = merkleRoot E height leaves := by
  induction height generalizing leaves n with
  | zero =>
    cases leaves with
    | nil => simp
    | cons value rest =>
      cases n with
      | zero => simp at h
      | succ n => rfl
  | succ height ih =>
    have h2 : 2 ^ (height + 1) = 2 ^ height + 2 ^ height := by ring
    rw [merkleRoot, merkleRoot, List.take_take, Nat.min_eq_left (by omega), List.drop_take,
      ih _ (n - 2 ^ height) (by omega)]

namespace IncrementalMerkleNode

theorem getValue_of_represents (E : Externals) (n : IncrementalMerkleNode) :
    ∀ (height : Nat) (leaves : List (List Bool)), Represents E height n leaves →
      getValue E n = merkleRoot E height leaves := by
  induction n with
  | empty =>
    intro height leaves h
    cases height <;> simp only [Represents] at h <;> subst h <;>
      simp [getValue, merkleRoot_nil]
  | leaf value =>
    intro height leaves h
    cases height with
    | zero =>
      simp only [Represents] at h
      subst h
      rfl
    | succ height => simp [Represents] at h
  | pruned value =>
    intro height leaves h
    cases height <;> simp only [Represents] at h <;> exact h.2
  | node left right ihl ihr =>
    intro height leaves h
    cases height with
    | zero => simp [Represents] at h
    | succ height =>
      simp only [Represents] at h
      rw [getValue, merkleRoot, ihl _ _ h.1, ihr _ _ h.2]

theorem length_of_represents (E : Externals) (n : IncrementalMerkleNode) :
    ∀ (height : Nat) (leaves : List (List Bool)), Represents E height n leaves →
      leaves.length ≤ 2 ^ height := by
  induction n with
  | empty =>
    intro height leaves h
    cases height <;> simp only [Represents] at h <;> subst h <;> simp
  | leaf value =>
    intro height leaves h
    cases height with
    | zero =>
      simp only [Represents] at h
      subst h
      simp
    | succ height => simp [Represents] at h
  | pruned value =>
    intro height leaves h
    cases height <;> simp only [Represents] at h <;> exact h.1.le
  | node left right ihl ihr =>
    intro height leaves h
    cases height with
    | zero => simp [Represents] at h
    | succ height =>
      simp only [Represents] at h
      have h1 := ihl _ _ h.1
      have h2 := ihr _ _ h.2
      have h3 : 2 ^ (height + 1) = 2 ^ height + 2 ^ height := by ring
      simp only [List.length_take, List.length_drop] at h1 h2
      omega

theorem isFull_of_represents (E : Externals) (n : IncrementalMerkleNode) :
    ∀ (height : Nat) (leaves : List (List Bool)), Represents E height n leaves →
      (isFull n = true ↔ leaves.length = 2 ^ height) := by
  induction n with
  | empty =>
    intro height leaves h
    have hpos : 0 < 2 ^ height := Nat.pow_pos (by decide)
    have hlen : leaves = [] := by
      cases height <;> simpa only [Represents] using h
    subst hlen
    simp only [isFull, List.length_nil]
    constructor
    · intro hf
      exact absurd hf (by simp)
    · intro hz
      omega
  | leaf value =>
    intro height leaves h
    cases height with
    | zero =>
      simp only [Represents] at h
      subst h
      simp [isFull]
    | succ height => simp [Represents] at h
  | pruned value =>
    intro height leaves h
    cases height <;> simp only [Represents] at h <;> simp [isFull, h.1]
  | node left right ihl ihr =>
    intro height leaves h
    cases height with
    | zero => simp [Represents] at h
    | succ height =>
      simp only [Represents] at h
      have h1 := ihl _ _ h.1
      have h2 := ihr _ _ h.2
      have h3 : 2 ^ (height + 1) = 2 ^ height + 2 ^ height := by ring
      have hpos : 0 < 2 ^ height := Nat.pow_pos (by decide)
      simp only [List.length_take, List.length_drop] at h1 h2
      simp only [isFull, Bool.and_eq_true, h1, h2]
      omega

theorem insertElement_empty (E : Externals) (value : List Bool) :
    ∀ height : Nat, ∃ n path, insertElement height empty value = some (n, path) ∧
      Represents E height n [value] ∧ noPruned n = true ∧ path.length = height := by
  intro height
  induction height with
  | zero => exact ⟨leaf value, [], rfl, rfl, rfl, rfl⟩
  | succ height ih =>
    obtain ⟨n, path, hins, hrep, hnp, hlen⟩ := ih
    have hpos : 0 < 2 ^ height := Nat.pow_pos (by decide)
    refine ⟨node n empty, false :: path, ?_, ?_, ?_, ?_⟩
    · simp only [insertElement, hins]
    · simp only [Represents]
      have htake : List.take (2 ^ height) [value] = [value] :=
        List.take_of_length_le (by
          rw [List.length_singleton]
          exact hpos)
      have hdrop : List.drop (2 ^ height) [value] = [] :=
        List.drop_eq_nil_of_le (by
          rw [List.length_singleton]
          exact hpos)
      rw [htake, hdrop]
      exact ⟨hrep, rfl⟩
    · simp only [noPruned, hnp, Bool.and_self]
    · simp only [List.length_cons, hlen]

/-- Insertion below a subtree that holds `leaves`: with a free slot the new subtree holds the
leaves and the new value after them; without one the insertion fails. -/
theorem insertElement_of_represents (E : Externals) (n : IncrementalMerkleNode) :
    ∀ (height : Nat) (leaves : List (List Bool)) (value : List Bool),
      Represents E height n leaves →
      (leaves.length < 2 ^ height → ∃ n2 path,
        insertElement height n value = some (n2, path) ∧
        Represents E height n2 (leaves ++ [value]) ∧
        (noPruned n = true → noPruned n2 = true) ∧ path.length = height) ∧
      (leaves.length = 2 ^ height → insertElement height n value = none) := by
  induction n with
  | empty =>
    intro height leaves value h
    have hlen : leaves = [] := by
      cases height <;> simpa only [Represents] using h
    subst hlen
    have hpos : 0 < 2 ^ height := Nat.pow_pos (by decide)
    refine ⟨fun _ => ?_, fun hfull => ?_⟩
    · obtain ⟨n2, path, hins, hrep, hnp, hpl⟩ := insertElement_empty E value height
      exact ⟨n2, path, hins, by simpa using hrep, fun _ => hnp, hpl⟩
    · simp only [List.length_nil] at hfull
      omega
  | leaf v =>
    intro height leaves value h
    cases height with
    | zero =>
      simp only [Represents] at h
      subst h
      refine ⟨fun hlt => ?_, fun _ => rfl⟩
      simp at hlt
    | succ height => simp [Represents] at h
  | pruned v =>
    intro height leaves value h
    have hlen : leaves.length = 2 ^ height := by
      cases height <;> simp only [Represents] at h <;> exact h.1
    refine ⟨fun hlt => ?_, fun _ => ?_⟩
    · omega
    · cases height <;> rfl
  | node left right ihl ihr =>
    intro height leaves value h
    cases height with
    | zero => simp [Represents] at h
    | succ height =>
      simp only [Represents] at h
      obtain ⟨hl, hr⟩ := h
      have h3 : 2 ^ (height + 1) = 2 ^ height + 2 ^ height := by ring
      have hpos : 0 < 2 ^ height := Nat.pow_pos (by decide)
      have hll := length_of_represents E left _ _ hl
      have hrl := length_of_represents E right _ _ hr
      simp only [List.length_take, List.length_drop] at hll hrl
      refine ⟨fun hlt => ?_, fun hfull => ?_⟩
      · by_cases hleft : leaves.length < 2 ^ height
        · have htake : leaves.take (2 ^ height) = leaves :=
            List.take_of_length_le (by omega)
          have hdrop : leaves.drop (2 ^ height) = [] :=
            List.drop_eq_nil_of_le (by omega)
          rw [htake] at hl
          rw [hdrop] at hr
          obtain ⟨l2, path, hins, hrep, hnp, hpl⟩ := (ihl height leaves value hl).1 hleft
          refine ⟨node l2 right, false :: path, ?_, ?_, ?_, ?_⟩
          · simp only [insertElement, hins]
          · simp only [Represents]
            have htake2 : (leaves ++ [value]).take (2 ^ height) = leaves ++ [value] :=
              List.take_of_length_le (by simp; omega)
            have hdrop2 : (leaves ++ [value]).drop (2 ^ height) = [] :=
              List.drop_eq_nil_of_le (by simp; omega)
            rw [htake2, hdrop2]
            exact ⟨hrep, hr⟩
          · intro hn
            simp only [noPruned, Bool.and_eq_true] at hn ⊢
            exact ⟨hnp hn.1, hn.2⟩
          · simp only [List.length_cons, hpl]
        · have hfullLeft : (leaves.take (2 ^ height)).length = 2 ^ height := by
            simp only [List.length_take]
            omega
          have hnone := (ihl height _ value hl).2 hfullLeft
          have hroom : (leaves.drop (2 ^ height)).length < 2 ^ height := by
            simp only [List.length_drop]
            omega
          obtain ⟨r2, path, hins, hrep, hnp, hpl⟩ := (ihr height _ value hr).1 hroom
          refine ⟨node left r2, true :: path, ?_, ?_, ?_, ?_⟩
          · simp only [insertElement, hnone, hins]
          · simp only [Represents]
            rw [List.take_append_of_le_length (by omega),
              List.drop_append_of_le_length (by omega)]
            exact ⟨hl, hrep⟩
          · intro hn
            simp only [noPruned, Bool.and_eq_true] at hn ⊢
            exact ⟨hn.1, hnp hn.2⟩
          · simp only [List.length_cons, hpl]
      · have hfullLeft : (leaves.take (2 ^ height)).length = 2 ^ height := by
          simp only [List.length_take]
          omega
        have hfullRight : (leaves.drop (2 ^ height)).length = 2 ^ height := by
          simp only [List.length_drop]
          omega
        simp only [insertElement, (ihl height _ value hl).2 hfullLeft,
          (ihr height _ value hr).2 hfullRight]

theorem getValue_prune (E : Externals) (n : IncrementalMerkleNode) :
    getValue E (prune E n) = getValue E n := by
  induction n with
  | empty => rfl
  | leaf value => rfl
  | pruned value => rfl
  | node left right ihl ihr =>
    simp only [prune]
    split
    · rfl
    · simp only [getValue, ihl, ihr]

theorem prune_of_represents (E : Externals) (n : IncrementalMerkleNode) :
    ∀ (height : Nat) (leaves : List (List Bool)), Represents E height n leaves →
      Represents E height (prune E n) leaves := by
  induction n with
  | empty =>
    intro height leaves h
    exact h
  | leaf value =>
    intro height leaves h
    cases height with
    | zero =>
      simp only [Represents] at h
      subst h
      simp only [prune, Represents]
      exact ⟨rfl, rfl⟩
    | succ height => simp [Represents] at h
  | pruned value =>
    intro height leaves h
    exact h
  | node left right ihl ihr =>
    intro height leaves h
    cases height with
    | zero => simp [Represents] at h
    | succ height =>
      simp only [prune]
      split
      · rename_i hfull
        simp only [Represents]
        exact ⟨(isFull_of_represents E _ _ _ h).1 hfull, getValue_of_represents E _ _ _ h⟩
      · simp only [Represents] at h ⊢
        exact ⟨ihl _ _ h.1, ihr _ _ h.2⟩

end IncrementalMerkleNode

namespace IncrementalMerkleTree

theorem holds_new (E : Externals) (depth : Nat) : Holds E (new depth) [] := by
  cases depth <;> rfl

theorem getRootValue_of_holds (E : Externals) (t : IncrementalMerkleTree)
    (leaves : List (List Bool)) (h : Holds E t leaves) :
    getRootValue E t = merkleRoot E t.treeHeight leaves :=
  IncrementalMerkleNode.getValue_of_represents E _ _ _ h

theorem length_of_holds (E : Externals) (t : IncrementalMerkleTree)
    (leaves : List (List Bool)) (h : Holds E t leaves) : leaves.length ≤ 2 ^ t.treeHeight :=
  IncrementalMerkleNode.length_of_represents E _ _ _ h

theorem holds_prune (E : Externals) (t : IncrementalMerkleTree) (leaves : List (List Bool))
    (h : Holds E t leaves) : Holds E (prune E t) leaves :=
  IncrementalMerkleNode.prune_of_represents E _ _ _ h

theorem insertElement_of_holds (E : Externals) (t : IncrementalMerkleTree)
    (leaves : List (List Bool)) (value : List Bool) (h : Holds E t leaves)
    (hdepth : t.treeHeight ≠ 0) (hroom : leaves.length < 2 ^ t.treeHeight) :
    ∃ t2 path, t.insertElement value = some (t2, path) ∧ t2.treeHeight = t.treeHeight ∧
      Holds E t2 (leaves ++ [value]) ∧
      (t.root.noPruned = true → t2.root.noPruned = true) ∧ path.length = t.treeHeight := by
  obtain ⟨n2, path, hins, hrep, hnp, hpl⟩ :=
    (IncrementalMerkleNode.insertElement_of_represents E _ _ _ value h).1 hroom
  refine ⟨{ t with root := n2 }, path, ?_, rfl, hrep, hnp, hpl⟩
  simp only [insertElement, if_neg hdepth, hins]

theorem insertElement_none (E : Externals) (t : IncrementalMerkleTree)
    (leaves : List (List Bool)) (value : List Bool) (h : Holds E t leaves)
    (hfull : t.treeHeight = 0 ∨ leaves.length = 2 ^ t.treeHeight) :
    t.insertElement value = none := by
  by_cases hdepth : t.treeHeight = 0
  · simp only [insertElement, if_pos hdepth]
  · have hlen : leaves.length = 2 ^ t.treeHeight := hfull.resolve_left hdepth
    simp only [insertElement, if_neg hdepth,
      (IncrementalMerkleNode.insertElement_of_represents E _ _ _ value h).2 hlen]

theorem insertAll_of_holds (E : Externals) (values : List (List Bool)) :
    ∀ (t : IncrementalMerkleTree) (leaves : List (List Bool)), Holds E t leaves →
      t.treeHeight ≠ 0 → leaves.length + values.length ≤ 2 ^ t.treeHeight →
      ∃ t2, t.insertAll values = some t2 ∧ t2.treeHeight = t.treeHeight ∧
        Holds E t2 (leaves ++ values) ∧ (t.root.noPruned = true → t2.root.noPruned = true) := by
  induction values with
  | nil =>
    intro t leaves h _ _
    exact ⟨t, rfl, rfl, by simpa using h, fun hn => hn⟩
  | cons value values ih =>
    intro t leaves h hdepth hroom
    simp only [List.length_cons] at hroom
    obtain ⟨t1, path, hins, hheight, hholds, hnp, _⟩ :=
      insertElement_of_holds E t leaves value h hdepth (by omega)
    obtain ⟨t2, hall, hheight2, hholds2, hnp2⟩ := ih t1 (leaves ++ [value]) hholds
      (by rw [hheight]; exact hdepth) (by rw [hheight]; simp; omega)
    refine ⟨t2, ?_, hheight2.trans hheight, ?_, fun hn => hnp2 (hnp hn)⟩
    · simp only [insertAll, hins, hall]
    · simpa using hholds2

theorem insertAll_none (E : Externals) (values : List (List Bool)) :
    ∀ (t : IncrementalMerkleTree) (leaves : List (List Bool)), Holds E t leaves →
      values ≠ [] → (t.treeHeight = 0 ∨ 2 ^ t.treeHeight < leaves.length + values.length) →
      t.insertAll values = none := by
  induction values with
  | nil =>
    intro t leaves _ hne _
    exact absurd rfl hne
  | cons value values ih =>
    intro t leaves h _ hover
    have hlen := length_of_holds E t leaves h
    by_cases hfull : t.treeHeight = 0 ∨ leaves.length = 2 ^ t.treeHeight
    · simp only [insertAll, insertElement_none E t leaves value h hfull]
    · simp only [not_or] at hfull
      obtain ⟨t1, path, hins, hheight, hholds, _, _⟩ :=
        insertElement_of_holds E t leaves value h hfull.1 (by omega)
      have hover2 : 2 ^ t.treeHeight < leaves.length + (value :: values).length :=
        hover.resolve_left hfull.1
      simp only [List.length_cons] at hover2
      have hne : values ≠ [] := by
        intro hnil
        subst hnil
        simp only [List.length_nil] at hover2
        omega
      have hnone := ih t1 (leaves ++ [value]) hholds hne
        (Or.inr (by rw [hheight]; simp; omega))
      simp only [insertAll, hins, hnone]

/-- What `insertVector` does to a tree that holds `leaves`: when the new leaves fit (or there are
none) it returns true and the tree holds the old leaves followed by the new ones; otherwise it
returns false and the tree is unchanged. -/
theorem insertVector_of_holds (E : Externals) (t : IncrementalMerkleTree)
    (leaves values : List (List Bool)) (h : Holds E t leaves) :
    ((values = [] ∨ (t.treeHeight ≠ 0 ∧ leaves.length + values.length ≤ 2 ^ t.treeHeight)) →
      (t.insertVector values).1 = true ∧ Holds E (t.insertVector values).2 (leaves ++ values) ∧
      (t.insertVector values).2.treeHeight = t.treeHeight ∧
      (t.root.noPruned = true → (t.insertVector values).2.root.noPruned = true)) ∧
    (¬ (values = [] ∨ (t.treeHeight ≠ 0 ∧ leaves.length + values.length ≤ 2 ^ t.treeHeight)) →
      (t.insertVector values).1 = false ∧ (t.insertVector values).2 = t) := by
  refine ⟨fun hok => ?_, fun hnot => ?_⟩
  · rcases hok with hnil | ⟨hdepth, hroom⟩
    · subst hnil
      exact ⟨rfl, by simpa using h, rfl, fun hn => hn⟩
    · obtain ⟨t2, hall, hheight, hholds, hnp⟩ :=
        insertAll_of_holds E values t leaves h hdepth hroom
      have hv : t.insertVector values = (true, t2) := by
        simp only [insertVector, hall]
      rw [hv]
      exact ⟨rfl, hholds, hheight, hnp⟩
  · simp only [not_or, not_and, not_le] at hnot
    have hnone := insertAll_none E values t leaves h hnot.1 (by
      by_cases hdepth : t.treeHeight = 0
      · exact Or.inl hdepth
      · exact Or.inr (hnot.2 hdepth))
    have hv : t.insertVector values = (false, t) := by
      simp only [insertVector, hnone]
    rw [hv]
    exact ⟨rfl, rfl⟩

/-- Whatever was inserted into an empty tree, the tree holds some list of leaves and keeps its
depth. -/
theorem insertVector_new (E : Externals) (depth : Nat) (values : List (List Bool)) :
    ∃ leaves, Holds E ((new depth).insertVector values).2 leaves ∧
      ((new depth).insertVector values).2.treeHeight = depth := by
  by_cases hok : values = [] ∨
      ((new depth).treeHeight ≠ 0 ∧ ([] : List (List Bool)).length + values.length ≤
        2 ^ (new depth).treeHeight)
  · obtain ⟨_, hholds, hheight, _⟩ :=
      (insertVector_of_holds E (new depth) [] values (holds_new E depth)).1 hok
    exact ⟨[] ++ values, hholds, hheight⟩
  · obtain ⟨_, hsame⟩ :=
      (insertVector_of_holds E (new depth) [] values (holds_new E depth)).2 hok
    rw [hsame]
    exact ⟨[], holds_new E depth, rfl⟩

end IncrementalMerkleTree

/-! ## Roots -/

namespace IncrementalMerkleTree

/-- Two trees of the same depth that hold the same leaves still do after the same batch was
handed to `insertVector` on each, and the two calls return the same flag. -/
theorem insertVector_congr (E : Externals) (t1 t2 : IncrementalMerkleTree)
    (leaves values : List (List Bool)) (h1 : Holds E t1 leaves) (h2 : Holds E t2 leaves)
    (hheight : t1.treeHeight = t2.treeHeight) :
    (t1.insertVector values).1 = (t2.insertVector values).1 ∧
    (t1.insertVector values).2.treeHeight = (t2.insertVector values).2.treeHeight ∧
    ∃ leaves2, Holds E (t1.insertVector values).2 leaves2 ∧
      Holds E (t2.insertVector values).2 leaves2 := by
  by_cases hok : values = [] ∨
      (t1.treeHeight ≠ 0 ∧ leaves.length + values.length ≤ 2 ^ t1.treeHeight)
  · obtain ⟨hf1, hh1, hd1, _⟩ := (insertVector_of_holds E t1 leaves values h1).1 hok
    obtain ⟨hf2, hh2, hd2, _⟩ :=
      (insertVector_of_holds E t2 leaves values h2).1 (by rw [← hheight]; exact hok)
    exact ⟨hf1.trans hf2.symm, by rw [hd1, hd2, hheight], leaves ++ values, hh1, hh2⟩
  · obtain ⟨hf1, hs1⟩ := (insertVector_of_holds E t1 leaves values h1).2 hok
    obtain ⟨hf2, hs2⟩ :=
      (insertVector_of_holds E t2 leaves values h2).2 (by rw [← hheight]; exact hok)
    refine ⟨hf1.trans hf2.symm, by rw [hs1, hs2, hheight], leaves, ?_, ?_⟩
    · rw [hs1]
      exact h1
    · rw [hs2]
      exact h2

/-- Pruning after every batch and never pruning lead to trees that hold the same leaves. -/
theorem foldl_prune_holds (E : Externals) (batches : List (List (List Bool))) :
    ∀ (t1 t2 : IncrementalMerkleTree) (leaves : List (List Bool)), Holds E t1 leaves →
      Holds E t2 leaves → t1.treeHeight = t2.treeHeight →
      getRootValue E (batches.foldl (fun t batch => prune E (t.insertVector batch).2) t1) =
        getRootValue E (batches.foldl (fun t batch => (t.insertVector batch).2) t2) := by
  induction batches with
  | nil =>
    intro t1 t2 leaves h1 h2 hheight
    simp only [List.foldl_nil]
    rw [getRootValue_of_holds E t1 leaves h1, getRootValue_of_holds E t2 leaves h2, hheight]
  | cons batch batches ih =>
    intro t1 t2 leaves h1 h2 hheight
    obtain ⟨_, hd, leaves2, hh1, hh2⟩ := insertVector_congr E t1 t2 leaves batch h1 h2 hheight
    simp only [List.foldl_cons]
    exact ih _ _ leaves2 (holds_prune E _ _ hh1) hh2 hd

/-- C20. Calling `prune` leaves `getRootValue` unchanged, on every tree. A tree pruned after
some insertions answers further insertions with the same flag and the same root as the tree
that was not pruned, and a tree pruned after every batch of insertions has the root of the tree
that received the same batches and was never pruned. -/
theorem getRootValue_prune (E : Externals) :
    (∀ t : IncrementalMerkleTree, getRootValue E (prune E t) = getRootValue E t) ∧
    (∀ (depth : Nat) (first more : List (List Bool)),
      ((prune E ((new depth).insertVector first).2).insertVector more).1 =
        (((new depth).insertVector first).2.insertVector more).1 ∧
      getRootValue E ((prune E ((new depth).insertVector first).2).insertVector more).2 =
        getRootValue E (((new depth).insertVector first).2.insertVector more).2) ∧
    ∀ (depth : Nat) (batches : List (List (List Bool))),
      getRootValue E
          (batches.foldl (fun t batch => prune E (t.insertVector batch).2) (new depth)) =
        getRootValue E (batches.foldl (fun t batch => (t.insertVector batch).2) (new depth)) := by
  refine ⟨fun t => IncrementalMerkleNode.getValue_prune E _, fun depth first more => ?_,
    fun depth batches => ?_⟩
  · obtain ⟨leaves, hholds, _⟩ := insertVector_new E depth first
    obtain ⟨hflag, hd, leaves2, hh1, hh2⟩ := insertVector_congr E
      (prune E ((new depth).insertVector first).2) ((new depth).insertVector first).2 leaves
      more (holds_prune E _ _ hholds) hholds rfl
    refine ⟨hflag, ?_⟩
    rw [getRootValue_of_holds E _ _ hh1, getRootValue_of_holds E _ _ hh2, hd]
  · exact foldl_prune_holds E batches (new depth) (new depth) [] (holds_new E depth)
      (holds_new E depth) rfl

/-- C20 at the tree of the examples: three leaves, `prune`, two more leaves, depth 16. Pruning
changes the tree, not the root. -/
theorem getRootValue_prune_witness :
    prune mixingExternals (sampleTree 16 3) ≠ sampleTree 16 3 ∧
    getRootValue mixingExternals ((prune mixingExternals
        ((new 16).insertVector ((List.range 3).map sampleLeaf)).2).insertVector
          [sampleLeaf 3, sampleLeaf 4]).2 =
      getRootValue mixingExternals (((new 16).insertVector
        ((List.range 3).map sampleLeaf)).2.insertVector [sampleLeaf 3, sampleLeaf 4]).2 ∧
    getRootValue mixingExternals (((new 16).insertVector
        ((List.range 3).map sampleLeaf)).2.insertVector [sampleLeaf 3, sampleLeaf 4]).2 =
      getRootValue mixingExternals (sampleTree 16 5) ∧
    getRootValue mixingExternals (sampleTree 16 5) ≠ zeroHash :=
  ⟨by decide,
    ((getRootValue_prune mixingExternals).2.1 16 ((List.range 3).map sampleLeaf)
      [sampleLeaf 3, sampleLeaf 4]).2, by decide, by decide⟩

end IncrementalMerkleTree

/-! ## Witnesses -/

theorem length_witnessOfLeaves (E : Externals) (height : Nat) :
    ∀ (leaves : List (List Bool)) (index : Nat),
      (witnessOfLeaves E height leaves index).length = height := by
  induction height with
  | zero =>
    intro leaves index
    rfl
  | succ height ih =>
    intro leaves index
    simp only [witnessOfLeaves]
    split <;> simp only [List.length_cons, ih]

/-- The sibling subtree lies within the tree. -/
theorem siblingStart_add_le (index height depth : Nat) (hindex : index < 2 ^ depth)
    (hheight : height < depth) : siblingStart index height + 2 ^ height ≤ 2 ^ depth := by
  obtain ⟨d, rfl⟩ : ∃ d, depth = height + 1 + d := ⟨depth - (height + 1), by omega⟩
  have hpow : 2 ^ (height + 1 + d) = (2 * 2 ^ d) * 2 ^ height := by ring
  have hpos : 0 < 2 ^ height := Nat.pow_pos (by decide)
  have hq : index / 2 ^ height < 2 * 2 ^ d := by
    rw [Nat.div_lt_iff_lt_mul hpos, ← hpow]
    exact hindex
  rw [hpow, siblingStart]
  split
  · rename_i heven
    have hle : index / 2 ^ height + 1 + 1 ≤ 2 * 2 ^ d := by omega
    calc (index / 2 ^ height + 1) * 2 ^ height + 2 ^ height
        = (index / 2 ^ height + 1 + 1) * 2 ^ height := by ring
      _ ≤ (2 * 2 ^ d) * 2 ^ height := Nat.mul_le_mul_right _ hle
  · rename_i hodd
    have hle : index / 2 ^ height - 1 + 1 ≤ 2 * 2 ^ d := by
      have hq1 : 1 ≤ index / 2 ^ height := by
        rcases Nat.eq_zero_or_pos (index / 2 ^ height) with hz | hp
        · rw [hz] at hodd
          exact absurd rfl hodd
        · exact hp
      rw [Nat.sub_add_cancel hq1]
      exact hq.le
    calc (index / 2 ^ height - 1) * 2 ^ height + 2 ^ height
        = (index / 2 ^ height - 1 + 1) * 2 ^ height := by ring
      _ ≤ (2 * 2 ^ d) * 2 ^ height := Nat.mul_le_mul_right _ hle

/-- In the right half of a tree the sibling subtrees are those of the half, shifted. -/
theorem siblingStart_shift (index height depth : Nat) (hindex : 2 ^ depth ≤ index)
    (hheight : height < depth) :
    siblingStart index height = 2 ^ depth + siblingStart (index - 2 ^ depth) height := by
  obtain ⟨d, rfl⟩ : ∃ d, depth = height + 1 + d := ⟨depth - (height + 1), by omega⟩
  have hpow : 2 ^ (height + 1 + d) = 2 ^ height * (2 * 2 ^ d) := by ring
  have hdiv : (index - 2 ^ height * (2 * 2 ^ d)) / 2 ^ height =
      index / 2 ^ height - 2 * 2 ^ d :=
    Nat.sub_mul_div _ _ _ (by rw [← hpow]; exact hindex)
  have hpos : 0 < 2 ^ height := Nat.pow_pos (by decide)
  have hq : 2 * 2 ^ d ≤ index / 2 ^ height := by
    rw [Nat.le_div_iff_mul_le hpos, Nat.mul_comm, ← hpow]
    exact hindex
  rw [hpow]
  simp only [siblingStart, hdiv]
  obtain ⟨q0, hq0⟩ : ∃ q0, index / 2 ^ height = q0 + 2 * 2 ^ d :=
    ⟨index / 2 ^ height - 2 * 2 ^ d, by omega⟩
  rw [hq0]
  have hsub : q0 + 2 * 2 ^ d - 2 * 2 ^ d = q0 := by omega
  rw [hsub]
  have hpar : (q0 + 2 * 2 ^ d) % 2 = q0 % 2 := by omega
  rw [hpar]
  split
  · ring
  · rename_i hodd
    obtain ⟨q1, hq1⟩ : ∃ q1, q0 = q1 + 1 := ⟨q0 - 1, by omega⟩
    subst hq1
    have h1 : q1 + 1 + 2 * 2 ^ d - 1 = q1 + 2 * 2 ^ d := by omega
    have h2 : q1 + 1 - 1 = q1 := by omega
    rw [h1, h2]
    ring

/-- The entries of a witness, read from the leaf side: the entry for height `height` is the
Merkle root of the sibling subtree of that height. -/
theorem getElem_witnessOfLeaves (E : Externals) (depth : Nat) :
    ∀ (leaves : List (List Bool)) (index : Nat), index < 2 ^ depth →
      ∀ height, height < depth →
        (witnessOfLeaves E depth leaves index)[depth - 1 - height]? =
          some (merkleRoot E height (leaves.drop (siblingStart index height))) := by
  induction depth with
  | zero =>
    intro leaves index _ height hheight
    omega
  | succ depth ih =>
    intro leaves index hindex height hheight
    have hpos : 0 < 2 ^ depth := Nat.pow_pos (by decide)
    have h2 : 2 ^ (depth + 1) = 2 ^ depth + 2 ^ depth := by ring
    by_cases htop : height = depth
    · subst htop
      have h0 : height + 1 - 1 - height = 0 := by omega
      rw [h0]
      simp only [witnessOfLeaves]
      split
      · rename_i hleft
        have hq : index / 2 ^ height = 0 := Nat.div_eq_of_lt hleft
        simp only [List.getElem?_cons_zero, siblingStart, hq]
        simp
      · rename_i hright
        have hq : index / 2 ^ height = 1 := by
          apply Nat.div_eq_of_lt_le
          · omega
          · omega
        simp only [List.getElem?_cons_zero, siblingStart, hq]
        simp [merkleRoot_take E height leaves (2 ^ height) (Nat.le_refl _)]
    · have hlt : height < depth := by omega
      have hidx : depth + 1 - 1 - height = (depth - 1 - height) + 1 := by omega
      rw [hidx]
      simp only [witnessOfLeaves]
      split
      · rename_i hleft
        rw [List.getElem?_cons_succ, ih _ index hleft height hlt, List.drop_take]
        have hle := siblingStart_add_le index height depth hleft hlt
        rw [merkleRoot_take E height _ _ (by omega)]
      · rename_i hright
        rw [List.getElem?_cons_succ, ih _ (index - 2 ^ depth) (by omega) height hlt,
          List.drop_drop, siblingStart_shift index height depth (by omega) hlt]

/-- Folding a leaf with its witness gives the Merkle root; the index left over is the index
without its `height` low bits. -/
theorem foldl_witnessOfLeaves (E : Externals) (height : Nat) :
    ∀ (leaves : List (List Bool)) (index : Nat) (leafValue : List Bool),
      leaves[index % 2 ^ height]? = some leafValue →
      (witnessOfLeaves E height leaves (index % 2 ^ height)).reverse.foldl
          (fun (state : List Bool × Nat) (sibling : List Bool) =>
            (if state.2 % 2 = 0 then nodeHash E state.1 sibling
              else nodeHash E sibling state.1, state.2 / 2))
          (leafValue, index) =
        (merkleRoot E height leaves, index / 2 ^ height) := by
  induction height with
  | zero =>
    intro leaves index leafValue hleaf
    simp only [pow_zero, Nat.mod_one] at hleaf
    simp only [witnessOfLeaves, List.reverse_nil, List.foldl_nil, merkleRoot, pow_zero,
      Nat.div_one]
    cases leaves with
    | nil => simp at hleaf
    | cons value rest =>
      simp only [List.getElem?_cons_zero, Option.some.injEq] at hleaf
      rw [hleaf]
      rfl
  | succ height ih =>
    intro leaves index leafValue hleaf
    have hpos : 0 < 2 ^ height := Nat.pow_pos (by decide)
    have hpow : 2 ^ (height + 1) = 2 ^ height * 2 := by ring
    have hmod : index % 2 ^ (height + 1) =
        index % 2 ^ height + 2 ^ height * (index / 2 ^ height % 2) := by
      rw [hpow]
      exact Nat.mod_mul
    have hdiv : index / 2 ^ (height + 1) = index / 2 ^ height / 2 := by
      rw [hpow, Nat.div_div_eq_div_mul]
    have hr : index % 2 ^ height < 2 ^ height := Nat.mod_lt _ hpos
    rcases Nat.mod_two_eq_zero_or_one (index / 2 ^ height) with hbit | hbit
    · have hm : index % 2 ^ (height + 1) = index % 2 ^ height := by
        rw [hmod, hbit]
        simp
      rw [hm] at hleaf ⊢
      have hleaf2 : (leaves.take (2 ^ height))[index % 2 ^ height]? = some leafValue := by
        rw [List.getElem?_take_of_lt hr]
        exact hleaf
      simp only [witnessOfLeaves, if_pos hr, List.reverse_cons, List.foldl_append,
        List.foldl_cons, List.foldl_nil, ih _ index leafValue hleaf2, hbit, if_true, merkleRoot,
        hdiv]
    · have hm : index % 2 ^ (height + 1) = index % 2 ^ height + 2 ^ height := by
        rw [hmod, hbit]
        simp
      rw [hm] at hleaf ⊢
      have hnot : ¬ index % 2 ^ height + 2 ^ height < 2 ^ height := by omega
      have hsub : index % 2 ^ height + 2 ^ height - 2 ^ height = index % 2 ^ height := by omega
      have hleaf2 : (leaves.drop (2 ^ height))[index % 2 ^ height]? = some leafValue := by
        rw [List.getElem?_drop, Nat.add_comm]
        exact hleaf
      have hone : ¬ (1 = 0) := by decide
      simp only [witnessOfLeaves, if_neg hnot, hsub, List.reverse_cons, List.foldl_append,
        List.foldl_cons, List.foldl_nil, ih _ index leafValue hleaf2, hbit, if_neg hone,
        merkleRoot, hdiv]

namespace IncrementalMerkleNode

/-- The witness an unpruned subtree gives for an inserted leaf is the one computed from its
leaves. -/
theorem getWitness_of_represents (E : Externals) (n : IncrementalMerkleNode) :
    ∀ (height : Nat) (leaves : List (List Bool)) (index : Nat),
      Represents E height n leaves → noPruned n = true → index < leaves.length →
      getWitness E height n index = some (witnessOfLeaves E height leaves index) := by
  induction n with
  | empty =>
    intro height leaves index h _ hindex
    have hlen : leaves = [] := by
      cases height <;> simpa only [Represents] using h
    subst hlen
    simp at hindex
  | leaf value =>
    intro height leaves index h _ _
    cases height with
    | zero => rfl
    | succ height => simp [Represents] at h
  | pruned value =>
    intro height leaves index _ hnp _
    simp [noPruned] at hnp
  | node left right ihl ihr =>
    intro height leaves index h hnp hindex
    cases height with
    | zero => simp [Represents] at h
    | succ height =>
      simp only [Represents] at h
      simp only [noPruned, Bool.and_eq_true] at hnp
      simp only [getWitness, witnessOfLeaves]
      split
      · rename_i hleft
        rw [ihl height _ index h.1 hnp.1 (by simp only [List.length_take]; omega),
          getValue_of_represents E right _ _ h.2]
      · rename_i hright
        rw [ihr height _ (index - 2 ^ height) h.2 hnp.2
            (by simp only [List.length_drop]; omega),
          getValue_of_represents E left _ _ h.1]

end IncrementalMerkleNode

namespace IncrementalMerkleTree

/-- After the insertion of leaves that fit into an empty tree of depth at least 1, the witness of
an inserted leaf is the one computed from the leaves, and the root is their Merkle root. -/
theorem getWitness_insertVector_eq (E : Externals) (depth : Nat) (leaves : List (List Bool))
    (index : Nat) (hdepth : 1 ≤ depth) (hfit : leaves.length ≤ 2 ^ depth)
    (hindex : index < leaves.length) :
    getWitness E ((new depth).insertVector leaves).2 index =
        some (witnessOfLeaves E depth leaves index) ∧
      getRootValue E ((new depth).insertVector leaves).2 = merkleRoot E depth leaves := by
  obtain ⟨_, hholds, hheight, hnp⟩ :=
    (insertVector_of_holds E (new depth) [] leaves (holds_new E depth)).1 (Or.inr ⟨by
      show depth ≠ 0
      omega, by
      show 0 + leaves.length ≤ 2 ^ depth
      omega⟩)
  rw [List.nil_append] at hholds
  have hheight2 : ((new depth).insertVector leaves).2.treeHeight = depth := hheight
  refine ⟨?_, ?_⟩
  · rw [getWitness, hheight2, if_pos (by omega)]
    have hrep : IncrementalMerkleNode.Represents E depth
        ((new depth).insertVector leaves).2.root leaves := by
      have := hholds
      rw [Holds, hheight2] at this
      exact this
    exact IncrementalMerkleNode.getWitness_of_represents E _ depth leaves index hrep
      (hnp rfl) hindex
  · rw [getRootValue_of_holds E _ _ hholds, hheight2]

/-- C19. After the insertion of leaves that fit into an empty tree of depth `depth >= 1`,
`getWitness` succeeds for the index of every inserted leaf and returns `depth` hashes, root side
first: the entry `depth - 1 - height` is the Merkle root of the sibling subtree of height
`height` (unfilled leaves counting as all-zero), so the last entry is the sibling leaf. Folding
the leaf with these entries from the last to the first, the sibling placed by the bits of the
index from the least significant upward, gives `getRootValue`, the Merkle root of the leaves. -/
theorem getWitness_insertVector (E : Externals) (depth : Nat) (leaves : List (List Bool))
    (index : Nat) (hdepth : 1 ≤ depth) (hfit : leaves.length ≤ 2 ^ depth)
    (hindex : index < leaves.length) :
    ∃ witness, getWitness E ((new depth).insertVector leaves).2 index = some witness ∧
      witness.length = depth ∧
      (∀ height, height < depth → witness[depth - 1 - height]? =
        some (merkleRoot E height (leaves.drop (siblingStart index height)))) ∧
      witness[depth - 1]? =
        some (leaves.getD (if index % 2 = 0 then index + 1 else index - 1) zeroHash) ∧
      foldWitness E (leaves.getD index zeroHash) index witness =
        getRootValue E ((new depth).insertVector leaves).2 ∧
      getRootValue E ((new depth).insertVector leaves).2 = merkleRoot E depth leaves := by
  obtain ⟨hw, hroot⟩ := getWitness_insertVector_eq E depth leaves index hdepth hfit hindex
  have hlt : index < 2 ^ depth := by omega
  have hentries := getElem_witnessOfLeaves E depth leaves index hlt
  refine ⟨witnessOfLeaves E depth leaves index, hw, length_witnessOfLeaves E depth leaves index,
    hentries, ?_, ?_, hroot⟩
  · have h0 := hentries 0 (by omega)
    have hs : siblingStart index 0 = if index % 2 = 0 then index + 1 else index - 1 := by
      simp only [siblingStart, pow_zero, Nat.div_one, Nat.mul_one]
    rw [Nat.sub_zero, hs] at h0
    rw [h0, merkleRoot, List.headD_eq_head?_getD, List.head?_drop, List.getD_eq_getElem?_getD]
  · have hleaf : leaves[index % 2 ^ depth]? = some (leaves.getD index zeroHash) := by
      rw [Nat.mod_eq_of_lt hlt, List.getD_eq_getElem?_getD, List.getElem?_eq_getElem hindex]
      rfl
    have hfold := foldl_witnessOfLeaves E depth leaves index _ hleaf
    rw [Nat.mod_eq_of_lt hlt] at hfold
    rw [foldWitness, hfold, hroot]

/-- C19 at the tree of the tests (`MerkleTreeSimpleTest`): five leaves, index 3, depth 64 and
depth 16. The last three entries are leaf 2, `H(leaf 0, leaf 1)` and `H(H(leaf 4, 0), 0)`, the
entries before them are all-zero, and the fold gives the root. -/
theorem getWitness_insertVector_witness :
    (getWitness mixingExternals (sampleTree 64 5) 3).map (fun w => (w.take 61, w.drop 61)) =
      some (List.replicate 61 zeroHash,
        [hashVectors mixingExternals (hashVectors mixingExternals (sampleLeaf 4) zeroHash)
          zeroHash, hashVectors mixingExternals (sampleLeaf 0) (sampleLeaf 1), sampleLeaf 2]) ∧
    (getWitness mixingExternals (sampleTree 16 5) 3).map (fun w => (w.take 13, w.drop 13)) =
      some (List.replicate 13 zeroHash,
        [hashVectors mixingExternals (hashVectors mixingExternals (sampleLeaf 4) zeroHash)
          zeroHash, hashVectors mixingExternals (sampleLeaf 0) (sampleLeaf 1), sampleLeaf 2]) ∧
    (getWitness mixingExternals (sampleTree 64 5) 3).map
        (fun w => foldWitness mixingExternals (sampleLeaf 3) 3 w) =
      some (getRootValue mixingExternals (sampleTree 64 5)) := by
  obtain ⟨w, hw, _, _, _, hfold, _⟩ := getWitness_insertVector mixingExternals 64
    ((List.range 5).map sampleLeaf) 3 (by decide) (by decide) (by decide)
  refine ⟨by decide, by decide, ?_⟩
  have hw2 : getWitness mixingExternals (sampleTree 64 5) 3 = some w := hw
  rw [hw2, Option.map_some']
  exact congrArg some hfold

end IncrementalMerkleTree

namespace PourTransaction

/-! ## Domain separation of the hashed inputs -/

theorem length_sn_internal (addr_sk_old_bv nonce_old_bv : List Bool)
    (hsk : addr_sk_old_bv.length = 256) (hrho : nonce_old_bv.length = rho_size * 8) :
    (sn_internal addr_sk_old_bv nonce_old_bv).length = 512 := by
  rw [sn_internal, concatenateVectors, nonce_old_eq _ hrho, List.length_append,
    List.length_append, List.length_take, hsk, hrho]
  rfl

/-- C26. For every 32-byte `a_sk`, `rho_old` and `pubkeyHash`, the serial-number input, the
`MAC_1` input and the `MAC_2` input that `init` hashes under the address secret `a_sk` have 512
bits each; their second halves are the bits `0,1`, `1,0,0` and `1,0,1` followed by the first
254 bits of `rho_old` (253 bits of `SHA-256(pubkeyHash)` for the MACs), so the second halves
differ pairwise within their first three bits and the three inputs are pairwise distinct. These
are the inputs whose hashes `init` stores as serial number and MACs. -/
theorem init_preimages_distinct (E : Externals) (a_sk rho_old pubkeyHash : List Byte)
    (hsk : a_sk.length = a_sk_size) (hrho : rho_old.length = rho_size)
    (hph : pubkeyHash.length = h_size) :
    ((sn_internal (convertBytesVectorToVector a_sk)
        (convertBytesVectorToVector rho_old)).length = 512 ∧
      (MAC_1_internal E (convertBytesVectorToVector a_sk) pubkeyHash).length = 512 ∧
      (MAC_2_internal E (convertBytesVectorToVector a_sk) pubkeyHash).length = 512) ∧
    ((sn_internal (convertBytesVectorToVector a_sk) (convertBytesVectorToVector rho_old)).drop
          256 = [false, true] ++ (convertBytesVectorToVector rho_old).take 254 ∧
      (MAC_1_internal E (convertBytesVectorToVector a_sk) pubkeyHash).drop 256 =
        [true, false, false] ++ (convertBytesVectorToVector (E.SHA256 pubkeyHash)).take 253 ∧
      (MAC_2_internal E (convertBytesVectorToVector a_sk) pubkeyHash).drop 256 =
        [true, false, true] ++ (convertBytesVectorToVector (E.SHA256 pubkeyHash)).take 253) ∧
    (((sn_internal (convertBytesVectorToVector a_sk)
          (convertBytesVectorToVector rho_old)).drop 256).take 3 ≠
        ((MAC_1_internal E (convertBytesVectorToVector a_sk) pubkeyHash).drop 256).take 3 ∧
      ((sn_internal (convertBytesVectorToVector a_sk)
          (convertBytesVectorToVector rho_old)).drop 256).take 3 ≠
        ((MAC_2_internal E (convertBytesVectorToVector a_sk) pubkeyHash).drop 256).take 3 ∧
      ((MAC_1_internal E (convertBytesVectorToVector a_sk) pubkeyHash).drop 256).take 3 ≠
        ((MAC_2_internal E (convertBytesVectorToVector a_sk) pubkeyHash).drop 256).take 3) ∧
    (sn_internal (convertBytesVectorToVector a_sk) (convertBytesVectorToVector rho_old) ≠
        MAC_1_internal E (convertBytesVectorToVector a_sk) pubkeyHash ∧
      sn_internal (convertBytesVectorToVector a_sk) (convertBytesVectorToVector rho_old) ≠
        MAC_2_internal E (convertBytesVectorToVector a_sk) pubkeyHash ∧
      MAC_1_internal E (convertBytesVectorToVector a_sk) pubkeyHash ≠
        MAC_2_internal E (convertBytesVectorToVector a_sk) pubkeyHash) ∧
    ∀ (version_num : Nat) (params : ZerocashParams E) (rt : List Byte) (c_1_old c_2_old : Coin)
      (addr_1_old addr_2_old : Address) (patMerkleIdx_1 patMerkleIdx_2 : Nat)
      (patMAC_1 patMAC_2 : merkle_authentication_path) (addr_1_new addr_2_new : PublicAddress)
      (v_pub_in v_pub_out : Nat) (c_1_new c_2_new : Coin) (prng_1 : E.Rng)
      (tx : PourTransaction),
      init E version_num params rt c_1_old c_2_old addr_1_old addr_2_old patMerkleIdx_1
        patMerkleIdx_2 patMAC_1 patMAC_2 addr_1_new addr_2_new v_pub_in v_pub_out pubkeyHash
        c_1_new c_2_new prng_1 = some tx →
      addr_1_old.addr_sk = a_sk → addr_2_old.addr_sk = a_sk → c_1_old.rho = rho_old →
      tx.serialNumber_1 = convertVectorToBytesVector (E.hashVector
          (sn_internal (convertBytesVectorToVector a_sk)
            (convertBytesVectorToVector rho_old))) ∧
        tx.MAC_1 = convertVectorToBytesVector (E.hashVector
          (MAC_1_internal E (convertBytesVectorToVector a_sk) pubkeyHash)) ∧
        tx.MAC_2 = convertVectorToBytesVector (E.hashVector
          (MAC_2_internal E (convertBytesVectorToVector a_sk) pubkeyHash)) := by
  have hl : (convertBytesVectorToVector a_sk).length = 256 := by
    rw [length_convertBytesVectorToVector, hsk]
    rfl
  have hr : (convertBytesVectorToVector rho_old).length = rho_size * 8 := by
    rw [length_convertBytesVectorToVector, hrho]
    rfl
  have h0 := nonce_old_eq _ hr
  have h1 := h_S_internal1_eq E pubkeyHash hph
  have h2 := h_S_internal2_eq E pubkeyHash hph
  have h253 := length_take_253_h_S E pubkeyHash
  have hd : ∀ rest : List Bool, (convertBytesVectorToVector a_sk ++ rest).drop 256 = rest := by
    intro rest
    rw [← hl]
    exact List.drop_left _ _
  have hsn : (sn_internal (convertBytesVectorToVector a_sk)
      (convertBytesVectorToVector rho_old)).drop 256 =
        [false, true] ++ (convertBytesVectorToVector rho_old).take 254 := by
    rw [sn_internal, concatenateVectors, h0, hd]
  have hm1 : (MAC_1_internal E (convertBytesVectorToVector a_sk) pubkeyHash).drop 256 =
      [true, false, false] ++ (convertBytesVectorToVector (E.SHA256 pubkeyHash)).take 253 := by
    rw [MAC_1_internal, concatenateVectors, h1, hd]
  have hm2 : (MAC_2_internal E (convertBytesVectorToVector a_sk) pubkeyHash).drop 256 =
      [true, false, true] ++ (convertBytesVectorToVector (E.SHA256 pubkeyHash)).take 253 := by
    rw [MAC_2_internal, concatenateVectors, h2, hd]
  have ht : ∀ (rest : List Bool) (a b c : Bool), ([a, b, c] ++ rest).take 3 = [a, b, c] := by
    intro rest a b c
    rfl
  have ht2 : ∀ rest : List Bool, ∀ a b : Bool, ∃ c, ([a, b] ++ rest).take 3 = [a, b, c] ∨
      ([a, b] ++ rest).take 3 = [a, b] := by
    intro rest a b
    cases rest with
    | nil => exact ⟨false, Or.inr rfl⟩
    | cons c rest => exact ⟨c, Or.inl rfl⟩
  have hne1 : ((sn_internal (convertBytesVectorToVector a_sk)
      (convertBytesVectorToVector rho_old)).drop 256).take 3 ≠
        ((MAC_1_internal E (convertBytesVectorToVector a_sk) pubkeyHash).drop 256).take 3 := by
    rw [hsn, hm1, ht]
    obtain ⟨c, hc | hc⟩ := ht2 ((convertBytesVectorToVector rho_old).take 254) false true <;>
      rw [hc] <;> simp
  have hne2 : ((sn_internal (convertBytesVectorToVector a_sk)
      (convertBytesVectorToVector rho_old)).drop 256).take 3 ≠
        ((MAC_2_internal E (convertBytesVectorToVector a_sk) pubkeyHash).drop 256).take 3 := by
    rw [hsn, hm2, ht]
    obtain ⟨c, hc | hc⟩ := ht2 ((convertBytesVectorToVector rho_old).take 254) false true <;>
      rw [hc] <;> simp
  have hne3 : ((MAC_1_internal E (convertBytesVectorToVector a_sk) pubkeyHash).drop 256).take 3 ≠
      ((MAC_2_internal E (convertBytesVectorToVector a_sk) pubkeyHash).drop 256).take 3 := by
    rw [hm1, hm2, ht, ht]
    simp
  refine ⟨⟨length_sn_internal _ _ hl hr, ?_, ?_⟩, ⟨hsn, hm1, hm2⟩, ⟨hne1, hne2, hne3⟩,
    ⟨fun heq => hne1 (by rw [heq]), fun heq => hne2 (by rw [heq]),
      fun heq => hne3 (by rw [heq])⟩, ?_⟩
  · rw [MAC_1_internal, concatenateVectors, List.length_append, hl, h1, List.length_append, h253]
    rfl
  · rw [MAC_2_internal, concatenateVectors, List.length_append, hl, h2, List.length_append, h253]
    rfl
  · intro version_num params rt c_1_old c_2_old addr_1_old addr_2_old patMerkleIdx_1
      patMerkleIdx_2 patMAC_1 patMAC_2 addr_1_new addr_2_new v_pub_in v_pub_out c_1_new c_2_new
      prng_1 tx h hsk1 hsk2 hrho1
    obtain ⟨_, _, _, _, _, _, hsn1, _, hmac1, hmac2⟩ := init_eq_some h
    rw [hsk1, hrho1] at hsn1
    rw [hsk1] at hmac1
    rw [hsk2] at hmac2
    exact ⟨hsn1, hmac1, hmac2⟩

/-- C26 at the address secret, the `rho` and the `pubkeyHash` of the pour of the tests. -/
theorem init_preimages_distinct_witness :
    (sampleAddress 1).addr_sk.length = a_sk_size ∧ (sampleCoin 1 1).rho.length = rho_size ∧
    samplePubkeyHash.length = h_size ∧
    sn_internal (convertBytesVectorToVector (sampleAddress 1).addr_sk)
        (convertBytesVectorToVector (sampleCoin 1 1).rho) ≠
      MAC_1_internal referenceExternals (convertBytesVectorToVector (sampleAddress 1).addr_sk)
        samplePubkeyHash ∧
    ((sn_internal (convertBytesVectorToVector (sampleAddress 1).addr_sk)
        (convertBytesVectorToVector (sampleCoin 1 1).rho)).drop 256).take 3 =
      [false, true, false] ∧
    ((MAC_1_internal referenceExternals (convertBytesVectorToVector (sampleAddress 1).addr_sk)
        samplePubkeyHash).drop 256).take 3 = [true, false, false] ∧
    ((MAC_2_internal referenceExternals (convertBytesVectorToVector (sampleAddress 1).addr_sk)
        samplePubkeyHash).drop 256).take 3 = [true, false, true] :=
  ⟨by decide, by decide, by decide,
    (init_preimages_distinct referenceExternals (sampleAddress 1).addr_sk (sampleCoin 1 1).rho
      samplePubkeyHash (by decide) (by decide) (by decide)).2.2.2.1.1,
    by decide, by decide, by decide⟩

end PourTransaction

namespace PourTransaction

/-! ## What `verify` hands to the backend -/

/-- The byte vectors `init` stores have the sizes `verify` checks. -/
theorem init_lengths {E : Externals} {version_num : Nat} {params : ZerocashParams E}
    {rt : List Byte} {c_1_old c_2_old : Coin} {addr_1_old addr_2_old : Address}
    {patMerkleIdx_1 patMerkleIdx_2 : Nat} {patMAC_1 patMAC_2 : merkle_authentication_path}
    {addr_1_new addr_2_new : PublicAddress} {v_pub_in v_pub_out : Nat} {pubkeyHash : List Byte}
    {c_1_new c_2_new : Coin} {prng_1 : E.Rng} {tx : PourTransaction}
    (h : init E version_num params rt c_1_old c_2_old addr_1_old addr_2_old patMerkleIdx_1
      patMerkleIdx_2 patMAC_1 patMAC_2 addr_1_new addr_2_new v_pub_in v_pub_out pubkeyHash
      c_1_new c_2_new prng_1 = some tx) :
    tx.serialNumber_1.length = sn_size ∧ tx.serialNumber_2.length = sn_size ∧
    tx.publicInValue.length = v_size ∧ tx.publicOutValue.length = v_size ∧
    tx.MAC_1.length = h_size ∧ tx.MAC_2.length = h_size := by
  obtain ⟨_, _, hvin, hvout, _, _, hsn1, hsn2, hmac1, hmac2⟩ := init_eq_some h
  have hbytes : ∀ input, (convertVectorToBytesVector (E.hashVector input)).length = 32 :=
    fun input => length_convertVectorToBytesVector 32 _ (E.hashVector_size input)
  refine ⟨?_, ?_, ?_, ?_, ?_, ?_⟩
  · rw [hsn1]
    exact hbytes _
  · rw [hsn2]
    exact hbytes _
  · rw [hvin]
    exact length_convertIntToBytesVector _ _
  · rw [hvout]
    exact length_convertIntToBytesVector _ _
  · rw [hmac1]
    exact hbytes _
  · rw [hmac2]
    exact hbytes _

/-- C27. For a transaction `init` built with a version of at least 1, `verify` called with the
same 32-byte `rt` and `pubkeyHash` is the backend verifier's answer on the root bits, the
`v_pub_in` bits, the `v_pub_out` bits and the `h_S` bits that `init` passed to the prover, on the
256-bit hash outputs `init` computed for `sn_1`, `sn_2`, `mac_1` and `mac_2`, on the bits of the
two commitments and on the proof read from the stored string. The `h_S` bits are all 256 bits
of `SHA-256(pubkeyHash)`, and the bits of each stored serial number and MAC are the hash output
it was packed from. -/
theorem verify_init_arguments (E : Externals) (version_num : Nat) (params : ZerocashParams E)
    (rt : List Byte) (c_1_old c_2_old : Coin) (addr_1_old addr_2_old : Address)
    (patMerkleIdx_1 patMerkleIdx_2 : Nat) (patMAC_1 patMAC_2 : merkle_authentication_path)
    (addr_1_new addr_2_new : PublicAddress) (v_pub_in v_pub_out : Nat) (pubkeyHash : List Byte)
    (c_1_new c_2_new : Coin) (prng_1 : E.Rng) (tx : PourTransaction)
    (hv : 1 ≤ version_num) (hrt : rt.length = root_size) (hph : pubkeyHash.length = h_size)
    (h : init E version_num params rt c_1_old c_2_old addr_1_old addr_2_old patMerkleIdx_1
      patMerkleIdx_2 patMAC_1 patMAC_2 addr_1_new addr_2_new v_pub_in v_pub_out pubkeyHash
      c_1_new c_2_new prng_1 = some tx) :
    verify E tx params pubkeyHash rt =
      E.zerocash_pour_ppzksnark_verifier params.verificationKey
        (proverArgs E rt c_1_old c_2_old addr_1_old addr_2_old patMerkleIdx_1 patMerkleIdx_2
          patMAC_1 patMAC_2 addr_1_new addr_2_new v_pub_in v_pub_out pubkeyHash c_1_new
          c_2_new).root_bv
        (sn_old_bv E (convertBytesVectorToVector addr_1_old.addr_sk)
            (convertBytesVectorToVector c_1_old.rho),
          sn_old_bv E (convertBytesVectorToVector addr_2_old.addr_sk)
            (convertBytesVectorToVector c_2_old.rho))
        (convertBytesVectorToVector c_1_new.cm.commitmentValue,
          convertBytesVectorToVector c_2_new.cm.commitmentValue)
        (proverArgs E rt c_1_old c_2_old addr_1_old addr_2_old patMerkleIdx_1 patMerkleIdx_2
          patMAC_1 patMAC_2 addr_1_new addr_2_new v_pub_in v_pub_out pubkeyHash c_1_new
          c_2_new).val_in_pub_bv
        (proverArgs E rt c_1_old c_2_old addr_1_old addr_2_old patMerkleIdx_1 patMerkleIdx_2
          patMAC_1 patMAC_2 addr_1_new addr_2_new v_pub_in v_pub_out pubkeyHash c_1_new
          c_2_new).val_out_pub_bv
        (proverArgs E rt c_1_old c_2_old addr_1_old addr_2_old patMerkleIdx_1 patMerkleIdx_2
          patMAC_1 patMAC_2 addr_1_new addr_2_new v_pub_in v_pub_out pubkeyHash c_1_new
          c_2_new).h_S_bv
        (MAC_1_bv E (convertBytesVectorToVector addr_1_old.addr_sk) pubkeyHash,
          MAC_2_bv E (convertBytesVectorToVector addr_2_old.addr_sk) pubkeyHash)
        (E.readProof tx.zkSNARK).1 ∧
    ((proverArgs E rt c_1_old c_2_old addr_1_old addr_2_old patMerkleIdx_1 patMerkleIdx_2
        patMAC_1 patMAC_2 addr_1_new addr_2_new v_pub_in v_pub_out pubkeyHash c_1_new
        c_2_new).h_S_bv = convertBytesVectorToVector (E.SHA256 pubkeyHash) ∧
      (convertBytesVectorToVector (E.SHA256 pubkeyHash)).length = 256) ∧
    (convertBytesVectorToVector tx.serialNumber_1 =
        sn_old_bv E (convertBytesVectorToVector addr_1_old.addr_sk)
          (convertBytesVectorToVector c_1_old.rho) ∧
      convertBytesVectorToVector tx.serialNumber_2 =
        sn_old_bv E (convertBytesVectorToVector addr_2_old.addr_sk)
          (convertBytesVectorToVector c_2_old.rho) ∧
      convertBytesVectorToVector tx.MAC_1 =
        MAC_1_bv E (convertBytesVectorToVector addr_1_old.addr_sk) pubkeyHash ∧
      convertBytesVectorToVector tx.MAC_2 =
        MAC_2_bv E (convertBytesVectorToVector addr_2_old.addr_sk) pubkeyHash) ∧
    ((sn_old_bv E (convertBytesVectorToVector addr_1_old.addr_sk)
        (convertBytesVectorToVector c_1_old.rho)).length = 256 ∧
      (sn_old_bv E (convertBytesVectorToVector addr_2_old.addr_sk)
        (convertBytesVectorToVector c_2_old.rho)).length = 256 ∧
      (MAC_1_bv E (convertBytesVectorToVector addr_1_old.addr_sk) pubkeyHash).length = 256 ∧
      (MAC_2_bv E (convertBytesVectorToVector addr_2_old.addr_sk) pubkeyHash).length = 256) := by
  obtain ⟨_, hver, hvin, hvout, hcm1, hcm2, hsn1, hsn2, hmac1, hmac2⟩ := init_eq_some h
  obtain ⟨hl1, hl2, hl3, hl4, hl5, hl6⟩ := init_lengths h
  have hbits : ∀ input, convertBytesVectorToVector
      (convertVectorToBytesVector (E.hashVector input)) = E.hashVector input :=
    fun input => convertBytesVectorToVector_convertVectorToBytesVector 32 _
      (E.hashVector_size input)
  have hs1 : convertBytesVectorToVector tx.serialNumber_1 =
      sn_old_bv E (convertBytesVectorToVector addr_1_old.addr_sk)
        (convertBytesVectorToVector c_1_old.rho) := by
    rw [hsn1, sn_old_bv, hbits]
  have hs2 : convertBytesVectorToVector tx.serialNumber_2 =
      sn_old_bv E (convertBytesVectorToVector addr_2_old.addr_sk)
        (convertBytesVectorToVector c_2_old.rho) := by
    rw [hsn2, sn_old_bv, hbits]
  have hm1 : convertBytesVectorToVector tx.MAC_1 =
      MAC_1_bv E (convertBytesVectorToVector addr_1_old.addr_sk) pubkeyHash := by
    rw [hmac1, MAC_1_bv, hbits]
  have hm2 : convertBytesVectorToVector tx.MAC_2 =
      MAC_2_bv E (convertBytesVectorToVector addr_2_old.addr_sk) pubkeyHash := by
    rw [hmac2, MAC_2_bv, hbits]
  refine ⟨?_, ⟨h_S_bv_eq E pubkeyHash hph, ?_⟩, ⟨hs1, hs2, hm1, hm2⟩,
    ⟨E.hashVector_size _, E.hashVector_size _, E.hashVector_size _, E.hashVector_size _⟩⟩
  · rw [verify_of_lengths E tx params pubkeyHash rt (by omega) hrt hph hl1 hl2 hl3 hl4 hl5 hl6,
      hs1, hs2, hm1, hm2, hvin, hvout, hcm1, hcm2]
    rfl
  · rw [length_convertBytesVectorToVector, E.SHA256_size]
    rfl

/-- C27 at the pour of the tests: the bits `verify` derives from the stored transaction are those
`init` computed. -/
theorem verify_init_arguments_witness :
    1 ≤ 1 ∧ (sampleRoot 7).length = root_size ∧ samplePubkeyHash.length = h_size ∧
    samplePour 1 (sampleRoot 7) 1 3 2 2 0 0 = some balancedTx ∧
    convertBytesVectorToVector balancedTx.serialNumber_1 =
      sn_old_bv referenceExternals (convertBytesVectorToVector (sampleAddress 1).addr_sk)
        (convertBytesVectorToVector (sampleCoin 1 1).rho) ∧
    convertBytesVectorToVector balancedTx.MAC_2 =
      MAC_2_bv referenceExternals (convertBytesVectorToVector (sampleAddress 2).addr_sk)
        samplePubkeyHash :=
  have h : samplePour 1 (sampleRoot 7) 1 3 2 2 0 0 = some balancedTx := by decide
  have hC := (verify_init_arguments referenceExternals 1 referenceParams (sampleRoot 7)
    (sampleCoin 1 1) (sampleCoin 2 3) (sampleAddress 1) (sampleAddress 2) 1 3 samplePath
    samplePath (samplePublicAddress 3) (samplePublicAddress 4) 0 0 samplePubkeyHash
    (sampleCoin 3 2) (sampleCoin 4 2) () balancedTx (by decide) (by decide) (by decide)
    h).2.2.1
  ⟨by decide, by decide, by decide, h, hC.1, hC.2.2.2⟩

/-! ## The serial number depends on the coin alone -/

/-- C28. The serial number `init` publishes for an old coin is determined by the owner's
address secret and the coin's `rho`: in two runs of `init` that differ in any way (version,
parameters, `rt`, `pubkeyHash`, values, paths, outputs, the other input, the random pool), an
old coin with the same `a_sk` and `rho` gets the same serial number, whether it is the first or
the second input of either run; and when both inputs of one run have the same `a_sk` and
`rho`, `sn_1 = sn_2`. -/
theorem init_serialNumber_of_coin (E : Externals)
    (version_a : Nat) (params_a : ZerocashParams E) (rt_a : List Byte)
    (c_1_old_a c_2_old_a : Coin) (addr_1_old_a addr_2_old_a : Address)
    (idx_1_a idx_2_a : Nat) (path_1_a path_2_a : merkle_authentication_path)
    (addr_1_new_a addr_2_new_a : PublicAddress) (v_pub_in_a v_pub_out_a : Nat)
    (pubkeyHash_a : List Byte) (c_1_new_a c_2_new_a : Coin) (prng_a : E.Rng)
    (tx_a : PourTransaction)
    (version_b : Nat) (params_b : ZerocashParams E) (rt_b : List Byte)
    (c_1_old_b c_2_old_b : Coin) (addr_1_old_b addr_2_old_b : Address)
    (idx_1_b idx_2_b : Nat) (path_1_b path_2_b : merkle_authentication_path)
    (addr_1_new_b addr_2_new_b : PublicAddress) (v_pub_in_b v_pub_out_b : Nat)
    (pubkeyHash_b : List Byte) (c_1_new_b c_2_new_b : Coin) (prng_b : E.Rng)
    (tx_b : PourTransaction)
    (h_a : init E version_a params_a rt_a c_1_old_a c_2_old_a addr_1_old_a addr_2_old_a idx_1_a
      idx_2_a path_1_a path_2_a addr_1_new_a addr_2_new_a v_pub_in_a v_pub_out_a pubkeyHash_a
      c_1_new_a c_2_new_a prng_a = some tx_a)
    (h_b : init E version_b params_b rt_b c_1_old_b c_2_old_b addr_1_old_b addr_2_old_b idx_1_b
      idx_2_b path_1_b path_2_b addr_1_new_b addr_2_new_b v_pub_in_b v_pub_out_b pubkeyHash_b
      c_1_new_b c_2_new_b prng_b = some tx_b) :
    (addr_1_old_a.addr_sk = addr_1_old_b.addr_sk → c_1_old_a.rho = c_1_old_b.rho →
      tx_a.serialNumber_1 = tx_b.serialNumber_1) ∧
    (addr_1_old_a.addr_sk = addr_2_old_b.addr_sk → c_1_old_a.rho = c_2_old_b.rho →
      tx_a.serialNumber_1 = tx_b.serialNumber_2) ∧
    (addr_2_old_a.addr_sk = addr_1_old_b.addr_sk → c_2_old_a.rho = c_1_old_b.rho →
      tx_a.serialNumber_2 = tx_b.serialNumber_1) ∧
    (addr_2_old_a.addr_sk = addr_2_old_b.addr_sk → c_2_old_a.rho = c_2_old_b.rho →
      tx_a.serialNumber_2 = tx_b.serialNumber_2) ∧
    (addr_1_old_a.addr_sk = addr_2_old_a.addr_sk → c_1_old_a.rho = c_2_old_a.rho →
      tx_a.serialNumber_1 = tx_a.serialNumber_2) := by
  obtain ⟨_, _, _, _, _, _, ha1, ha2, _, _⟩ := init_eq_some h_a
  obtain ⟨_, _, _, _, _, _, hb1, hb2, _, _⟩ := init_eq_some h_b
  refine ⟨?_, ?_, ?_, ?_, ?_⟩ <;> intro hsk hrho
  · rw [ha1, hb1, hsk, hrho]
  · rw [ha1, hb2, hsk, hrho]
  · rw [ha2, hb1, hsk, hrho]
  · rw [ha2, hb2, hsk, hrho]
  · rw [ha1, ha2, hsk, hrho]

/-- C28 at two pours that have nothing in common but one old coin, the first input of the one
and the second input of the other. -/
theorem init_serialNumber_of_coin_witness :
    samplePour 1 (sampleRoot 7) 1 3 2 2 0 0 = some balancedTx ∧
    swappedPour = some swappedTx ∧
    balancedTx.version ≠ swappedTx.version ∧ balancedTx.MAC_1 ≠ swappedTx.MAC_2 ∧
    balancedTx.serialNumber_1 = swappedTx.serialNumber_2 ∧
    balancedTx.serialNumber_2 ≠ swappedTx.serialNumber_1 :=
  have h_a : samplePour 1 (sampleRoot 7) 1 3 2 2 0 0 = some balancedTx := by decide
  have h_b : swappedPour = some swappedTx := by decide
  ⟨h_a, h_b, by decide, by decide,
    (init_serialNumber_of_coin referenceExternals
      1 referenceParams (sampleRoot 7) (sampleCoin 1 1) (sampleCoin 2 3) (sampleAddress 1)
      (sampleAddress 2) 1 3 samplePath samplePath (samplePublicAddress 3)
      (samplePublicAddress 4) 0 0 samplePubkeyHash (sampleCoin 3 2) (sampleCoin 4 2) ()
      balancedTx
      2 referenceParams (sampleRoot 9) (sampleCoin 5 4) (sampleCoin 1 1) (sampleAddress 5)
      (sampleAddress 1) 0 1 samplePath samplePath (samplePublicAddress 6)
      (samplePublicAddress 7) 0 0 (List.replicate sig_pk_size 98) (sampleCoin 6 3)
      (sampleCoin 7 2) () swappedTx h_a h_b).2.1 rfl rfl,
    by decide⟩

/-! ## `verify` and the ciphertexts -/

/-- C29. Two pour transactions that agree on the version, both serial numbers, both
commitments, both public values, both MACs and the proof get the same answer from `verify`,
for every parameter object, `pubkeyHash` and `merkleRoot`: the ciphertexts are not read. -/
theorem verify_ciphertexts (E : Externals) (tx_a tx_b : PourTransaction)
    (params : ZerocashParams E) (pubkeyHash merkleRoot : List Byte)
    (hversion : tx_a.version = tx_b.version)
    (hsn1 : tx_a.serialNumber_1 = tx_b.serialNumber_1)
    (hsn2 : tx_a.serialNumber_2 = tx_b.serialNumber_2)
    (hcm1 : tx_a.cm_1 = tx_b.cm_1) (hcm2 : tx_a.cm_2 = tx_b.cm_2)
    (hin : tx_a.publicInValue = tx_b.publicInValue)
    (hout : tx_a.publicOutValue = tx_b.publicOutValue)
    (hmac1 : tx_a.MAC_1 = tx_b.MAC_1) (hmac2 : tx_a.MAC_2 = tx_b.MAC_2)
    (hproof : tx_a.zkSNARK = tx_b.zkSNARK) :
    verify E tx_a params pubkeyHash merkleRoot = verify E tx_b params pubkeyHash merkleRoot := by
  simp only [verify, hversion, hsn1, hsn2, hcm1, hcm2, hin, hout, hmac1, hmac2, hproof]

/-- C29 at the pour of the tests and the same transaction with other ciphertexts. -/
theorem verify_ciphertexts_witness :
    balancedTx.ciphertext_1 ≠ reencryptedTx.ciphertext_1 ∧
    balancedTx.ciphertext_2 ≠ reencryptedTx.ciphertext_2 ∧
    verify referenceExternals balancedTx referenceParams samplePubkeyHash (sampleRoot 7) =
      verify referenceExternals reencryptedTx referenceParams samplePubkeyHash (sampleRoot 7) ∧
    verify referenceExternals reencryptedTx referenceParams samplePubkeyHash (sampleRoot 7) =
      true :=
  ⟨by decide, by decide,
    verify_ciphertexts referenceExternals balancedTx reencryptedTx referenceParams
      samplePubkeyHash (sampleRoot 7) rfl rfl rfl rfl rfl rfl rfl rfl rfl rfl,
    by decide⟩

/-! ## The size checks of `verify` on constructed transactions -/

/-- C30. A transaction returned by either non-default constructor has serial numbers and MACs
of exactly 32 bytes and public values of exactly 8 bytes, whatever the arguments were. So for
a 32-byte root and a 32-byte `pubkeyHash` no size check of `verify` fails: `verify` is `true`
for version 0 and otherwise the answer of the backend verifier. -/
theorem constructor_lengths (E : Externals) (version_num : Nat)
    (params : ZerocashParams E) (rt : List Byte) (c_1_old c_2_old : Coin)
    (addr_1_old addr_2_old : Address) (patMerkleIdx_1 patMerkleIdx_2 : Nat)
    (patMAC_1 patMAC_2 : merkle_authentication_path) (addr_1_new addr_2_new : PublicAddress)
    (v_pub_in v_pub_out : Nat) (pubkeyHash : List Byte) (c_1_new c_2_new : Coin)
    (NDEBUG : Bool) (inputs : List PourInput) (outputs : List PourOutput)
    (dummy_input : Nat → PourInput) (dummy_output : Nat → PourOutput) (prng_1 : E.Rng)
    (tx : PourTransaction)
    (verifyParams : ZerocashParams E) (verifyPubkeyHash merkleRoot : List Byte)
    (hroot : merkleRoot.length = root_size) (hph : verifyPubkeyHash.length = h_size)
    (h : ofCoins E version_num params rt c_1_old c_2_old addr_1_old addr_2_old patMerkleIdx_1
        patMerkleIdx_2 patMAC_1 patMAC_2 addr_1_new addr_2_new v_pub_in v_pub_out pubkeyHash
        c_1_new c_2_new prng_1 = some tx ∨
      ofLists E NDEBUG params pubkeyHash rt inputs outputs v_pub_in v_pub_out dummy_input
        dummy_output prng_1 = Except.ok tx) :
    (tx.serialNumber_1.length = 32 ∧ tx.serialNumber_2.length = 32 ∧
      tx.MAC_1.length = 32 ∧ tx.MAC_2.length = 32 ∧
      tx.publicInValue.length = 8 ∧ tx.publicOutValue.length = 8) ∧
    (tx.serialNumber_1.length = sn_size ∧ tx.serialNumber_2.length = sn_size ∧
      tx.publicInValue.length = v_size ∧ tx.publicOutValue.length = v_size ∧
      tx.MAC_1.length = h_size ∧ tx.MAC_2.length = h_size) ∧
    (tx.version = 0 → verify E tx verifyParams verifyPubkeyHash merkleRoot = true) ∧
    (tx.version ≠ 0 → verify E tx verifyParams verifyPubkeyHash merkleRoot =
      E.zerocash_pour_ppzksnark_verifier verifyParams.verificationKey
        (convertBytesVectorToVector merkleRoot)
        (convertBytesVectorToVector tx.serialNumber_1,
          convertBytesVectorToVector tx.serialNumber_2)
        (convertBytesVectorToVector tx.cm_1.commitmentValue,
          convertBytesVectorToVector tx.cm_2.commitmentValue)
        (convertBytesVectorToVector tx.publicInValue)
        (convertBytesVectorToVector tx.publicOutValue)
        (h_S_bv E verifyPubkeyHash)
        (convertBytesVectorToVector tx.MAC_1, convertBytesVectorToVector tx.MAC_2)
        (E.readProof tx.zkSNARK).1) := by
  have hlen : tx.serialNumber_1.length = sn_size ∧ tx.serialNumber_2.length = sn_size ∧
      tx.publicInValue.length = v_size ∧ tx.publicOutValue.length = v_size ∧
      tx.MAC_1.length = h_size ∧ tx.MAC_2.length = h_size := by
    rcases h with h | h
    · exact init_lengths h
    · obtain ⟨_, _, _, _, hinit⟩ := ofLists_ok h
      exact init_lengths hinit
  obtain ⟨hl1, hl2, hl3, hl4, hl5, hl6⟩ := hlen
  refine ⟨⟨hl1, hl2, hl5, hl6, hl3, hl4⟩, ⟨hl1, hl2, hl3, hl4, hl5, hl6⟩, ?_, ?_⟩
  · intro hv
    simp only [verify, hv, if_true]
  · intro hv
    exact verify_of_lengths E tx verifyParams verifyPubkeyHash merkleRoot hv hroot hph hl1 hl2
      hl3 hl4 hl5 hl6

/-- C30 at the pour of the tests with one real input and one real output, built by the
list-taking constructor, and verified against another root and another `pubkeyHash`. -/
theorem constructor_lengths_witness :
    (sampleRoot 9).length = root_size ∧ (List.replicate sig_pk_size (98 : Byte)).length = h_size ∧
    paddedPour.toOption = some paddedTx ∧
    paddedTx.MAC_2.length = 32 ∧ paddedTx.publicOutValue.length = 8 ∧
    verify referenceExternals paddedTx referenceParams (List.replicate sig_pk_size 98)
      (sampleRoot 9) = true :=
  have hsome : paddedPour.toOption = some paddedTx := by decide
  have hok : paddedPour = Except.ok paddedTx := by
    unfold Except.toOption at hsome
    split at hsome
    · rename_i tx htx
      rw [htx, Option.some.inj hsome]
    · exact absurd hsome (by simp)
  have hC := constructor_lengths referenceExternals 1 referenceParams (sampleRoot 7)
    (sampleCoin 1 1) (sampleCoin 2 3) (sampleAddress 1) (sampleAddress 2) 1 3 samplePath
    samplePath (samplePublicAddress 3) (samplePublicAddress 4) 0 0 samplePubkeyHash
    (sampleCoin 3 2) (sampleCoin 4 2) false [sampleInput 1 1 0] [sampleOutput 3 1]
    (fun k => PourInput.dummy referenceExternals referenceParams.treeDepth (sampleSeed k))
    (fun k => PourOutput.dummy referenceExternals (sampleSeed (2 + k))) () paddedTx
    referenceParams (List.replicate sig_pk_size 98) (sampleRoot 9) (by decide) (by decide)
    (Or.inr hok)
  ⟨by decide, by decide, hsome, hC.1.2.2.2.1, hC.1.2.2.2.2.2, by decide⟩

end PourTransaction

/-! ## Bytes to bits and back -/

theorem bitsToByte_byteToBits : ∀ c : Byte, bitsToByte (byteToBits c) = c := by
  decide

theorem convertVectorToBytesVector_convertBytesVectorToVector (bytes : List Byte) :
    convertVectorToBytesVector (convertBytesVectorToVector bytes) = bytes := by
  induction bytes with
  | nil => rfl
  | cons c cs ih =>
    have hc : ∃ b0 b1 b2 b3 b4 b5 b6 b7, byteToBits c = [b0, b1, b2, b3, b4, b5, b6, b7] :=
      ⟨_, _, _, _, _, _, _, _, rfl⟩
    obtain ⟨b0, b1, b2, b3, b4, b5, b6, b7, hbits⟩ := hc
    have hbyte := bitsToByte_byteToBits c
    rw [hbits] at hbyte
    rw [convertBytesVectorToVector, hbits]
    simp only [List.cons_append, List.nil_append, convertVectorToBytesVector, hbyte]
    exact congrArg _ ih

/-- C25. For every byte sequence `b`, the bytes of the bits of `b` are `b`. Through the
raw-buffer functions: with the bit vector sized to eight bits per byte of `b`, as `init` sizes
it, `convertBytesToVector` gives the MSB-first bits of `b`, and `convertVectorToBytes` writes
them back as exactly `|b|` bytes equal to `b` at the front of the output buffer and leaves the
bytes after them untouched. Likewise, on a bit vector whose length is a multiple of 8, bits to
bytes to bits is the identity. -/
theorem convertVectorToBytes_convertBytesToVector (b : List Byte) :
    convertVectorToBytesVector (convertBytesVectorToVector b) = b ∧
    (∀ (v : List Bool) (output : List Byte), v.length = 8 * b.length →
      b.length ≤ output.length →
      convertBytesToVector b v = convertBytesVectorToVector b ∧
      (convertBytesToVector b v).length = v.length ∧
      convertVectorToBytes (convertBytesToVector b v) output = b ++ output.drop b.length ∧
      (convertVectorToBytes (convertBytesToVector b v) output).length = output.length ∧
      (convertVectorToBytes (convertBytesToVector b v) output).take b.length = b ∧
      (convertVectorToBytes (convertBytesToVector b v) output).drop b.length =
        output.drop b.length) ∧
    (∀ (bits : List Bool) (n : Nat), bits.length = 8 * n →
      convertBytesVectorToVector (convertVectorToBytesVector bits) = bits ∧
      ∀ (buffer : List Byte) (v : List Bool), n ≤ buffer.length → v.length = 8 * n →
        convertBytesToVector (convertVectorToBytes bits buffer) v = bits) := by
  refine ⟨convertVectorToBytesVector_convertBytesVectorToVector b, ?_, ?_⟩
  · intro v output hv hout
    have hbits : convertBytesToVector b v = convertBytesVectorToVector b := by
      rw [convertBytesToVector, hv, Nat.mul_div_cancel_left _ (by decide : 0 < 8),
        List.take_of_length_le (Nat.le_refl _)]
    have hback : convertVectorToBytes (convertBytesToVector b v) output =
        b ++ output.drop b.length := by
      rw [hbits, convertVectorToBytes, convertVectorToBytesVector_convertBytesVectorToVector,
        length_convertBytesVectorToVector, Nat.mul_div_cancel_left _ (by decide : 0 < 8)]
    refine ⟨hbits, ?_, hback, ?_, ?_, ?_⟩
    · rw [hbits, length_convertBytesVectorToVector, hv]
    · rw [hback, List.length_append, List.length_drop]
      omega
    · rw [hback, List.take_left]
    · rw [hback, List.drop_left]
  · intro bits n hbits
    have hround := convertBytesVectorToVector_convertVectorToBytesVector n bits hbits
    refine ⟨hround, fun buffer v hbuf hv => ?_⟩
    have hlen := length_convertVectorToBytesVector n bits hbits
    rw [convertBytesToVector, convertVectorToBytes, hv,
      Nat.mul_div_cancel_left _ (by decide : 0 < 8), ← hlen, List.take_left, hround]

/-- C25 at the input of the test, with a 14-byte output buffer whose last byte is the canary
`0x03`: the 13 bytes come back and the canary is untouched. -/
theorem convertVectorToBytes_convertBytesToVector_witness :
    (List.replicate 104 false).length = 8 * helloWorld.length ∧
    helloWorld.length ≤ (List.replicate 13 (170 : Byte) ++ [3]).length ∧
    convertVectorToBytes (convertBytesToVector helloWorld (List.replicate 104 false))
        (List.replicate 13 170 ++ [3]) = helloWorld ++ [3] ∧
    (convertBytesToVector helloWorld (List.replicate 104 false)).take 8 =
      [false, true, false, false, true, false, false, false] :=
  ⟨by decide, by decide,
    ((convertVectorToBytes_convertBytesToVector helloWorld).2.1 (List.replicate 104 false)
      (List.replicate 13 170 ++ [3]) (by decide) (by decide)).2.2.1,
    by decide⟩

/-! ## The compact representation -/

theorem binaryExpansion_succ (height n : Nat) :
    binaryExpansion (height + 1) n =
      decide (n / 2 ^ height % 2 = 1) :: binaryExpansion height n := by
  simp only [binaryExpansion, List.range_succ_eq_map, List.map_cons, List.map_map]
  refine congrArg₂ _ rfl (List.map_congr_left fun k _ => ?_)
  simp only [Function.comp_apply]
  have : height + 1 - 1 - (k + 1) = height - 1 - k := by omega
  rw [this]

theorem binaryExpansion_zero (height : Nat) :
    binaryExpansion height 0 = List.replicate height false := by
  induction height with
  | zero => rfl
  | succ height ih =>
    rw [binaryExpansion_succ, ih, List.replicate_succ]
    simp

theorem binaryExpansion_add_pow (height n : Nat) :
    binaryExpansion height (n + 2 ^ height) = binaryExpansion height n := by
  simp only [binaryExpansion]
  refine List.map_congr_left fun k hk => ?_
  have hk2 : k < height := List.mem_range.mp hk
  have hsplit : 2 ^ height = 2 ^ (height - 1 - k) * (2 * 2 ^ k) := by
    rw [← pow_succ', ← pow_add]
    congr 1
    omega
  rw [hsplit, Nat.add_mul_div_left _ _ (Nat.pow_pos (by decide)), Nat.add_mul_mod_self_left]

theorem length_binaryExpansion (width n : Nat) : (binaryExpansion width n).length = width := by
  simp [binaryExpansion]

theorem countOnes_replicate_false (n : Nat) : countOnes (List.replicate n false) = 0 := by
  simp [countOnes, List.count_eq_zero]

namespace IncrementalMerkleNode

theorem length_getCompactRepresentation (E : Externals) :
    ∀ (height : Nat) (n : IncrementalMerkleNode),
      (getCompactRepresentation E height n).1.length = height ∧
      (getCompactRepresentation E height n).2.length =
        countOnes (getCompactRepresentation E height n).1 := by
  intro height
  induction height with
  | zero =>
    intro n
    cases n <;> exact ⟨rfl, rfl⟩
  | succ height ih =>
    intro n
    cases n with
    | empty =>
      exact ⟨List.length_replicate _ _, (countOnes_replicate_false _).symm⟩
    | leaf value =>
      exact ⟨List.length_replicate _ _, (countOnes_replicate_false _).symm⟩
    | pruned value =>
      exact ⟨List.length_replicate _ _, (countOnes_replicate_false _).symm⟩
    | node left right =>
      simp only [getCompactRepresentation]
      split
      · simp only [List.length_cons, (ih right).1, (ih right).2, countOnes, List.count_cons_self,
          and_self]
      · refine ⟨by simp only [List.length_cons, (ih left).1], ?_⟩
        rw [(ih left).2]
        simp [countOnes]

theorem getCompactRepresentation_of_represents (E : Externals) :
    ∀ (height : Nat) (n : IncrementalMerkleNode) (leaves : List (List Bool)),
      Represents E height n leaves → leaves.length < 2 ^ height →
      (getCompactRepresentation E height n).1 = binaryExpansion height leaves.length := by
  intro height
  induction height with
  | zero =>
    intro n leaves _ _
    cases n <;> rfl
  | succ height ih =>
    intro n leaves hrep hlen
    cases n with
    | empty =>
      have : leaves = [] := hrep
      subst this
      rw [List.length_nil, binaryExpansion_zero]
      rfl
    | leaf value => exact absurd hrep (by simp [Represents])
    | pruned value =>
      have := hrep.1
      omega
    | node left right =>
      obtain ⟨hl, hr⟩ := hrep
      have hfull := isFull_of_represents E left height _ hl
      rw [List.length_take] at hfull
      have hpow : 2 ^ (height + 1) = 2 * 2 ^ height := pow_succ' 2 height
      have hpos : 0 < 2 ^ height := Nat.pow_pos (by decide)
      simp only [getCompactRepresentation]
      by_cases hge : 2 ^ height ≤ leaves.length
      · have hf : left.isFull = true := hfull.2 (by omega)
        rw [if_pos hf, binaryExpansion_succ]
        have hbit : leaves.length / 2 ^ height % 2 = 1 := by
          have : leaves.length / 2 ^ height = 1 := by
            apply Nat.div_eq_of_lt_le
            · omega
            · omega
          rw [this]
        have hrest := ih right _ hr (by rw [List.length_drop]; omega)
        rw [List.length_drop] at hrest
        have hn : leaves.length = leaves.length - 2 ^ height + 2 ^ height := by omega
        have htail : binaryExpansion height leaves.length =
            binaryExpansion height (leaves.length - 2 ^ height) := by
          conv_lhs => rw [hn, binaryExpansion_add_pow]
        rw [hrest, htail]
        simp only [hbit, decide_True]
      · have hf : ¬ left.isFull = true := fun h => hge (by have := hfull.1 h; omega)
        rw [if_neg hf, binaryExpansion_succ]
        have hbit : leaves.length / 2 ^ height = 0 := Nat.div_eq_of_lt (by omega)
        have hrest := ih left _ hl (by rw [List.length_take]; omega)
        rw [List.length_take, Nat.min_eq_right (by omega)] at hrest
        rw [hrest, hbit]
        rfl

end IncrementalMerkleNode

/-! ## The path bits of the tests -/

theorem binaryExpansion_add (v w n : Nat) :
    binaryExpansion (v + w) n = binaryExpansion v (n / 2 ^ w) ++ binaryExpansion w n := by
  induction v with
  | zero =>
    rw [Nat.zero_add]
    rfl
  | succ v ih =>
    have hvw : v + 1 + w = v + w + 1 := by omega
    rw [hvw, binaryExpansion_succ, binaryExpansion_succ, ih, Nat.div_div_eq_div_mul, ← pow_add,
      Nat.add_comm w v]
    rfl

theorem binaryExpansion_add_mul_pow (width n q : Nat) :
    binaryExpansion width (n + 2 ^ width * q) = binaryExpansion width n := by
  induction q with
  | zero => rfl
  | succ q ih =>
    rw [Nat.mul_succ, ← Nat.add_assoc, binaryExpansion_add_pow, ih]

theorem binaryExpansion_mod (width n : Nat) :
    binaryExpansion width (n % 2 ^ width) = binaryExpansion width n := by
  conv_rhs => rw [← Nat.mod_add_div n (2 ^ width)]
  exact (binaryExpansion_add_mul_pow width _ _).symm

theorem byteToBits_eq_binaryExpansion (c : Byte) : byteToBits c = binaryExpansion 8 c.val :=
  rfl

theorem convertIntToBytesVector_succ (val_int size : Nat) :
    convertIntToBytesVector val_int (size + 1) =
      ⟨val_int / 2 ^ (8 * size) % 256, Nat.mod_lt _ (by decide)⟩ ::
        convertIntToBytesVector val_int size := by
  simp only [convertIntToBytesVector, List.range_succ_eq_map, List.map_cons, List.map_map]
  refine congrArg₂ _ rfl (List.map_congr_left fun k _ => ?_)
  simp only [Function.comp_apply]
  have : size + 1 - 1 - (k + 1) = size - 1 - k := by omega
  simp only [this]

/-- The bits of the big-endian bytes of an integer are its binary expansion. -/
theorem convertBytesVectorToVector_convertIntToBytesVector (val_int size : Nat) :
    convertBytesVectorToVector (convertIntToBytesVector val_int size) =
      binaryExpansion (8 * size) val_int := by
  induction size with
  | zero => rfl
  | succ size ih =>
    have h8 : 8 * (size + 1) = 8 + 8 * size := by omega
    rw [convertIntToBytesVector_succ, convertBytesVectorToVector, ih,
      byteToBits_eq_binaryExpansion, h8, binaryExpansion_add]
    exact congrArg (· ++ _) (binaryExpansion_mod 8 _)

theorem length_nodeHash (E : Externals) (left right : List Bool) :
    (nodeHash E left right).length = 256 := by
  unfold nodeHash
  split
  · rfl
  · exact E.hashVector_size _

theorem length_merkleRoot (E : Externals) (height : Nat) (leaves : List (List Bool))
    (hleaves : ∀ value ∈ leaves, value.length = 256) :
    (merkleRoot E height leaves).length = 256 := by
  cases height with
  | zero =>
    cases leaves with
    | nil => rfl
    | cons value rest => exact hleaves value (List.mem_cons_self _ _)
  | succ height => exact length_nodeHash E _ _

namespace IncrementalMerkleNode

theorem hashVec_of_represents (E : Externals) :
    ∀ (height : Nat) (n : IncrementalMerkleNode) (leaves : List (List Bool)),
      Represents E height n leaves → (∀ value ∈ leaves, value.length = 256) →
      ∀ hash ∈ (getCompactRepresentation E height n).2, hash.length = 32 := by
  intro height
  induction height with
  | zero =>
    intro n leaves _ _ hash hmem
    cases n <;> exact absurd hmem (List.not_mem_nil _)
  | succ height ih =>
    intro n leaves hrep hleaves hash hmem
    cases n with
    | empty => exact absurd hmem (List.not_mem_nil _)
    | leaf value => exact absurd hmem (List.not_mem_nil _)
    | pruned value => exact absurd hmem (List.not_mem_nil _)
    | node left right =>
      obtain ⟨hl, hr⟩ := hrep
      simp only [getCompactRepresentation] at hmem
      split at hmem
      · rcases List.mem_cons.mp hmem with h | h
        · rw [h, getValue_of_represents E left height _ hl]
          exact length_convertVectorToBytesVector 32 _ (length_merkleRoot E _ _
            (fun value hv => hleaves value (List.mem_of_mem_take hv)))
        · exact ih right _ hr (fun value hv => hleaves value (List.mem_of_mem_drop hv)) hash h
      · exact ih left _ hl (fun value hv => hleaves value (List.mem_of_mem_take hv)) hash hmem

end IncrementalMerkleNode

namespace IncrementalMerkleTree

/-- What the compact representation of a tree that holds `leaves` is made of. -/
theorem getCompactRepresentation_of_holds (E : Externals) (t : IncrementalMerkleTree)
    (leaves : List (List Bool)) (h : Holds E t leaves) :
    (getCompactRepresentation E t).treeHeight = t.treeHeight ∧
    (getCompactRepresentation E t).hashList.length = t.treeHeight ∧
    (getCompactRepresentation E t).hashVec.length =
      countOnes (getCompactRepresentation E t).hashList ∧
    (leaves.length < 2 ^ t.treeHeight →
      (getCompactRepresentation E t).hashList = binaryExpansion t.treeHeight leaves.length) ∧
    ((∀ value ∈ leaves, value.length = 256) →
      ∀ hash ∈ (getCompactRepresentation E t).hashVec, hash.length = 32) :=
  ⟨rfl, (IncrementalMerkleNode.length_getCompactRepresentation E _ _).1,
    (IncrementalMerkleNode.length_getCompactRepresentation E _ _).2,
    IncrementalMerkleNode.getCompactRepresentation_of_represents E _ _ _ h,
    IncrementalMerkleNode.hashVec_of_represents E _ _ _ h⟩

/-- C21. For every depth and every list of fewer than `2^depth` leaves, the compact
representation of the tree after the insertion of the leaves into an empty tree and `prune` has
the depth as its tree height, the binary expansion of the number of leaves (the next insertion
index) on `depth` bits, most significant bit first, as its `hashList`, and as many hashes in
`hashVec` as `hashList` has ones; it is the compact representation of the tree before `prune`.
At depth 64 the `hashList` is the bit form of the eight big-endian bytes of the number of
leaves, as the tests compute it. -/
theorem getCompactRepresentation_insertVector (E : Externals) (depth : Nat)
    (leaves : List (List Bool)) (hfit : leaves.length < 2 ^ depth) :
    ((new depth).insertVector leaves).1 = true ∧
    (getCompactRepresentation E (prune E ((new depth).insertVector leaves).2)).treeHeight =
      depth ∧
    (getCompactRepresentation E (prune E ((new depth).insertVector leaves).2)).hashList =
      binaryExpansion depth leaves.length ∧
    (getCompactRepresentation E (prune E ((new depth).insertVector leaves).2)).hashList.length =
      depth ∧
    (∀ k, k < depth →
      (getCompactRepresentation E (prune E ((new depth).insertVector leaves).2)).hashList[k]? =
        some (decide (leaves.length / 2 ^ (depth - 1 - k) % 2 = 1))) ∧
    (getCompactRepresentation E (prune E ((new depth).insertVector leaves).2)).hashVec.length =
      countOnes
        (getCompactRepresentation E (prune E ((new depth).insertVector leaves).2)).hashList ∧
    (getCompactRepresentation E ((new depth).insertVector leaves).2).hashList =
      (getCompactRepresentation E (prune E ((new depth).insertVector leaves).2)).hashList ∧
    (depth = 64 →
      (getCompactRepresentation E (prune E ((new depth).insertVector leaves).2)).hashList =
        convertBytesVectorToVector (convertIntToBytesVector leaves.length 8)) := by
  have hcond : leaves = [] ∨ ((new depth).treeHeight ≠ 0 ∧
      ([] : List (List Bool)).length + leaves.length ≤ 2 ^ (new depth).treeHeight) := by
    cases depth with
    | zero =>
      left
      exact List.length_eq_zero.mp (by simpa using hfit)
    | succ depth =>
      right
      exact ⟨Nat.succ_ne_zero _, by
        show 0 + leaves.length ≤ 2 ^ (depth + 1)
        omega⟩
  obtain ⟨hflag, hholds, hheight, _⟩ :=
    (insertVector_of_holds E (new depth) [] leaves (holds_new E depth)).1 hcond
  rw [List.nil_append] at hholds
  have hheight2 : ((new depth).insertVector leaves).2.treeHeight = depth := hheight
  have hpruned := holds_prune E _ _ hholds
  have hheight3 : (prune E ((new depth).insertVector leaves).2).treeHeight = depth := hheight2
  obtain ⟨h1, h2, h3, h4, _⟩ := getCompactRepresentation_of_holds E _ _ hpruned
  obtain ⟨_, _, _, h4u, _⟩ := getCompactRepresentation_of_holds E _ _ hholds
  rw [hheight3] at h1 h2 h4
  rw [hheight2] at h4u
  have hlist := h4 hfit
  refine ⟨hflag, h1, hlist, h2, ?_, h3, (h4u hfit).trans hlist.symm, ?_⟩
  · intro k hk
    rw [hlist, binaryExpansion, List.getElem?_map, List.getElem?_range hk]
    rfl
  · intro h64
    rw [hlist, h64, convertBytesVectorToVector_convertIntToBytesVector]

/-- C21 at the tree of the tests: depth 64, five nonzero leaves, pruned. The next insertion
index is 5, so bits 61 and 63 of the path are set and two hashes are kept. -/
theorem getCompactRepresentation_insertVector_witness :
    (List.replicate 5 nonzeroLeaf).length < 2 ^ 64 ∧
    (getCompactRepresentation mixingExternals compactTestTree).treeHeight = 64 ∧
    (getCompactRepresentation mixingExternals compactTestTree).hashList =
      convertBytesVectorToVector (convertIntToBytesVector 5 8) ∧
    (getCompactRepresentation mixingExternals compactTestTree).hashList =
      List.replicate 61 false ++ [true, false, true] ∧
    (getCompactRepresentation mixingExternals compactTestTree).hashVec.length = 2 :=
  have hC := getCompactRepresentation_insertVector mixingExternals 64
    (List.replicate 5 nonzeroLeaf) (by decide)
  ⟨by decide, hC.2.1, hC.2.2.2.2.2.2.2 rfl, by decide, by decide⟩

end IncrementalMerkleTree

/-! ## The serialized compact representation -/

theorem readFields_eq_none :
    ∀ (widths : List Nat) (bytes : List Byte), bytes.length < widths.sum →
      readFields widths bytes = none := by
  intro widths
  induction widths with
  | nil =>
    intro bytes h
    exact absurd h (Nat.not_lt_zero _)
  | cons n widths ih =>
    intro bytes h
    rw [List.sum_cons] at h
    rw [readFields, readBytes]
    by_cases hn : n ≤ bytes.length
    · rw [if_pos hn]
      simp only []
      rw [ih (bytes.drop n) (by rw [List.length_drop]; omega)]
    · rw [if_neg hn]

namespace IncrementalMerkleTreeCompact

theorem wellFormed_widths (c : IncrementalMerkleTreeCompact) (h : c.WellFormed) :
    List.replicate (countOnes c.hashList) 32 = c.hashVec.map List.length := by
  obtain ⟨_, _, hlen, hall⟩ := h
  rw [← hlen]
  symm
  rw [List.eq_replicate_iff]
  refine ⟨List.length_map _ _, fun n hn => ?_⟩
  obtain ⟨hash, hmem, rfl⟩ := List.mem_map.mp hn
  exact hall hash hmem

theorem length_padded (bits : List Bool) :
    (bits ++ List.replicate ((8 - bits.length % 8) % 8) false).length =
      8 * ((bits.length + 7) / 8) := by
  rw [List.length_append, List.length_replicate]
  omega

/-- The three parts of the serialized form, as `Deserialize` meets them. -/
theorem serialize_eq (c : IncrementalMerkleTreeCompact) (h : c.WellFormed) :
    ∃ (depth : Byte) (packed : List Byte),
      c.serialize = depth :: (packed ++ c.hashVec.flatten) ∧ depth.val = c.treeHeight ∧
      packed.length = (depth.val + 7) / 8 ∧
      (convertBytesVectorToVector packed).take depth.val = c.hashList ∧
      c.hashVec.flatten.length = 32 * countOnes c.hashList := by
  obtain ⟨hdepth, hlist, hlen, hall⟩ := h
  have hpad := length_padded c.hashList
  refine ⟨Fin.ofNat c.treeHeight, _, rfl, ?_, ?_, ?_, ?_⟩
  · show c.treeHeight % 256 = c.treeHeight
    exact Nat.mod_eq_of_lt hdepth
  · have hval : (Fin.ofNat c.treeHeight : Byte).val = c.treeHeight := Nat.mod_eq_of_lt hdepth
    rw [hval, length_convertVectorToBytesVector _ _ hpad, hlist]
  · have hval : (Fin.ofNat c.treeHeight : Byte).val = c.treeHeight := Nat.mod_eq_of_lt hdepth
    rw [hval, convertBytesVectorToVector_convertVectorToBytesVector _ _ hpad]
    exact List.take_left' hlist
  · rw [List.length_flatten, ← wellFormed_widths c ⟨hdepth, hlist, hlen, hall⟩]
    simp [Nat.mul_comm]

theorem Deserialize_serialize_append (c : IncrementalMerkleTreeCompact) (h : c.WellFormed)
    (extra : List Byte) :
    Deserialize (c.serialize ++ extra) =
      match extra with
      | [] => Except.ok c
      | _ :: _ => Except.error DeserializeError.format := by
  obtain ⟨depth, packed, hser, hdepth, hpacked, hbits, _⟩ := serialize_eq c h
  rw [hser, List.cons_append, List.append_assoc, Deserialize,
    readBytes_append _ packed _ hpacked]
  simp only [hbits, wellFormed_widths c h, readFields_append]
  cases extra with
  | nil =>
    simp only [hdepth]
  | cons e extra => rfl

theorem Deserialize_take (c : IncrementalMerkleTreeCompact) (h : c.WellFormed) (m : Nat)
    (hm : m < c.serialize.length) :
    Deserialize (c.serialize.take m) = Except.error DeserializeError.outOfRange := by
  obtain ⟨depth, packed, hser, hdepth, hpacked, hbits, hflat⟩ := serialize_eq c h
  rw [hser] at hm ⊢
  cases m with
  | zero => rfl
  | succ m =>
    rw [List.take_succ_cons, Deserialize]
    rw [List.length_cons, List.length_append] at hm
    by_cases hshort : m < packed.length
    · have hnone : readBytes ((depth.val + 7) / 8)
          ((packed ++ c.hashVec.flatten).take m) = none := by
        rw [readBytes, if_neg]
        rw [List.length_take, List.length_append]
        omega
      rw [hnone]
    · have htake : (packed ++ c.hashVec.flatten).take m =
          packed ++ c.hashVec.flatten.take (m - packed.length) := by
        rw [List.take_append_eq_append_take, List.take_of_length_le (by omega)]
      rw [htake, readBytes_append _ packed _ hpacked]
      simp only [hbits]
      rw [readFields_eq_none _ _ (by
        rw [List.length_take, wellFormed_widths c h, ← List.length_flatten]
        omega)]

end IncrementalMerkleTreeCompact

namespace IncrementalMerkleTree

/-- The compact representation of a tree of depth below 256 that holds 256-bit leaves is
well-formed. -/
theorem wellFormed_getCompactRepresentation (E : Externals) (t : IncrementalMerkleTree)
    (leaves : List (List Bool)) (h : Holds E t leaves)
    (hleaves : ∀ value ∈ leaves, value.length = 256) (hdepth : t.treeHeight < 256) :
    (getCompactRepresentation E t).WellFormed := by
  obtain ⟨h1, h2, h3, _, h5⟩ := getCompactRepresentation_of_holds E t leaves h
  exact ⟨by rw [h1]; exact hdepth, by rw [h2, h1], h3, h5 hleaves⟩

/-- The tree of `testCompactDeserializationFailures` holds its five leaves. -/
theorem holds_compactTestTree :
    Holds mixingExternals compactTestTree (List.replicate 5 nonzeroLeaf) :=
  holds_prune mixingExternals _ _
    ((insertVector_of_holds mixingExternals (new 64) [] (List.replicate 5 nonzeroLeaf)
      (holds_new mixingExternals 64)).1 (Or.inr ⟨by decide, by decide⟩)).2.1

theorem length_nonzeroLeaves (n : Nat) :
    ∀ value ∈ List.replicate n nonzeroLeaf, value.length = 256 := by
  intro value hv
  rw [List.eq_of_mem_replicate hv]
  rfl

end IncrementalMerkleTree

namespace IncrementalMerkleTreeCompact

/-- C22. For the compact representation `c` of a tree (of a depth that fits the depth byte,
holding 256-bit leaves), `Deserialize(c.serialize())` succeeds and returns `c`: the same tree
height, the same `hashList` and the same `hashVec`. The serialized form has one byte for the
depth, `ceil(D/8)` bytes of path bits and 32 bytes per `1` bit. -/
theorem Deserialize_serialize (E : Externals) (t : IncrementalMerkleTree)
    (leaves : List (List Bool)) (h : t.Holds E leaves)
    (hleaves : ∀ value ∈ leaves, value.length = 256) (hdepth : t.treeHeight < 256) :
    Deserialize (t.getCompactRepresentation E).serialize =
      Except.ok (t.getCompactRepresentation E) ∧
    (∀ c, Deserialize (t.getCompactRepresentation E).serialize = Except.ok c →
      c.treeHeight = (t.getCompactRepresentation E).treeHeight ∧
      c.hashList = (t.getCompactRepresentation E).hashList ∧
      c.hashVec = (t.getCompactRepresentation E).hashVec) ∧
    (t.getCompactRepresentation E).serialize.length =
      1 + (t.treeHeight + 7) / 8 + 32 * countOnes (t.getCompactRepresentation E).hashList := by
  have hwf := IncrementalMerkleTree.wellFormed_getCompactRepresentation E t leaves h hleaves
    hdepth
  have hround : Deserialize (t.getCompactRepresentation E).serialize =
      Except.ok (t.getCompactRepresentation E) := by
    have := Deserialize_serialize_append _ hwf []
    rw [List.append_nil] at this
    exact this
  refine ⟨hround, fun c hc => ?_, ?_⟩
  · rw [hround] at hc
    have hc2 : t.getCompactRepresentation E = c := Except.ok.inj hc
    rw [hc2]
    exact ⟨rfl, rfl, rfl⟩
  · obtain ⟨depth, packed, hser, hd, hpacked, _, hflat⟩ := serialize_eq _ hwf
    rw [hser, List.length_cons, List.length_append, hpacked, hflat, hd]
    have : (t.getCompactRepresentation E).treeHeight = t.treeHeight := rfl
    rw [this]
    omega

/-- C22 at the tree of the tests: depth 64, five nonzero leaves, pruned; 73 bytes. -/
theorem Deserialize_serialize_witness :
    compactTestTree.treeHeight < 256 ∧
    Deserialize (compactTestTree.getCompactRepresentation mixingExternals).serialize =
      Except.ok (compactTestTree.getCompactRepresentation mixingExternals) ∧
    (compactTestTree.getCompactRepresentation mixingExternals).serialize.length = 73 ∧
    (compactTestTree.getCompactRepresentation mixingExternals).serialize.take 9 =
      [64, 0, 0, 0, 0, 0, 0, 0, 5] :=
  ⟨by decide,
    (Deserialize_serialize mixingExternals compactTestTree (List.replicate 5 nonzeroLeaf)
      IncrementalMerkleTree.holds_compactTestTree (IncrementalMerkleTree.length_nonzeroLeaves 5)
      (by decide)).1,
    by decide, by decide⟩

/-- C23. For the compact representation `c` of a tree (of a depth that fits the depth byte,
holding 256-bit leaves) and every strict prefix `p` of `c.serialize()`, the empty buffer
included, `Deserialize(p)` fails with the out-of-range error; it returns no compact
representation. -/
theorem Deserialize_truncated (E : Externals) (t : IncrementalMerkleTree)
    (leaves : List (List Bool)) (p : List Byte) (h : t.Holds E leaves)
    (hleaves : ∀ value ∈ leaves, value.length = 256) (hdepth : t.treeHeight < 256)
    (hp : p <+: (t.getCompactRepresentation E).serialize)
    (hne : p ≠ (t.getCompactRepresentation E).serialize) :
    Deserialize p = Except.error DeserializeError.outOfRange ∧
    (∀ c, Deserialize p ≠ Except.ok c) ∧
    Deserialize ([] : List Byte) = Except.error DeserializeError.outOfRange := by
  have hwf := IncrementalMerkleTree.wellFormed_getCompactRepresentation E t leaves h hleaves
    hdepth
  have htake := List.prefix_iff_eq_take.mp hp
  have hlen : p.length < (t.getCompactRepresentation E).serialize.length := by
    rcases Nat.lt_or_ge p.length (t.getCompactRepresentation E).serialize.length with hlt | hge
    · exact hlt
    · exact absurd (htake.trans (List.take_of_length_le hge)) hne
  have herr : Deserialize p = Except.error DeserializeError.outOfRange := by
    rw [htake]
    exact Deserialize_take _ hwf _ hlen
  refine ⟨herr, fun c hc => ?_, rfl⟩
  rw [herr] at hc
  exact absurd hc (by simp)

/-- C23 at the tree of the tests, cut one byte short (inside the last hash), cut inside the
path bits, and cut to nothing. -/
theorem Deserialize_truncated_witness :
    Deserialize ((compactTestTree.getCompactRepresentation mixingExternals).serialize.take 72) =
      Except.error DeserializeError.outOfRange ∧
    Deserialize ((compactTestTree.getCompactRepresentation mixingExternals).serialize.take 5) =
      Except.error DeserializeError.outOfRange ∧
    Deserialize ((compactTestTree.getCompactRepresentation mixingExternals).serialize.take 0) =
      Except.error DeserializeError.outOfRange :=
  ⟨(Deserialize_truncated mixingExternals compactTestTree (List.replicate 5 nonzeroLeaf) _
      IncrementalMerkleTree.holds_compactTestTree (IncrementalMerkleTree.length_nonzeroLeaves 5)
      (by decide) (List.take_prefix 72 _) (by decide)).1,
    rfl, rfl⟩

/-- C24. For the compact representation `c` of a tree (of a depth that fits the depth byte,
holding 256-bit leaves) and every non-empty byte string `e`, `Deserialize(c.serialize() ++ e)`
fails with the format error, which is not the out-of-range error of a truncated buffer; it
returns no compact representation. -/
theorem Deserialize_trailing (E : Externals) (t : IncrementalMerkleTree)
    (leaves : List (List Bool)) (e : List Byte) (h : t.Holds E leaves)
    (hleaves : ∀ value ∈ leaves, value.length = 256) (hdepth : t.treeHeight < 256)
    (he : e ≠ []) :
    Deserialize ((t.getCompactRepresentation E).serialize ++ e) =
      Except.error DeserializeError.format ∧
    Deserialize ((t.getCompactRepresentation E).serialize ++ e) ≠
      Except.error DeserializeError.outOfRange ∧
    DeserializeError.format ≠ DeserializeError.outOfRange ∧
    ∀ c, Deserialize ((t.getCompactRepresentation E).serialize ++ e) ≠ Except.ok c := by
  have hwf := IncrementalMerkleTree.wellFormed_getCompactRepresentation E t leaves h hleaves
    hdepth
  have herr : Deserialize ((t.getCompactRepresentation E).serialize ++ e) =
      Except.error DeserializeError.format := by
    rw [Deserialize_serialize_append _ hwf e]
    cases e with
    | nil => exact absurd rfl he
    | cons b e => rfl
  rw [herr]
  exact ⟨rfl, by simp, by decide, fun c hc => absurd hc (by simp)⟩

/-- C24 at the tree of the tests with one zero byte appended. -/
theorem Deserialize_trailing_witness :
    ([0] : List Byte) ≠ [] ∧
    Deserialize ((compactTestTree.getCompactRepresentation mixingExternals).serialize ++ [0]) =
      Except.error DeserializeError.format :=
  ⟨by decide,
    (Deserialize_trailing mixingExternals compactTestTree (List.replicate 5 nonzeroLeaf) [0]
      IncrementalMerkleTree.holds_compactTestTree (IncrementalMerkleTree.length_nonzeroLeaves 5)
      (by decide) (by decide)).1⟩

end IncrementalMerkleTreeCompact

end Libzerocash
